import Mathlib

/-! Verification development for `rtc_base/task_queue_win.cc`.

A shallow embedding of the Windows task queue (`TaskQueueWin`): the pending
FIFO of immediate tasks, the priority queue of delayed tasks, the two timers,
the thread message queue, and the worker loop `RunThreadMain`.

Conventions.
* `int64_t` values are `Int`; every 64-bit operation of the source goes through
  `wrap_int64`, so that overflow is visible in the model.
* A failed `RTC_DCHECK` (on the state of the queue or of a timer, or
  `RTC_DCHECK(due_time_)` of `DelayedTaskInfo::Run`), a failed checked cast,
  and an undefined operation (`top()` of an empty priority queue) make a
  function return `none`. A step of the worker in which a check fails leaves
  the state as it was and moves to the program point `failed`; what
  `RunDueTasks` has run before a check fails is returned by
  `DueTimeHeap.RunDueTasks`.
* Values read from the operating system (the tick counter, the identifiers
  returned by `timeSetEvent` and `SetTimer`, the success of
  `PostThreadMessage`) are parameters.
* Other threads and the timers of the operating system act between the steps
  of the worker (`Action`). The one place where they act inside a step is
  `MultimediaTimer::Cancel`, whose two calls `ResetEvent` and `timeKillEvent`
  the timer thread can separate: the step `worker_raced`. An action other
  than that one is `plain`.
* `api/video/video_frame.h` contributes `VideoFrame::set_update_rect`.
-/

namespace webrtc

/-! ## Machine integers -/

/-- Two's complement reduction of an integer to the range of `int64_t`. -/
def wrap_int64 (x : Int) : Int := (x + 2 ^ 63) % 2 ^ 64 - 2 ^ 63

/-- Addition of two `int64_t` values. -/
def int64_add (a b : Int) : Int := wrap_int64 (a + b)

/-- Subtraction of two `int64_t` values. -/
def int64_sub (a b : Int) : Int := wrap_int64 (a - b)

/-- The checked narrowing `rtc::dchecked_cast<uint32_t>` of an `int64_t`:
the value itself when it is representable, a failed check otherwise. -/
def dchecked_cast_uint32 (v : Int) : Option Nat :=
  if 0 ≤ v ∧ v < 2 ^ 32 then some v.toNat else none

/-! ## Tasks and ownership -/

/-- Modelled from the spec: the Task contract (`api/task_queue/queued_task.h`
is not part of the sources): "an opaque unit of work with one operation, `run`,
returning a boolean". A task is identified by `id`; `result` is the value its
`Run()` returns. -/
structure QueuedTask where
  id : Nat
  result : Bool
deriving DecidableEq, Repr

/-- The three places of the engine that invoke `QueuedTask::Run`. -/
inductive Path where
  | pending   -- `RunPendingTasks`
  | timer     -- `DelayedTaskInfo::Run`, called by `RunDueTasks`
  | message   -- the `WM_RUN_TASK` case of `ProcessQueuedMessages`
deriving DecidableEq, Repr

/-- What the engine does to a task, in the order it does it. -/
inductive Event where
  | run (p : Path) (t : QueuedTask)   -- `Run()` is invoked
  | destroy (t : QueuedTask)          -- the task object is deleted
  | release (t : QueuedTask)          -- ownership is given up, nothing deleted
deriving DecidableEq, Repr

/-- A `std::unique_ptr<QueuedTask>`: `none` is the null pointer. -/
abbrev unique_ptr := Option QueuedTask

/-- The method `unique_ptr::reset()`: deletes the owned object, becomes null. -/
def unique_ptr.reset (p : unique_ptr) : List Event × unique_ptr :=
  match p with
  | some t => ([Event.destroy t], none)
  | none => ([], none)

/-- The method `unique_ptr::release()`: gives up ownership, becomes null. -/
def unique_ptr.release (p : unique_ptr) : List Event × unique_ptr :=
  match p with
  | some t => ([Event.release t], none)
  | none => ([], none)

/-- The destructor of a `unique_ptr`: deletes the object still owned. -/
def unique_ptr.dtor (p : unique_ptr) : List Event :=
  match p with
  | some t => [Event.destroy t]
  | none => []

/-! ## Delayed entries -/

/-- The class `DelayedTaskInfo`: an absolute due time and the task. -/
structure DelayedTaskInfo where
  due_time_ : Int
  task_ : QueuedTask
deriving DecidableEq, Repr

/-- The constructor `DelayedTaskInfo(milliseconds, task)`:
`due_time_(GetTick() + milliseconds)`, where `tick` is the value `GetTick()`
returns and the sum is an `int64_t` sum. -/
def DelayedTaskInfo.create (tick : Int) (milliseconds : Nat) (task : QueuedTask) :
    DelayedTaskInfo :=
  { due_time_ := int64_add tick milliseconds, task_ := task }

/-- The accessor `due_time()`. -/
def DelayedTaskInfo.due_time (i : DelayedTaskInfo) : Int := i.due_time_

/-- The member `operator>`: compares the due times. -/
def DelayedTaskInfo.gt (a b : DelayedTaskInfo) : Bool := decide (a.due_time_ > b.due_time_)

/-- The comparator `TaskQueueWin::greater`: `l > r`. -/
def greater (l r : DelayedTaskInfo) : Bool := l.gt r

/-- The method `DelayedTaskInfo::Run`: `RTC_DCHECK(due_time_);` then
`task_->Run() ? task_.reset() : static_cast<void>(task_.release());`.
Returns the events and the pointer the entry is left with, and `none` when
the check fails, that is for an entry whose due time is 0: the task is not
run then. -/
def DelayedTaskInfo.Run (i : DelayedTaskInfo) : Option (List Event × unique_ptr) :=
  if i.due_time_ = 0 then none
  else
    let p : unique_ptr := some i.task_
    let r := if i.task_.result then unique_ptr.reset p else unique_ptr.release p
    some (Event.run Path.timer i.task_ :: r.1, r.2)

/-- The two statements `top.Run(); timer_tasks_.pop();` of `RunDueTasks`, as
events: those of `Run`, then the destruction of the popped entry, whose
destructor destroys the pointer the entry was left with. No event for an
entry that fails the check of `Run`. -/
def DelayedTaskInfo.run_and_pop (i : DelayedTaskInfo) : List Event :=
  match i.Run with
  | none => []
  | some r => r.1 ++ unique_ptr.dtor r.2

/-! ## The priority queue of delayed entries -/

/-- Modelled from the spec: the DueTimeHeap, a `std::priority_queue` ordered by
the comparator `greater` (the library container is not part of the sources):
"a min-heap of pending delayed tasks ordered by absolute due time". The
entries are kept in insertion order. -/
abbrev DueTimeHeap := List DelayedTaskInfo

/-- Modelled from the spec: `peek_min` (`priority_queue::top`), an entry that
no other entry precedes under `greater`; among entries with equal due times
the one inserted first. `none` on an empty queue. -/
def DueTimeHeap.top : DueTimeHeap → Option DelayedTaskInfo
  | [] => none
  | x :: xs =>
    match DueTimeHeap.top xs with
    | none => some x
    | some m => if greater x m then some m else some x

/-- Modelled from the spec: `pop_min` (`priority_queue::pop`), removes the
entry `top` returns. -/
def DueTimeHeap.pop : DueTimeHeap → DueTimeHeap
  | [] => []
  | x :: xs =>
    match DueTimeHeap.top xs with
    | none => []
    | some m => if greater x m then x :: DueTimeHeap.pop xs else xs

/-- Modelled from the spec: `push` (`priority_queue::emplace`). -/
def DueTimeHeap.emplace (h : DueTimeHeap) (i : DelayedTaskInfo) : DueTimeHeap := h ++ [i]

/-- The loop of `RunDueTasks`:
`do { top = top(); if (top.due_time() > now) break; top.Run(); pop(); }
while (!empty());` -- returns the entries run, in order, and the queue left.
No queue is left (`none`) when the check of `Run` fails for the entry at the
top, when `top()` is taken of an empty queue, or when the fuel runs out; the
entries run before that are still returned. -/
def DueTimeHeap.RunDueTasks_loop (now : Int) : Nat → DueTimeHeap → List DelayedTaskInfo →
    List DelayedTaskInfo × Option DueTimeHeap
  | 0, _, ran => (ran, none)
  | fuel + 1, h, ran =>
    match h.top with
    | none => (ran, none)
    | some t =>
      if t.due_time > now then (ran, some h)
      else
        match t.Run with
        | none => (ran, none)
        | some _ =>
          let h1 := h.pop
          if h1.isEmpty then (ran ++ [t], some h1)
          else DueTimeHeap.RunDueTasks_loop now fuel h1 (ran ++ [t])

/-- The method `TaskQueueWin::RunDueTasks` on the priority queue, `now` being
the value of `GetTick()` read at entry: the entries run, in order, and the
queue left. No queue is left (`none`) when `RTC_DCHECK(!timer_tasks_.empty())`
fails or the check of `Run` fails for an entry. -/
def DueTimeHeap.RunDueTasks (h : DueTimeHeap) (now : Int) :
    List DelayedTaskInfo × Option DueTimeHeap :=
  if h.isEmpty then ([], none) else DueTimeHeap.RunDueTasks_loop now h.length h []

/-! ## The queue object, the operating-system objects it uses, and the log -/

/-- A timer of the operating system that has been started and has neither
been killed nor (for a one-shot timer) expired: the delay it was started with
and the tick at which it was started. -/
structure OsTimer where
  id : Nat
  delay_ms : Nat
  started : Int
deriving DecidableEq, Repr

/-- The effect of `timeKillEvent(id)` or `KillTimer(nullptr, id)` on an
outstanding timer: the timer with that identifier is gone. -/
def OsTimer.kill (slot : Option OsTimer) (id : Nat) : Option OsTimer :=
  match slot with
  | some t => if t.id = id then none else some t
  | none => none

/-- The class `MultimediaTimer`: the manual-reset event `event_` (signalled or
not), the field `timer_id_` (0: none), and the one-shot timer `timeSetEvent`
started, while it is outstanding. -/
structure MultimediaTimer where
  event_ : Bool
  timer_id_ : Nat
  os_timer : Option OsTimer
deriving DecidableEq, Repr

/-- The method `MultimediaTimer::StartOneShotTimer(delay_ms)`; `id` is the value
`timeSetEvent` returns (0 on failure), `now` the tick of the call. `none` when
`RTC_DCHECK_EQ(0, timer_id_)` fails. -/
def MultimediaTimer.StartOneShotTimer (t : MultimediaTimer) (delay_ms : Nat) (id : Nat)
    (now : Int) : Option (MultimediaTimer × Bool) :=
  if t.timer_id_ ≠ 0 then none
  else
    some ({ t with timer_id_ := id,
                   os_timer := if id ≠ 0 then some ⟨id, delay_ms, now⟩ else t.os_timer },
          decide (id ≠ 0))

/-- The method `MultimediaTimer::Cancel`: `ResetEvent(event_)`, then
`timeKillEvent` and `timer_id_ = 0` when a timer id is held. -/
def MultimediaTimer.Cancel (t : MultimediaTimer) : MultimediaTimer :=
  if t.timer_id_ ≠ 0 then
    { event_ := false, timer_id_ := 0, os_timer := OsTimer.kill t.os_timer t.timer_id_ }
  else { t with event_ := false }

/-- A message of the thread message queue, as `ProcessQueuedMessages` tells
them apart: by `msg.message != WM_QUIT` first (`Msg.not_quit`), then, in the
body of the loop, by `msg.hwnd` and by the `switch` on `msg.message`. -/
inductive Msg where
  | quit                                       -- `WM_QUIT`
  | run_task (task : QueuedTask)               -- `WM_RUN_TASK`, `lParam` the task
  | queue_delayed_task (info : DelayedTaskInfo) -- `WM_QUEUE_DELAYED_TASK`
  | timer (wParam : Nat)                       -- `WM_TIMER` with a null window
  | other                                      -- any other message with a null window
  | window (message : Nat)                     -- message `message` for a window (`msg.hwnd` set)
deriving DecidableEq, Repr

/-- The message number `WM_QUIT` of the Windows headers. -/
def WM_QUIT : Nat := 18

/-- The expression `msg.message != WM_QUIT`, which looks at the number of the
message and not at its window: it is false for `WM_QUIT` with a null window
and for the message numbered `WM_QUIT` for a window. -/
def Msg.not_quit : Msg → Bool
  | Msg.quit => false
  | Msg.window message => decide (message ≠ WM_QUIT)
  | _ => true

/-- The value `MsgWaitForMultipleObjectsEx` returns in `RunThreadMain`. -/
inductive WaitResult where
  | object_0        -- `WAIT_OBJECT_0`: the event of the multimedia timer
  | object_1        -- `WAIT_OBJECT_0 + 1`: the event `in_queue_`
  | object_2        -- `WAIT_OBJECT_0 + 2`: input in the message queue
  | io_completion   -- `WAIT_IO_COMPLETION`: an APC ran
deriving DecidableEq, Repr

/-- The program point the worker thread is at. -/
inductive Phase where
  | wait                              -- blocked in `MsgWaitForMultipleObjectsEx`
  | msg_loop (start : Int)            -- `ProcessQueuedMessages`, at `PeekMessage`
  | msg_schedule (start : Int)        -- `WM_TIMER` case, at `ScheduleNextTimer`
  | msg_budget (start : Int)          -- at `if (GetTick() > start + kMax...)`
  | timer_check (result : WaitResult) -- `RunThreadMain`, at the timer `if`
  | main_schedule (result : WaitResult) -- `RunThreadMain`, at `ScheduleNextTimer`
  | pending_check (result : WaitResult) -- at `if (result == WAIT_OBJECT_0 + 1)`
  | drain                             -- `RunPendingTasks`, at the top of its loop
  | stopped                           -- the loop of `RunThreadMain` was left
  | failed                            -- a check failed
deriving DecidableEq, Repr

/-- The class `TaskQueueWin` with the operating-system objects it talks to:
the fields of the class (`timer_`, `timer_tasks_`, `timer_id_`, `pending_`,
`in_queue_`), the timer `SetTimer` started (`user_timer`), the message queue
of the worker thread, the tick counter, the worker's program point, and the
log of what was done to tasks. -/
structure TaskQueueWin where
  timer_ : MultimediaTimer
  timer_tasks_ : DueTimeHeap
  timer_id_ : Nat
  pending_ : List QueuedTask
  in_queue_ : Bool
  user_timer : Option OsTimer
  messages : List Msg
  clock : Int
  phase : Phase
  log : List Event
deriving DecidableEq, Repr

/-- The queue right after construction, at tick `clock`. -/
def TaskQueueWin.init (clock : Int) : TaskQueueWin :=
  { timer_ := { event_ := false, timer_id_ := 0, os_timer := none },
    timer_tasks_ := [], timer_id_ := 0, pending_ := [], in_queue_ := false,
    user_timer := none, messages := [], clock := clock, phase := Phase.wait, log := [] }

/-- The function `GetTick`: the tick counter. -/
def TaskQueueWin.GetTick (q : TaskQueueWin) : Int := q.clock

/-! ## The methods of `TaskQueueWin` -/

/-- The method `TaskQueueWin::PostTask`: `pending_.push(task)` and
`SetEvent(in_queue_)`, under the lock. -/
def TaskQueueWin.PostTask (q : TaskQueueWin) (task : QueuedTask) : TaskQueueWin :=
  { q with pending_ := q.pending_ ++ [task], in_queue_ := true }

/-- The method `TaskQueueWin::PostDelayedTask(task, milliseconds)`;
`posted` tells whether `PostThreadMessage` succeeds. With `milliseconds == 0`
it is `PostTask`. Otherwise a `DelayedTaskInfo` is created and posted as a
`WM_QUEUE_DELAYED_TASK` message; when posting fails the entry is deleted, and
its task with it. -/
def TaskQueueWin.PostDelayedTask (q : TaskQueueWin) (task : QueuedTask) (milliseconds : Nat)
    (posted : Bool) : TaskQueueWin :=
  if milliseconds = 0 then q.PostTask task
  else
    let task_info := DelayedTaskInfo.create q.GetTick milliseconds task
    if posted then { q with messages := q.messages ++ [Msg.queue_delayed_task task_info] }
    else { q with log := q.log ++ unique_ptr.dtor (some task_info.task_) }

/-- The body of the loop of `RunPendingTasks` after the task was taken from
the queue: `if (!task->Run()) task.release();`, then the end of the scope of
`task`, where its destructor runs. -/
def run_pending_task (task : QueuedTask) : List Event :=
  let p : unique_ptr := some task
  let r := if !task.result then unique_ptr.release p else ([], p)
  Event.run Path.pending task :: (r.1 ++ unique_ptr.dtor r.2)

/-- One iteration of the loop of `TaskQueueWin::RunPendingTasks`: `none` is the
`break` on an empty queue; otherwise the front task is popped and run. -/
def TaskQueueWin.RunPendingTasks_iteration (q : TaskQueueWin) : Option TaskQueueWin :=
  match q.pending_ with
  | [] => none
  | task :: rest => some { q with pending_ := rest, log := q.log ++ run_pending_task task }

/-- The loop `while (true)` of `RunPendingTasks`, with no other thread posting
meanwhile. `none` when the fuel runs out. -/
def TaskQueueWin.RunPendingTasks_loop : Nat → TaskQueueWin → Option TaskQueueWin
  | 0, _ => none
  | fuel + 1, q =>
    match q.RunPendingTasks_iteration with
    | none => some q
    | some q1 => TaskQueueWin.RunPendingTasks_loop fuel q1

/-- The method `TaskQueueWin::RunPendingTasks`, with no other thread posting
meanwhile. -/
def TaskQueueWin.RunPendingTasks (q : TaskQueueWin) : Option TaskQueueWin :=
  TaskQueueWin.RunPendingTasks_loop (q.pending_.length + 1) q

/-- The method `TaskQueueWin::RunDueTasks` on the queue object: the entries it
runs leave `timer_tasks_` and their events enter the log. `none` when a check
fails: `RTC_DCHECK(!timer_tasks_.empty())` at entry, or `RTC_DCHECK(due_time_)`
of `Run` for a due entry. -/
def TaskQueueWin.RunDueTasks (q : TaskQueueWin) : Option TaskQueueWin :=
  match DueTimeHeap.RunDueTasks q.timer_tasks_ q.GetTick with
  | (_, none) => none
  | (ran, some rest) =>
    some { q with timer_tasks_ := rest,
                  log := q.log ++ ran.flatMap DelayedTaskInfo.run_and_pop }

/-- The delay `ScheduleNextTimer` computes for the entry `next_task`:
`std::max(0ll, next_task.due_time() - GetTick())`. -/
def next_delay_ms (next_task : DelayedTaskInfo) (tick : Int) : Int :=
  max 0 (int64_sub next_task.due_time tick)

/-- The method `TaskQueueWin::ScheduleNextTimer`; `mm_id` and `user_id` are the
values `timeSetEvent` and `SetTimer` would return (0 on failure). `none` when
`RTC_DCHECK_EQ(timer_id_, 0)`, the checked cast or the check in
`StartOneShotTimer` fails. -/
def TaskQueueWin.ScheduleNextTimer (q : TaskQueueWin) (mm_id user_id : Nat) :
    Option TaskQueueWin :=
  if q.timer_id_ ≠ 0 then none
  else
    match q.timer_tasks_.top with
    | none => some q
    | some next_task =>
      match dchecked_cast_uint32 (next_delay_ms next_task q.GetTick) with
      | none => none
      | some milliseconds =>
        match q.timer_.StartOneShotTimer milliseconds mm_id q.GetTick with
        | none => none
        | some (t, true) => some { q with timer_ := t }
        | some (t, false) =>
          some { q with timer_ := t, timer_id_ := user_id,
                        user_timer := if user_id ≠ 0 then some ⟨user_id, milliseconds, q.GetTick⟩
                                      else q.user_timer }

/-- The method `TaskQueueWin::CancelTimers`: `timer_.Cancel()`, then `KillTimer`
and `timer_id_ = 0` when a timer id is held. -/
def TaskQueueWin.CancelTimers (q : TaskQueueWin) : TaskQueueWin :=
  let q1 := { q with timer_ := q.timer_.Cancel }
  if q1.timer_id_ ≠ 0 then
    { q1 with timer_id_ := 0, user_timer := OsTimer.kill q1.user_timer q1.timer_id_ }
  else q1

/-- The constant `kMaxTaskProcessingTimeMs` of `ProcessQueuedMessages`. -/
def kMaxTaskProcessingTimeMs : Int := 500

/-- The case `WM_RUN_TASK`: `if (task->Run()) delete task;` on a raw pointer. -/
def run_task_message (task : QueuedTask) : List Event :=
  Event.run Path.message task ::
    (if task.result then [Event.destroy task] else [Event.release task])

/-- The case `WM_QUEUE_DELAYED_TASK` of `ProcessQueuedMessages`: the entry is
moved into `timer_tasks_`; the timers are cancelled and rescheduled when the
queue was empty or its top was due later than the new entry. -/
def TaskQueueWin.queue_delayed_task (q : TaskQueueWin) (info : DelayedTaskInfo)
    (mm_id user_id : Nat) : Option TaskQueueWin :=
  let need_to_schedule_timers : Bool :=
    match q.timer_tasks_.top with
    | none => true
    | some top => decide (top.due_time > info.due_time)
  let q1 := { q with timer_tasks_ := q.timer_tasks_.emplace info }
  if need_to_schedule_timers then q1.CancelTimers.ScheduleNextTimer mm_id user_id
  else some q1

/-- The error code `ERROR_NOT_ENOUGH_QUOTA` of `GetLastError()`. -/
def ERROR_NOT_ENOUGH_QUOTA : Nat := 1816

/-- The loop of `Delete`:
`while (!PostThreadMessage(.., WM_QUIT, ..)) { RTC_CHECK_EQ(ERROR_NOT_ENOUGH_QUOTA,
GetLastError()); Sleep(1); }` -- `errors` lists the values of `GetLastError()`
after the attempts that fail before one succeeds. `none` when the check fails. -/
def TaskQueueWin.post_quit (q : TaskQueueWin) : List Nat → Option TaskQueueWin
  | [] => some { q with messages := q.messages ++ [Msg.quit] }
  | error :: errors =>
    if error ≠ ERROR_NOT_ENOUGH_QUOTA then none else TaskQueueWin.post_quit q errors

/-- The method `TaskQueueWin::Delete` up to the call `thread_.Stop()`;
`is_current` tells whether the caller is the worker thread. `none` when
`RTC_DCHECK(!IsCurrent())` fails; otherwise the message `WM_QUIT` is posted,
the posting being tried again after each failure for lack of quota. -/
def TaskQueueWin.Delete (q : TaskQueueWin) (is_current : Bool) (errors : List Nat) :
    Option TaskQueueWin :=
  if is_current then none else q.post_quit errors

/-- The case `WM_TIMER` of `ProcessQueuedMessages` up to `RunDueTasks`:
`RTC_DCHECK_EQ(timer_id_, msg.wParam)`, `KillTimer`, `timer_id_ = 0`,
`RunDueTasks()`. `none` when a check fails. -/
def TaskQueueWin.wm_timer (q : TaskQueueWin) (wParam : Nat) : Option TaskQueueWin :=
  if q.timer_id_ ≠ wParam then none
  else
    TaskQueueWin.RunDueTasks
      { q with user_timer := OsTimer.kill q.user_timer wParam, timer_id_ := 0 }

/-! ## The worker loop as a transition system -/

/-- A check failed: the process stops. -/
def TaskQueueWin.fail (q : TaskQueueWin) : TaskQueueWin := { q with phase := Phase.failed }

/-- Continue at program point `p`, or stop when a check failed. -/
def TaskQueueWin.continue_at (r : Option TaskQueueWin) (q : TaskQueueWin) (p : Phase) :
    TaskQueueWin :=
  match r with
  | none => q.fail
  | some q1 => { q1 with phase := p }

/-- One iteration of the loop of `ProcessQueuedMessages` up to the statement
that reads the clock next: `PeekMessage` with `PM_REMOVE` and the test
`msg.message != WM_QUIT` of the loop condition, which ends the loop for
`WM_QUIT` with or without a window; then, in the body, the `switch` for a
message with a null window and `DispatchMessage` for a message of a window. -/
def TaskQueueWin.peek_message (q : TaskQueueWin) (start : Int) (mm_id user_id : Nat) :
    TaskQueueWin :=
  match q.messages with
  | [] => { q with phase := Phase.timer_check WaitResult.object_2 }
  | Msg.quit :: rest => { q with messages := rest, phase := Phase.stopped }
  | Msg.run_task task :: rest =>
    { q with messages := rest, log := q.log ++ run_task_message task,
             phase := Phase.msg_budget start }
  | Msg.queue_delayed_task info :: rest =>
    TaskQueueWin.continue_at
      (({ q with messages := rest }).queue_delayed_task info mm_id user_id) q
      (Phase.msg_budget start)
  | Msg.timer wParam :: rest =>
    TaskQueueWin.continue_at (({ q with messages := rest }).wm_timer wParam) q
      (Phase.msg_schedule start)
  | Msg.other :: _ => q.fail
  | Msg.window message :: rest =>
    if message = WM_QUIT then { q with messages := rest, phase := Phase.stopped }
    else { q with messages := rest, phase := Phase.msg_budget start }

/-- The next step of the worker thread, by program point. -/
def TaskQueueWin.worker (q : TaskQueueWin) (mm_id user_id : Nat) : TaskQueueWin :=
  match q.phase with
  | Phase.wait => q
  | Phase.msg_loop start => q.peek_message start mm_id user_id
  | Phase.msg_schedule start =>
    TaskQueueWin.continue_at (q.ScheduleNextTimer mm_id user_id) q (Phase.msg_budget start)
  | Phase.msg_budget start =>
    if q.GetTick > int64_add start kMaxTaskProcessingTimeMs then
      { q with phase := Phase.timer_check WaitResult.object_2 }
    else { q with phase := Phase.msg_loop start }
  | Phase.timer_check result =>
    if result = WaitResult.object_0 ∨ (¬ q.timer_tasks_.isEmpty ∧ q.timer_.event_ = true) then
      TaskQueueWin.continue_at (({ q with timer_ := q.timer_.Cancel }).RunDueTasks) q
        (Phase.main_schedule result)
    else { q with phase := Phase.pending_check result }
  | Phase.main_schedule result =>
    TaskQueueWin.continue_at (q.ScheduleNextTimer mm_id user_id) q (Phase.pending_check result)
  | Phase.pending_check result =>
    if result = WaitResult.object_1 then { q with in_queue_ := false, phase := Phase.drain }
    else { q with phase := Phase.wait }
  | Phase.drain =>
    match q.RunPendingTasks_iteration with
    | none => { q with phase := Phase.wait }
    | some q1 => q1
  | Phase.stopped => q
  | Phase.failed => q

/-- Whether the wait of `RunThreadMain` can return `result`. -/
def TaskQueueWin.signalled (q : TaskQueueWin) : WaitResult → Bool
  | WaitResult.object_0 => q.timer_.event_
  | WaitResult.object_1 => q.in_queue_
  | WaitResult.object_2 => !q.messages.isEmpty
  | WaitResult.io_completion => true

/-- The call `MsgWaitForMultipleObjectsEx` returns `result`; when that is
`WAIT_OBJECT_0 + 2` the worker enters `ProcessQueuedMessages` and reads the
start tick. -/
def TaskQueueWin.wake (q : TaskQueueWin) (result : WaitResult) : TaskQueueWin :=
  if q.phase = Phase.wait ∧ q.signalled result = true then
    { q with phase := if result = WaitResult.object_2 then Phase.msg_loop q.GetTick
                      else Phase.timer_check result }
  else q

/-- Whether an operating-system timer started at `t.started` for `t.delay_ms`
has reached its time at tick `now`. -/
def OsTimer.elapsed (t : OsTimer) (now : Int) : Bool := decide (t.started + t.delay_ms ≤ now)

/-- The call `::ResetEvent(event_)`. -/
def MultimediaTimer.ResetEvent (t : MultimediaTimer) : MultimediaTimer :=
  { t with event_ := false }

/-- The one-shot timer `timeSetEvent` started reaches its time: it sets the
event and is gone. Nothing happens when no timer is outstanding or its time
has not come at tick `now`. -/
def MultimediaTimer.expire (t : MultimediaTimer) (now : Int) : MultimediaTimer :=
  match t.os_timer with
  | some x => if x.elapsed now then { t with event_ := true, os_timer := none } else t
  | none => t

/-- The rest of `MultimediaTimer::Cancel` after `ResetEvent`:
`if (timer_id_) { ::timeKillEvent(timer_id_); timer_id_ = 0; }`. -/
def MultimediaTimer.KillEvent (t : MultimediaTimer) : MultimediaTimer :=
  if t.timer_id_ ≠ 0 then
    { t with timer_id_ := 0, os_timer := OsTimer.kill t.os_timer t.timer_id_ }
  else t

/-- The method `MultimediaTimer::Cancel` when the one-shot timer reaches its
time after `::ResetEvent(event_)` and before `::timeKillEvent(timer_id_)`: the
timer thread sets the event between the two calls of the worker. -/
def MultimediaTimer.Cancel_raced (t : MultimediaTimer) (now : Int) : MultimediaTimer :=
  (t.ResetEvent.expire now).KillEvent

/-- The method `TaskQueueWin::CancelTimers` with the timer expiring inside
`timer_.Cancel()`. -/
def TaskQueueWin.CancelTimers_raced (q : TaskQueueWin) : TaskQueueWin :=
  let q1 := { q with timer_ := q.timer_.Cancel_raced q.clock }
  if q1.timer_id_ ≠ 0 then
    { q1 with timer_id_ := 0, user_timer := OsTimer.kill q1.user_timer q1.timer_id_ }
  else q1

/-- The case `WM_QUEUE_DELAYED_TASK` of `ProcessQueuedMessages` with the timer
expiring inside `CancelTimers()`. -/
def TaskQueueWin.queue_delayed_task_raced (q : TaskQueueWin) (info : DelayedTaskInfo)
    (mm_id user_id : Nat) : Option TaskQueueWin :=
  let need_to_schedule_timers : Bool :=
    match q.timer_tasks_.top with
    | none => true
    | some top => decide (top.due_time > info.due_time)
  let q1 := { q with timer_tasks_ := q.timer_tasks_.emplace info }
  if need_to_schedule_timers then q1.CancelTimers_raced.ScheduleNextTimer mm_id user_id
  else some q1

/-- A step of the worker thread during which the one-shot multimedia timer
reaches its time inside a call of `MultimediaTimer::Cancel`, between
`ResetEvent` and `timeKillEvent`. The two places of the loop that call
`Cancel` are the case `WM_QUEUE_DELAYED_TASK` and the timer `if` of
`RunThreadMain`; everywhere else the step is the step `worker`. -/
def TaskQueueWin.worker_raced (q : TaskQueueWin) (mm_id user_id : Nat) : TaskQueueWin :=
  match q.phase with
  | Phase.msg_loop start =>
    match q.messages with
    | Msg.queue_delayed_task info :: rest =>
      TaskQueueWin.continue_at
        (({ q with messages := rest }).queue_delayed_task_raced info mm_id user_id) q
        (Phase.msg_budget start)
    | _ => q.worker mm_id user_id
  | Phase.timer_check result =>
    if result = WaitResult.object_0 ∨ (¬ q.timer_tasks_.isEmpty ∧ q.timer_.event_ = true) then
      TaskQueueWin.continue_at
        (({ q with timer_ := q.timer_.Cancel_raced q.clock }).RunDueTasks) q
        (Phase.main_schedule result)
    else { q with phase := Phase.pending_check result }
  | _ => q.worker mm_id user_id

/-- What can happen next: a call by another thread or by a running task, an
event of the operating system, or a step of the worker thread. -/
inductive Action where
  | PostTask (task : QueuedTask)
  | PostDelayedTask (task : QueuedTask) (milliseconds : Nat) (posted : Bool)
  | post_run_task (task : QueuedTask)     -- a `WM_RUN_TASK` message is posted
  | post_window_message (message : Nat)   -- a message for a window arrives
  | Delete (is_current : Bool)
  | tick (dt : Nat)                       -- `dt` milliseconds pass
  | mm_timer_expires                      -- the one-shot multimedia timer expires
  | user_timer_expires                    -- the `SetTimer` timer posts `WM_TIMER`
  | wake (result : WaitResult)
  | worker (mm_id user_id : Nat)
  | worker_raced (mm_id user_id : Nat)    -- a worker step with the timer expiring in `Cancel`
deriving DecidableEq, Repr

/-- One step of the system. An action that is not enabled leaves the state as
it is; nothing happens after a failed check. -/
def TaskQueueWin.step (q : TaskQueueWin) (a : Action) : TaskQueueWin :=
  if q.phase = Phase.failed then q
  else
    match a with
    | Action.PostTask task => q.PostTask task
    | Action.PostDelayedTask task milliseconds posted =>
      q.PostDelayedTask task (milliseconds % 2 ^ 32) posted
    | Action.post_run_task task => { q with messages := q.messages ++ [Msg.run_task task] }
    | Action.post_window_message m => { q with messages := q.messages ++ [Msg.window m] }
    | Action.Delete is_current =>
      match q.Delete is_current [] with
      | none => q.fail
      | some q1 => q1
    | Action.tick dt => { q with clock := q.clock + dt }
    | Action.mm_timer_expires =>
      match q.timer_.os_timer with
      | some t =>
        if t.elapsed q.clock then
          { q with timer_ := { q.timer_ with event_ := true, os_timer := none } }
        else q
      | none => q
    | Action.user_timer_expires =>
      match q.user_timer with
      | some t =>
        if t.elapsed q.clock then { q with messages := q.messages ++ [Msg.timer t.id] } else q
      | none => q
    | Action.wake result => q.wake result
    | Action.worker mm_id user_id => q.worker mm_id user_id
    | Action.worker_raced mm_id user_id => q.worker_raced mm_id user_id

/-- The state after a sequence of actions. -/
def TaskQueueWin.exec (q : TaskQueueWin) (actions : List Action) : TaskQueueWin :=
  actions.foldl TaskQueueWin.step q

/-- The entries of a queue that are due at `now`. -/
def DueTimeHeap.due (h : DueTimeHeap) (now : Int) : List DelayedTaskInfo :=
  h.filter (fun e => decide (e.due_time ≤ now))

/-- The entries of a queue that are not yet due at `now`. -/
def DueTimeHeap.not_due (h : DueTimeHeap) (now : Int) : List DelayedTaskInfo :=
  h.filter (fun e => decide (e.due_time > now))

/-- The tasks whose `Run()` the log records on path `p`, in order. -/
def runs_on (p : Path) (log : List Event) : List QueuedTask :=
  log.filterMap (fun e =>
    match e with
    | Event.run p1 t => if p1 = p then some t else none
    | _ => none)

/-- The tasks whose `Run()` the log records, in order. -/
def runs (log : List Event) : List QueuedTask :=
  log.filterMap (fun e =>
    match e with
    | Event.run _ t => some t
    | _ => none)

/-- The tasks an action hands to `PostTask`: the argument of `PostTask`, and
that of `PostDelayedTask` when the delay is 0. -/
def Action.immediate_tasks : Action → List QueuedTask
  | Action.PostTask task => [task]
  | Action.PostDelayedTask task milliseconds _ => if milliseconds % 2 ^ 32 = 0 then [task] else []
  | _ => []

/-- The tasks an action hands to the engine. -/
def Action.tasks : Action → List QueuedTask
  | Action.PostTask task => [task]
  | Action.PostDelayedTask task _ _ => [task]
  | Action.post_run_task task => [task]
  | _ => []

/-- The tasks a message carries. -/
def Msg.tasks : Msg → List QueuedTask
  | Msg.run_task task => [task]
  | Msg.queue_delayed_task info => [info.task_]
  | _ => []

/-- The tasks the engine holds and has not run: those in `pending_`, in
`timer_tasks_` and in the message queue. -/
def TaskQueueWin.held (q : TaskQueueWin) : List QueuedTask :=
  q.pending_ ++ q.timer_tasks_.map DelayedTaskInfo.task_ ++ q.messages.flatMap Msg.tasks

/-- The events of handling a message that carries a task to run. -/
def Msg.runs : Msg → List Event
  | Msg.run_task task => run_task_message task
  | _ => []

/-- The delayed entry a message carries. -/
def Msg.entries : Msg → List DelayedTaskInfo
  | Msg.queue_delayed_task info => [info]
  | _ => []

/-- The immediate tasks of an execution in the order the engine met them:
those `RunPendingTasks` has run, then those still in `pending_`. -/
def TaskQueueWin.pending_seq (q : TaskQueueWin) : List QueuedTask :=
  runs_on Path.pending q.log ++ q.pending_

/-- The number of times task `t` has been run or is held by the engine. -/
def TaskQueueWin.tally (q : TaskQueueWin) (t : QueuedTask) : Nat :=
  (runs q.log).count t + q.held.count t

/-- Whether an action can happen in state `q`. The wait returns the lowest
index among the signalled objects, the message queue counting as index 2;
a timer expires only when its time has come; the worker steps only while it
is neither blocked nor stopped, and a step of it with the multimedia timer
expiring inside `Cancel` needs that timer to have reached its time. -/
def TaskQueueWin.enabled (q : TaskQueueWin) : Action → Bool
  | Action.wake WaitResult.object_0 => decide (q.phase = Phase.wait) && q.timer_.event_
  | Action.wake WaitResult.object_1 =>
    decide (q.phase = Phase.wait) && q.in_queue_ && !q.timer_.event_
  | Action.wake WaitResult.object_2 =>
    decide (q.phase = Phase.wait) && !q.messages.isEmpty && !q.timer_.event_ && !q.in_queue_
  | Action.wake WaitResult.io_completion => decide (q.phase = Phase.wait)
  | Action.mm_timer_expires =>
    match q.timer_.os_timer with
    | some t => t.elapsed q.clock
    | none => false
  | Action.user_timer_expires =>
    match q.user_timer with
    | some t => t.elapsed q.clock
    | none => false
  | Action.worker _ _ =>
    decide (q.phase ≠ Phase.wait ∧ q.phase ≠ Phase.stopped ∧ q.phase ≠ Phase.failed)
  | Action.worker_raced _ _ =>
    decide (q.phase ≠ Phase.wait ∧ q.phase ≠ Phase.stopped ∧ q.phase ≠ Phase.failed) &&
      (match q.timer_.os_timer with
       | some t => t.elapsed q.clock
       | none => false)
  | _ => decide (q.phase ≠ Phase.failed)

/-- Whether every action of a sequence can happen when its turn comes. -/
def TaskQueueWin.enabled_all (q : TaskQueueWin) : List Action → Bool
  | [] => true
  | a :: acts => q.enabled a && TaskQueueWin.enabled_all (q.step a) acts

/-- A delayed task posted at tick 0 with a delay of 100 ms. -/
def overtaken_late : QueuedTask := { id := 1, result := true }

/-- A delayed task posted at tick 50 with a delay of 10 ms. -/
def overtaken_early : QueuedTask := { id := 2, result := true }

/-- An immediate task that runs for 200 ms. -/
def overtaken_busy : QueuedTask := { id := 3, result := true }

/-- An execution up to the moment the worker returns to its wait after the
long immediate task: the entry due at 100 is in `timer_tasks_` and its timer
has expired, the entry due at 60 is still a message in the queue. -/
def overtaken_before : List Action :=
  [ Action.PostDelayedTask overtaken_late 100 true,
    Action.wake WaitResult.object_2,
    Action.worker 7 0, Action.worker 0 0, Action.worker 0 0, Action.worker 0 0,
    Action.worker 0 0,
    Action.tick 10,
    Action.PostTask overtaken_busy,
    Action.wake WaitResult.object_1,
    Action.worker 0 0, Action.worker 0 0, Action.worker 0 0,
    Action.tick 40,
    Action.PostDelayedTask overtaken_early 10 true,
    Action.tick 50,
    Action.mm_timer_expires,
    Action.tick 110,
    Action.worker 0 0 ]

/-- The rest of that execution: the wait returns `WAIT_OBJECT_0` and the due
entry is run; then the queued message is handled, a timer with delay 0 is
asked for (`timeSetEvent` refuses it, `SetTimer` returns 9), its `WM_TIMER`
message arrives, and the entry of the message is run. -/
def overtaken_after : List Action :=
  [ Action.wake WaitResult.object_0,
    Action.worker 0 0, Action.worker 0 0, Action.worker 0 0,
    Action.wake WaitResult.object_2,
    Action.worker 0 9, Action.worker 0 0, Action.worker 0 0, Action.worker 0 0,
    Action.worker 0 0,
    Action.user_timer_expires,
    Action.wake WaitResult.object_2,
    Action.worker 0 0 ]

/-- Whether every outstanding timer of the operating system is one the queue
holds the identifier of. -/
def TaskQueueWin.timers_consistent (q : TaskQueueWin) : Bool :=
  (match q.timer_.os_timer with
    | some t => decide (t.id = q.timer_.timer_id_ ∧ t.id ≠ 0)
    | none => true) &&
  (match q.user_timer with
    | some t => decide (t.id = q.timer_id_ ∧ t.id ≠ 0)
    | none => true)

/-- Two immediate tasks and the worker steps that run them. -/
def fifo_sample : List Action :=
  [ Action.PostTask { id := 1, result := true },
    Action.PostTask { id := 2, result := false },
    Action.wake WaitResult.object_1,
    Action.worker 0 0, Action.worker 0 0, Action.worker 0 0, Action.worker 0 0 ]

/-- A queue at tick 30 whose only delayed entry is due at tick 100, with the
multimedia timer started for it. -/
def sample_queue : TaskQueueWin :=
  { TaskQueueWin.init 30 with
    timer_tasks_ := [{ due_time_ := 100, task_ := { id := 1, result := true } }],
    timer_ := { event_ := false, timer_id_ := 7, os_timer := some ⟨7, 70, 30⟩ } }

/-- A queue at tick 30 whose only delayed entry is due at tick 100, no timer
started yet. -/
def sample_unscheduled : TaskQueueWin :=
  { TaskQueueWin.init 30 with
    timer_tasks_ := [{ due_time_ := 100, task_ := { id := 1, result := true } }] }

/-- A queue at tick 20 with three delayed entries, due at 30, 10 and 20. -/
def sample_due_queue : TaskQueueWin :=
  { TaskQueueWin.init 20 with
    timer_tasks_ := [{ due_time_ := 30, task_ := { id := 1, result := true } },
                     { due_time_ := 10, task_ := { id := 2, result := false } },
                     { due_time_ := 20, task_ := { id := 3, result := true } }] }

/-- A delayed entry due at tick 60. -/
def sample_earlier : DelayedTaskInfo := { due_time_ := 60, task_ := { id := 2, result := true } }

/-- Whether no wake-up is missed: a task in `pending_` comes with the event
`in_queue_` signalled, unless the worker is inside `RunPendingTasks`. -/
def TaskQueueWin.no_missed_wake (q : TaskQueueWin) : Bool :=
  q.pending_.isEmpty || q.in_queue_ || decide (q.phase = Phase.drain) ||
    decide (q.phase = Phase.failed)

/-- What happens around the handling of one message in `ProcessQueuedMessages`:
the time that passes while the message is handled, and the identifiers
`timeSetEvent` and `SetTimer` would return. -/
structure Handling where
  elapsed : Nat
  mm_id : Nat
  user_id : Nat
deriving DecidableEq, Repr

/-- The clock moves on by `dt` milliseconds. -/
def TaskQueueWin.advance (q : TaskQueueWin) (dt : Nat) : TaskQueueWin :=
  { q with clock := q.clock + dt }

/-- The body of the loop of `ProcessQueuedMessages` for the message `msg` just
taken from the queue, up to the check of the time: the `switch` for a message
without window, `DispatchMessage` otherwise. The time `h.elapsed` passes while
the tasks of the message run. `none` when a check fails. -/
def TaskQueueWin.handle_message (q : TaskQueueWin) (msg : Msg) (h : Handling) :
    Option TaskQueueWin :=
  match msg with
  | Msg.quit => some q
  | Msg.run_task task =>
    some (TaskQueueWin.advance { q with log := q.log ++ run_task_message task } h.elapsed)
  | Msg.queue_delayed_task info =>
    match q.queue_delayed_task info h.mm_id h.user_id with
    | none => none
    | some q1 => some (q1.advance h.elapsed)
  | Msg.timer wParam =>
    match q.wm_timer wParam with
    | none => none
    | some q1 => (q1.advance h.elapsed).ScheduleNextTimer h.mm_id h.user_id
  | Msg.other => none
  | Msg.window _ => some (q.advance h.elapsed)

/-- The loop of `ProcessQueuedMessages` and its `return msg.message != WM_QUIT`,
with no other thread posting meanwhile: `msg` is the variable `msg`, that is
the message taken last; one `Handling` is used up by each message handled.
The condition `PeekMessage(..) && msg.message != WM_QUIT` takes the message
from the queue and ends the loop when its number is `WM_QUIT`, before the body
looks at `msg.hwnd`. `none` when a check fails or the list of handlings runs
out. -/
def TaskQueueWin.ProcessQueuedMessages_loop (start : Int) :
    List Handling → TaskQueueWin → Msg → Option (TaskQueueWin × Bool)
  | hs, q, msg =>
    match q.messages with
    | [] => some (q, msg.not_quit)
    | m :: rest =>
      if m.not_quit = false then some ({ q with messages := rest }, m.not_quit)
      else
        match hs with
        | [] => none
        | h :: hs1 =>
          match TaskQueueWin.handle_message { q with messages := rest } m h with
          | none => none
          | some q1 =>
            if q1.GetTick > int64_add start kMaxTaskProcessingTimeMs then some (q1, m.not_quit)
            else TaskQueueWin.ProcessQueuedMessages_loop start hs1 q1 m

/-- The method `TaskQueueWin::ProcessQueuedMessages`: `MSG msg = {}`,
`auto start = GetTick()`, the loop, and the value returned. -/
def TaskQueueWin.ProcessQueuedMessages (q : TaskQueueWin) (hs : List Handling) :
    Option (TaskQueueWin × Bool) :=
  TaskQueueWin.ProcessQueuedMessages_loop q.GetTick hs q Msg.other

/-- The steps of the transition system that handle one message: the worker
takes the message, the time of the handling passes, and the worker goes on to
the check of the time. -/
def Msg.script (m : Msg) (h : Handling) : List Action :=
  match m with
  | Msg.timer _ =>
    [Action.worker h.mm_id h.user_id, Action.tick h.elapsed, Action.worker h.mm_id h.user_id,
      Action.worker h.mm_id h.user_id]
  | _ => [Action.worker h.mm_id h.user_id, Action.tick h.elapsed, Action.worker h.mm_id h.user_id]

/-- A message queue with the quit message, here the message numbered
`WM_QUIT` for a window, between other messages. -/
def quit_sample : TaskQueueWin :=
  { TaskQueueWin.init 0 with
    messages := [Msg.window 1, Msg.run_task { id := 1, result := true },
                 Msg.window WM_QUIT, Msg.run_task { id := 2, result := true }],
    phase := Phase.msg_loop 0 }

/-- Modelled from the spec: `thread_.Stop()` of `PlatformThread`, whose code is
not among the sources, joins the worker thread ("thread routine returns,
enabling the join in `Delete`"): it returns only in a state in which the
thread routine has returned, and `none` stands for a join that has not
returned. -/
def TaskQueueWin.Stop (q : TaskQueueWin) : Option TaskQueueWin :=
  if q.phase = Phase.stopped then some q else none

/-- An execution in which `Delete` is called while an immediate task is queued
and a delayed entry is on its way. -/
def delete_sample : List Action :=
  [ Action.PostDelayedTask { id := 1, result := true } 50 true,
    Action.PostTask { id := 2, result := true },
    Action.Delete false,
    Action.wake WaitResult.object_1,
    Action.worker 0 0, Action.worker 0 0, Action.worker 0 0, Action.worker 0 0,
    Action.wake WaitResult.object_2,
    Action.worker 7 0, Action.worker 7 0, Action.worker 7 0 ]

/-- The immediate tasks of the flood: `n` tasks with the ids 1 to `n`. -/
def flood_tasks (n : Nat) : List QueuedTask :=
  (List.range n).map (fun i => { id := i + 1, result := true })

/-- The delayed task posted after the flood, with a delay of 50 ms. -/
def flood_delayed : QueuedTask := { id := 0, result := true }

/-- The worker steps of one drain pass over `tasks`, each task taking 1 ms. -/
def drain_pass (tasks : List QueuedTask) : List Action :=
  tasks.flatMap (fun _ => [Action.worker 0 0, Action.tick 1])

/-- An execution from the idle queue: the immediate tasks `tasks` are posted,
then one delayed task due in 50 ms; the wait returns for `in_queue_`, and the
worker makes one drain pass in which every task takes 1 ms. -/
def flood (tasks : List QueuedTask) : List Action :=
  tasks.map Action.PostTask ++
    [Action.PostDelayedTask flood_delayed 50 true, Action.wake WaitResult.object_1,
     Action.worker 0 0, Action.worker 0 0] ++
    drain_pass tasks

/-- The actions of the worker thread and of the operating system, as opposed
to calls from other threads. -/
def Action.internal : Action → Bool
  | Action.tick _ => true
  | Action.mm_timer_expires => true
  | Action.user_timer_expires => true
  | Action.wake _ => true
  | Action.worker _ _ => true
  | Action.worker_raced _ _ => true
  | _ => false

/-- Whether the worker has nothing left that could wake it for a delayed
entry: no timer is outstanding, no event is signalled, nothing is queued, and
the worker is at its wait or on its way back to it after a wake-up without
cause. -/
def TaskQueueWin.stranded (q : TaskQueueWin) : Bool :=
  q.timer_.os_timer.isNone && q.user_timer.isNone && !q.timer_.event_ && q.messages.isEmpty &&
    !q.in_queue_ && q.pending_.isEmpty &&
    (decide (q.phase = Phase.wait) ||
      decide (q.phase = Phase.timer_check WaitResult.io_completion) ||
      decide (q.phase = Phase.pending_check WaitResult.io_completion))

/-- Whether `p` holds in every state of the execution of `acts` from `q`, the
first and the last state included. -/
def TaskQueueWin.always (p : TaskQueueWin → Bool) : TaskQueueWin → List Action → Bool
  | q, [] => p q
  | q, a :: acts => p q && TaskQueueWin.always p (q.step a) acts

/-- Whether the worker has kept up with the tasks posted from tick `c` on: the
immediate task `C` has run by tick `c + 10`, and no delayed entry is left in
the message queue by tick `c + 100`. -/
def TaskQueueWin.timely (c : Int) (C : QueuedTask) (q : TaskQueueWin) : Bool :=
  (decide (q.clock < c + 10) || decide (C ∈ runs q.log)) &&
    (decide (q.clock < c + 100) || (q.messages.flatMap Msg.entries).isEmpty)

/-- The bookkeeping of the scenario of the three posts: the delayed entries
`ranlist` have run so far, after the immediate tasks; the immediate tasks
posted so far are `pc` and the delayed entries posted so far are `S`, each of
them either run, in `timer_tasks_` or in the message queue; of the two entries
`b0` runs first; a delayed entry runs only after `C`; and no message of the
queue carries a task to run. -/
def TaskQueueWin.ordered (q : TaskQueueWin) (C : QueuedTask) (a0 b0 : DelayedTaskInfo)
    (S : List DelayedTaskInfo) (pc : List QueuedTask) (ranlist : List DelayedTaskInfo) : Prop :=
  runs q.log = runs_on Path.pending q.log ++ ranlist.map DelayedTaskInfo.task_ ∧
  runs_on Path.pending q.log ++ q.pending_ = pc ∧
  List.Perm (ranlist ++ q.timer_tasks_ ++ q.messages.flatMap Msg.entries) S ∧
  ranlist <+: [b0, a0] ∧
  (ranlist ≠ [] → runs_on Path.pending q.log = [C]) ∧
  (∀ m ∈ q.messages, m.runs = [])

/-- The scenario of the three posts: one thread posts `A` with a delay of
100 ms, then `B` with a delay of 10 ms, then `C` with delay 0; `i1`, `i2` and
`i3` are what the worker and the operating system do in between and
afterwards. -/
def three_posts (A B C : QueuedTask) (i1 i2 i3 : List Action) : List Action :=
  Action.PostDelayedTask A 100 true ::
    (i1 ++ Action.PostDelayedTask B 10 true :: (i2 ++ Action.PostTask C :: i3))

/-- The task posted first, with a delay of 100 ms. -/
def order_A : QueuedTask := { id := 1, result := true }

/-- The task posted second, with a delay of 10 ms. -/
def order_B : QueuedTask := { id := 2, result := true }

/-- The task posted third, with delay 0. -/
def order_C : QueuedTask := { id := 3, result := true }

/-- The three posts with a worker that wakes for the first message and is
then held up for 10 ms inside `ProcessQueuedMessages`: the timer of `B` has
expired when the pass ends, and `B` runs before `C`. -/
def three_posts_late : List Action :=
  three_posts order_A order_B order_C [Action.wake WaitResult.object_2] []
    [ Action.worker 7 0, Action.worker 0 0, Action.worker 8 0,
      Action.tick 10, Action.mm_timer_expires,
      Action.worker 0 0, Action.worker 0 0, Action.worker 0 0, Action.worker 9 0,
      Action.worker 0 0, Action.wake WaitResult.object_1,
      Action.worker 0 0, Action.worker 0 0, Action.worker 0 0, Action.worker 0 0,
      Action.tick 90, Action.mm_timer_expires, Action.wake WaitResult.object_0,
      Action.worker 0 0, Action.worker 0 0, Action.worker 0 0 ]

/-- The three posts with a worker that runs `C` at once but is held up for
600 ms while it handles the message of `A`: the pass of
`ProcessQueuedMessages` ends on its time budget with the message of `B` still
queued, and `A` runs before `B`. -/
def three_posts_stalled : List Action :=
  three_posts order_A order_B order_C [] []
    [ Action.wake WaitResult.object_1,
      Action.worker 0 0, Action.worker 0 0, Action.worker 0 0, Action.worker 0 0,
      Action.wake WaitResult.object_2,
      Action.worker 7 0, Action.tick 600, Action.mm_timer_expires, Action.worker 0 0,
      Action.worker 0 0, Action.worker 0 0, Action.worker 0 0,
      Action.wake WaitResult.object_2,
      Action.worker 0 5, Action.worker 0 0, Action.worker 0 0, Action.worker 0 0,
      Action.worker 0 0,
      Action.user_timer_expires, Action.wake WaitResult.object_2,
      Action.worker 0 0, Action.worker 0 0, Action.worker 0 0, Action.worker 0 0,
      Action.worker 0 0, Action.worker 0 0 ]

/-- What the worker and the operating system do after the three posts when
the worker keeps up: `C` runs at once, both messages are handled, `B` runs at
tick 10 and `A` at tick 100. -/
def three_posts_timely : List Action :=
  [ Action.wake WaitResult.object_1,
    Action.worker 0 0, Action.worker 0 0, Action.worker 0 0, Action.worker 0 0,
    Action.wake WaitResult.object_2,
    Action.worker 7 0, Action.worker 0 0, Action.worker 8 0, Action.worker 0 0,
    Action.worker 0 0, Action.worker 0 0, Action.worker 0 0,
    Action.tick 10, Action.mm_timer_expires, Action.wake WaitResult.object_0,
    Action.worker 0 0, Action.worker 9 0, Action.worker 0 0,
    Action.tick 90, Action.mm_timer_expires, Action.wake WaitResult.object_0,
    Action.worker 0 0, Action.worker 0 0, Action.worker 0 0 ]

/-- Modelled from the spec: the enumeration `TaskQueueFactory::Priority`, whose
declaration is not among the sources: "priority: {Low, Normal, High}". -/
inductive Priority where
  | NORMAL
  | HIGH
  | LOW
deriving DecidableEq, Repr

/-- Modelled from the spec: the enumeration `rtc::ThreadPriority`, whose
declaration is not among the sources: "the OS/runtime thread-priority class
used for the worker thread". Only the enumerators the source names are
listed. -/
inductive ThreadPriority where
  | kLowPriority
  | kNormalPriority
  | kRealtimePriority
deriving DecidableEq, Repr

/-- The function `TaskQueuePriorityToThreadPriority`: the `switch` on the
priority. Its `default` branch (`RTC_NOTREACHED`) is for values that are no
enumerator, which the type `Priority` does not have. -/
def TaskQueuePriorityToThreadPriority (priority : Priority) : ThreadPriority :=
  match priority with
  | Priority.HIGH => ThreadPriority.kRealtimePriority
  | Priority.LOW => ThreadPriority.kLowPriority
  | Priority.NORMAL => ThreadPriority.kNormalPriority

/-- What `CreateTaskQueue` has made: the worker thread `thread_` of the queue,
of which the priority is kept here, and the queue in its initial state. -/
structure CreatedTaskQueue where
  thread_ : ThreadPriority
  queue : TaskQueueWin
deriving DecidableEq, Repr

/-- The method `TaskQueueWinFactory::CreateTaskQueue(name, priority)`:
`new TaskQueueWin(name, TaskQueuePriorityToThreadPriority(priority))`, whose
constructor hands the thread priority to `thread_` and to nothing else;
`clock` is the tick at which the queue is created. -/
def TaskQueueWinFactory.CreateTaskQueue (priority : Priority) (clock : Int) : CreatedTaskQueue :=
  { thread_ := TaskQueuePriorityToThreadPriority priority, queue := TaskQueueWin.init clock }

/-- A heap of three entries inserted in the order due 30, due 10, due 20. -/
def sample_entries : List DelayedTaskInfo :=
  [{ due_time_ := 30, task_ := { id := 1, result := true } },
   { due_time_ := 10, task_ := { id := 2, result := false } },
   { due_time_ := 20, task_ := { id := 3, result := true } }]

/-- The loop of `RunPendingTasks` when the tasks it runs call `PostTask`: the
task run in the first iteration posts the tasks `posted.head`, the one run in
the second iteration the next list, and so on; a task for which the list has
no entry posts nothing. Each iteration takes the front task under the lock,
then runs it, and `PostTask` is called while it runs. `none` when the fuel
runs out. -/
def TaskQueueWin.RunPendingTasks_reentrant :
    Nat → List (List QueuedTask) → TaskQueueWin → Option TaskQueueWin
  | 0, _, _ => none
  | fuel + 1, posted, q =>
    match q.RunPendingTasks_iteration with
    | none => some q
    | some q1 =>
      TaskQueueWin.RunPendingTasks_reentrant fuel posted.tail
        ((posted.headD []).foldl TaskQueueWin.PostTask q1)

/-- A queue inside `RunPendingTasks` with two tasks pending. -/
def reentrant_sample : TaskQueueWin :=
  { TaskQueueWin.init 0 with
    pending_ := [{ id := 1, result := true }, { id := 2, result := false }],
    phase := Phase.drain }

/-- A delayed task posted at tick 0 with a delay of 100 ms. -/
def race_late : QueuedTask := { id := 1, result := true }

/-- A delayed task posted at tick 98 with a delay of 1 ms. -/
def race_early : QueuedTask := { id := 2, result := true }

/-- An execution in which the multimedia timer expires inside `Cancel`, up to
the wait that follows. The entry due at 100 is scheduled with the multimedia
timer 7. The message of the entry due at 99 is handled at tick 100: in
`CancelTimers` the timer 7 sets the event after `ResetEvent` and before
`timeKillEvent`; `timeSetEvent` refuses the delay 0 and `SetTimer` starts the
timer 5. The message `WM_TIMER` of timer 5 is handled next and both entries
run. The worker returns to its wait with the event still signalled, and the
wait returns `WAIT_OBJECT_0`. -/
def cancel_race_wake : List Action :=
  [ Action.PostDelayedTask race_late 100 true, Action.wake WaitResult.object_2,
    Action.worker 7 0, Action.worker 0 0, Action.worker 0 0, Action.worker 0 0,
    Action.worker 0 0,
    Action.tick 98, Action.PostDelayedTask race_early 1 true, Action.tick 2,
    Action.wake WaitResult.object_2,
    Action.worker_raced 0 5, Action.worker 0 0,
    Action.tick 10, Action.user_timer_expires,
    Action.worker 0 0, Action.worker 0 0, Action.worker 0 0, Action.worker 0 0,
    Action.worker 0 0, Action.worker 0 0,
    Action.wake WaitResult.object_0 ]

/-- An execution in which the multimedia timer expires inside `Cancel`, up to
the call of `ScheduleNextTimer` in `RunThreadMain`. The entry due at 100 is
scheduled with the multimedia timer 7. The message of the entry due at 99 is
handled at tick 100: in `CancelTimers` the timer 7 sets the event after
`ResetEvent` and before `timeKillEvent`; `timeSetEvent` refuses the delay 0
and `SetTimer` starts the timer 5. The message queue is empty, and the timer
`if` of `RunThreadMain` finds the event signalled: `timer_.Cancel()`, then
`RunDueTasks()` runs both entries. -/
def cancel_race_fallback : List Action :=
  [ Action.PostDelayedTask race_late 100 true, Action.wake WaitResult.object_2,
    Action.worker 7 0, Action.worker 0 0, Action.worker 0 0, Action.worker 0 0,
    Action.worker 0 0,
    Action.tick 98, Action.PostDelayedTask race_early 1 true, Action.tick 2,
    Action.wake WaitResult.object_2,
    Action.worker_raced 0 5, Action.worker 0 0, Action.worker 0 0, Action.worker 0 0 ]

/-- Whether a wake-up for a delayed entry is on its way: a timer is armed or
the event of the multimedia timer is signalled. -/
def TaskQueueWin.wake_scheduled (q : TaskQueueWin) : Bool :=
  q.timer_.os_timer.isSome || q.user_timer.isSome || q.timer_.event_

/-- Whether an action that calls `ScheduleNextTimer` gets a timer from
`timeSetEvent`. -/
def Action.arms_timer : Action → Bool
  | Action.worker mm_id _ => decide (mm_id ≠ 0)
  | Action.worker_raced mm_id _ => decide (mm_id ≠ 0)
  | _ => true

/-- An execution in which every `timeSetEvent` succeeds and the multimedia
timer expires inside `Cancel` twice. The entry due at 100 is scheduled with
the multimedia timer 7. The message of the entry due at 99 is handled at
tick 100: in `CancelTimers` the timer 7 sets the event after `ResetEvent` and
before `timeKillEvent`, and `ScheduleNextTimer` starts the timer 8 with delay
0. The timer `if` of `RunThreadMain` finds the event signalled; in
`timer_.Cancel()` the timer 8 sets the event after `ResetEvent` and before
`timeKillEvent`; `RunDueTasks()` runs both entries and `ScheduleNextTimer()`
finds the heap empty. -/
def cancel_race_twice : List Action :=
  [ Action.PostDelayedTask race_late 100 true, Action.wake WaitResult.object_2,
    Action.worker 7 0, Action.worker 9 0, Action.worker 9 0, Action.worker 9 0,
    Action.worker 9 0,
    Action.tick 98, Action.PostDelayedTask race_early 1 true, Action.tick 2,
    Action.wake WaitResult.object_2,
    Action.worker_raced 8 0, Action.worker 9 0, Action.worker 9 0,
    Action.worker_raced 9 0, Action.worker 9 0 ]

/-- Whether entry `e` has the due time the constructor gives an entry made at
a tick between 0 and `now` with a delay that fits `uint32_t`. -/
def DelayedTaskInfo.posted_by (e : DelayedTaskInfo) (now : Int) : Prop :=
  ∃ (tick : Int) (milliseconds : Nat), 0 ≤ tick ∧ tick ≤ now ∧ milliseconds < 2 ^ 32 ∧
    e = DelayedTaskInfo.create tick milliseconds e.task_

/-- The delayed entries the engine holds: those in `timer_tasks_` and those
still in the message queue. -/
def TaskQueueWin.delayed_entries (q : TaskQueueWin) : List DelayedTaskInfo :=
  q.timer_tasks_ ++ q.messages.flatMap Msg.entries

/-- An execution with two delayed posts, the second one due first, in which
the first entry is scheduled and the second is still in the message queue. -/
def delay_sample : List Action :=
  [ Action.PostDelayedTask { id := 1, result := true } 100 true,
    Action.wake WaitResult.object_2, Action.worker 7 0, Action.tick 30,
    Action.PostDelayedTask { id := 2, result := true } 20 true ]

/-- Whether the timer fields of the queue agree with the timers of the
operating system, with the event and with the heap: an outstanding timer is
one the queue holds the identifier of, the event of the multimedia timer is
signalled only while `timer_.timer_id_` is set, the two identifiers are not
set together, an identifier is set only while the heap holds an entry, and
no message `WM_TIMER` carries the identifier 0. -/
def TaskQueueWin.timers_in_order (q : TaskQueueWin) : Bool :=
  q.timers_consistent &&
  decide (q.timer_.timer_id_ = 0 → q.timer_.event_ = false) &&
  decide (q.timer_id_ ≠ 0 → q.timer_.timer_id_ = 0) &&
  decide ((q.timer_id_ ≠ 0 ∨ q.timer_.timer_id_ ≠ 0) → q.timer_tasks_ ≠ []) &&
  q.messages.all (fun m => decide (m ≠ Msg.timer 0))

/-- Whether the worker is at a call of `ScheduleNextTimer` that follows
`RunDueTasks`. -/
def Phase.at_schedule : Phase → Bool
  | Phase.msg_schedule _ => true
  | Phase.main_schedule _ => true
  | _ => false

/-- The bookkeeping of the timers the assertions of `RunDueTasks` and
`ScheduleNextTimer` rely on: the timer fields are in order, the wait returned
`WAIT_OBJECT_0` only with the event signalled, and no identifier is set when
the worker is at a call of `ScheduleNextTimer` that follows `RunDueTasks`. -/
def TaskQueueWin.timer_bookkeeping (q : TaskQueueWin) : Bool :=
  q.timers_in_order &&
  decide (q.phase = Phase.timer_check WaitResult.object_0 → q.timer_.event_ = true) &&
  decide (q.phase.at_schedule = true → q.timer_id_ = 0 ∧ q.timer_.timer_id_ = 0)

/-- Whether an action is a plain one: not a step of the worker with the timer
expiring inside `Cancel`. -/
def Action.plain : Action → Bool
  | Action.worker_raced _ _ => false
  | _ => true

/-- Whether timer `t` was started with the delay `ScheduleNextTimer` computes
for entry `e` at the tick of the start. -/
def OsTimer.set_for (t : OsTimer) (e : DelayedTaskInfo) : Bool :=
  decide (dchecked_cast_uint32 (next_delay_ms e t.started) = some t.delay_ms)

/-- Whether each outstanding timer was programmed for the entry at the top of
the heap; no timer is outstanding when the heap is empty. -/
def TaskQueueWin.timers_for_top (q : TaskQueueWin) : Bool :=
  match q.timer_tasks_.top with
  | none => q.timer_.os_timer.isNone && q.user_timer.isNone
  | some e =>
    (match q.timer_.os_timer with
      | some t => t.set_for e
      | none => true) &&
    (match q.user_timer with
      | some t => t.set_for e
      | none => true)

/-- Whether a wake-up is on its way for the entries of the heap, unless the
worker is between `RunDueTasks` and `ScheduleNextTimer` or a check failed. -/
def TaskQueueWin.wake_kept (q : TaskQueueWin) : Bool :=
  q.phase.at_schedule || decide (q.phase = Phase.failed) || q.timer_tasks_.isEmpty ||
    q.wake_scheduled

/-- Whether an action that calls `ScheduleNextTimer` gets a timer from
`timeSetEvent` or from `SetTimer`. -/
def Action.gets_timer : Action → Bool
  | Action.worker mm_id user_id => decide (mm_id ≠ 0 ∨ user_id ≠ 0)
  | Action.worker_raced mm_id user_id => decide (mm_id ≠ 0 ∨ user_id ≠ 0)
  | _ => true

/-! ## Lemmas on the priority queue -/

theorem DueTimeHeap.top_eq_none_iff (h : DueTimeHeap) : h.top = none ↔ h = [] := by
  cases h with
  | nil => simp [DueTimeHeap.top]
  | cons x xs =>
    simp only [DueTimeHeap.top]
    cases DueTimeHeap.top xs with
    | none => simp
    | some m => by_cases hg : greater x m = true <;> simp [hg]

theorem DueTimeHeap.top_isSome (h : DueTimeHeap) (hne : h ≠ []) : ∃ m, h.top = some m := by
  cases ht : h.top with
  | none => exact absurd ((DueTimeHeap.top_eq_none_iff h).1 ht) hne
  | some m => exact ⟨m, rfl⟩

theorem greater_iff (a b : DelayedTaskInfo) : greater a b = true ↔ b.due_time_ < a.due_time_ := by
  simp [greater, DelayedTaskInfo.gt]

theorem DueTimeHeap.top_mem : ∀ (h : DueTimeHeap) (m : DelayedTaskInfo), h.top = some m → m ∈ h
  | [], m, ht => by simp [DueTimeHeap.top] at ht
  | x :: xs, m, ht => by
    simp only [DueTimeHeap.top] at ht
    cases hx : DueTimeHeap.top xs with
    | none => rw [hx] at ht; simp at ht; simp [ht]
    | some m1 =>
      rw [hx] at ht
      by_cases hg : greater x m1 = true
      · simp [hg] at ht; subst ht
        exact List.mem_cons_of_mem _ (DueTimeHeap.top_mem xs _ hx)
      · simp [hg] at ht; simp [ht]

theorem DueTimeHeap.top_le : ∀ (h : DueTimeHeap) (m : DelayedTaskInfo), h.top = some m →
    ∀ e ∈ h, m.due_time_ ≤ e.due_time_
  | [], m, ht => by simp [DueTimeHeap.top] at ht
  | x :: xs, m, ht => by
    intro e he
    simp only [DueTimeHeap.top] at ht
    cases hx : DueTimeHeap.top xs with
    | none =>
      rw [hx] at ht
      have hnil := (DueTimeHeap.top_eq_none_iff xs).1 hx
      subst hnil
      simp at ht he
      subst ht; subst he; exact le_refl _
    | some m1 =>
      rw [hx] at ht
      have ih := DueTimeHeap.top_le xs m1 hx
      by_cases hg : greater x m1 = true
      · simp [hg] at ht; subst ht
        rcases List.mem_cons.1 he with h1 | h1
        · subst h1; exact le_of_lt ((greater_iff _ _).1 hg)
        · exact ih e h1
      · simp [hg] at ht; subst ht
        have hle : x.due_time_ ≤ m1.due_time_ := by
          by_contra hc
          exact hg ((greater_iff _ _).2 (lt_of_not_le hc))
        rcases List.mem_cons.1 he with h1 | h1
        · subst h1; exact le_refl _
        · exact le_trans hle (ih e h1)

theorem DueTimeHeap.pop_perm : ∀ (h : DueTimeHeap) (m : DelayedTaskInfo), h.top = some m →
    List.Perm h (m :: h.pop)
  | [], m, ht => by simp [DueTimeHeap.top] at ht
  | x :: xs, m, ht => by
    simp only [DueTimeHeap.top] at ht
    simp only [DueTimeHeap.pop]
    cases hx : DueTimeHeap.top xs with
    | none =>
      rw [hx] at ht
      have hnil := (DueTimeHeap.top_eq_none_iff xs).1 hx
      subst hnil
      simp at ht
      subst ht; simp
    | some m1 =>
      rw [hx] at ht
      by_cases hg : greater x m1 = true
      · simp [hg] at ht; subst ht
        simp only [hg, if_true]
        exact ((DueTimeHeap.pop_perm xs _ hx).cons x).trans (List.Perm.swap _ _ _)
      · simp [hg] at ht; subst ht
        simp [hg]

theorem DueTimeHeap.pop_length (h : DueTimeHeap) (m : DelayedTaskInfo) (ht : h.top = some m) :
    h.pop.length + 1 = h.length := by
  have := (DueTimeHeap.pop_perm h m ht).length_eq
  simp at this
  omega

theorem DueTimeHeap.pop_filter : ∀ (h : DueTimeHeap) (m : DelayedTaskInfo) (p : DelayedTaskInfo → Bool),
    h.top = some m → p m = false → h.pop.filter p = h.filter p
  | [], m, p, ht, _ => by simp [DueTimeHeap.top] at ht
  | x :: xs, m, p, ht, hp => by
    simp only [DueTimeHeap.top] at ht
    simp only [DueTimeHeap.pop]
    cases hx : DueTimeHeap.top xs with
    | none =>
      rw [hx] at ht
      have hnil := (DueTimeHeap.top_eq_none_iff xs).1 hx
      subst hnil
      simp at ht
      subst ht; simp [hp]
    | some m1 =>
      rw [hx] at ht
      by_cases hg : greater x m1 = true
      · simp [hg] at ht; subst ht
        simp only [hg, if_true, List.filter_cons]
        rw [DueTimeHeap.pop_filter xs _ p hx hp]
      · simp [hg] at ht; subst ht
        simp [hg, hp]

theorem DelayedTaskInfo.Run_eq_none (t : DelayedTaskInfo) : t.Run = none ↔ t.due_time_ = 0 := by
  unfold DelayedTaskInfo.Run
  split <;> simp_all

/-- What the loop of `RunDueTasks` does on a non-empty queue with enough fuel:
the entries it runs are taken from the queue in the order of their due times,
each is due and passes the check of `Run`, and each is due no later than any
entry not run; either every due entry is run and the entries not yet due are
left, or the entry next in turn is due and fails the check of `Run`. -/
theorem DueTimeHeap.RunDueTasks_loop_spec (now : Int) :
    ∀ (fuel : Nat) (h : DueTimeHeap) (ran : List DelayedTaskInfo), h ≠ [] → h.length ≤ fuel →
      ∃ ran1 rest1,
        (DueTimeHeap.RunDueTasks_loop now fuel h ran).1 = ran ++ ran1 ∧
        List.Perm h (ran1 ++ rest1) ∧
        ran1.Pairwise (fun a b => a.due_time ≤ b.due_time) ∧
        (∀ e ∈ ran1, e.due_time ≤ now ∧ e.due_time_ ≠ 0) ∧
        (∀ e ∈ ran1, ∀ x ∈ rest1, e.due_time ≤ x.due_time) ∧
        (((DueTimeHeap.RunDueTasks_loop now fuel h ran).2 = some rest1 ∧
            rest1 = h.not_due now ∧ List.Perm ran1 (h.due now)) ∨
          ((DueTimeHeap.RunDueTasks_loop now fuel h ran).2 = none ∧
            ∃ z ∈ rest1, z.due_time ≤ now ∧ z.due_time_ = 0 ∧
              ∀ x ∈ rest1, z.due_time ≤ x.due_time))
  | 0, h, ran, hne, hlen => by
    cases h with
    | nil => exact absurd rfl hne
    | cons x xs => simp at hlen
  | fuel + 1, h, ran, hne, hlen => by
    obtain ⟨t, ht⟩ := DueTimeHeap.top_isSome h hne
    have hmin := DueTimeHeap.top_le h t ht
    have htm := DueTimeHeap.top_mem h t ht
    simp only [DueTimeHeap.RunDueTasks_loop, ht]
    by_cases hdue : t.due_time > now
    · refine ⟨[], h, ?_, by simp, List.Pairwise.nil, ?_, ?_, Or.inl ⟨?_, ?_, ?_⟩⟩
      · simp [hdue]
      · intro e he; cases he
      · intro e he; cases he
      · simp [hdue]
      · symm
        apply List.filter_eq_self.2
        intro e he
        have := hmin e he
        simp only [DelayedTaskInfo.due_time] at hdue ⊢
        exact decide_eq_true (lt_of_lt_of_le hdue this)
      · have : h.due now = [] := by
          apply List.filter_eq_nil_iff.2
          intro e he
          have := hmin e he
          simp only [DelayedTaskInfo.due_time] at hdue ⊢
          simp only [decide_eq_true_eq, not_le]
          exact lt_of_lt_of_le hdue this
        rw [this]
    · have hle : t.due_time ≤ now := le_of_not_lt hdue
      simp only [hdue, if_false]
      cases hrun : t.Run with
      | none =>
        have hz : t.due_time_ = 0 := (DelayedTaskInfo.Run_eq_none t).mp hrun
        refine ⟨[], h, by simp, by simp, List.Pairwise.nil, ?_, ?_,
          Or.inr ⟨rfl, t, htm, hle, hz, hmin⟩⟩
        · intro e he; cases he
        · intro e he; cases he
      | some r =>
        have hnz : t.due_time_ ≠ 0 := by
          intro hc
          rw [(DelayedTaskInfo.Run_eq_none t).mpr hc] at hrun
          cases hrun
        have hperm := DueTimeHeap.pop_perm h t ht
        have hpt : (fun e : DelayedTaskInfo => decide (e.due_time > now)) t = false := by
          simp [hle]
        have hnd : (DueTimeHeap.pop h).not_due now = h.not_due now :=
          DueTimeHeap.pop_filter h t _ ht hpt
        have hd : List.Perm (h.due now) (t :: (DueTimeHeap.pop h).due now) := by
          have h1 := hperm.filter (fun e => decide (e.due_time ≤ now))
          simpa [DueTimeHeap.due, List.filter_cons, hle] using h1
        simp only
        by_cases hemp : (DueTimeHeap.pop h).isEmpty = true
        · have hnil : DueTimeHeap.pop h = [] := List.isEmpty_iff.1 hemp
          refine ⟨[t], [], ?_, ?_, List.pairwise_singleton _ _, ?_, ?_, Or.inl ⟨?_, ?_, ?_⟩⟩
          · simp [hemp]
          · rw [hnil] at hperm
            simpa using hperm
          · intro e he
            rw [List.mem_singleton.mp he]
            exact ⟨hle, hnz⟩
          · intro e _ x hx; cases hx
          · simp [hemp, hnil]
          · rw [← hnd, hnil]; simp [DueTimeHeap.not_due]
          · rw [hnil] at hd
            simpa [DueTimeHeap.due] using hd.symm
        · have hne1 : DueTimeHeap.pop h ≠ [] := fun hc => hemp (List.isEmpty_iff.2 hc)
          have hlen1 : (DueTimeHeap.pop h).length ≤ fuel := by
            have := DueTimeHeap.pop_length h t ht
            omega
          obtain ⟨ran2, rest2, hrun2, hp2, hs2, hz2, hr2, hcase⟩ :=
            DueTimeHeap.RunDueTasks_loop_spec now fuel (DueTimeHeap.pop h) (ran ++ [t]) hne1 hlen1
          have hsub : ∀ e, e ∈ ran2 ++ rest2 → e ∈ h := by
            intro e he
            exact hperm.symm.subset (List.mem_cons_of_mem _ (hp2.symm.subset he))
          refine ⟨t :: ran2, rest2, ?_, ?_, ?_, ?_, ?_, ?_⟩
          · rw [if_neg hemp, hrun2]; simp
          · exact hperm.trans (List.Perm.cons t hp2)
          · refine List.Pairwise.cons ?_ hs2
            intro e he
            exact hmin e (hsub e (List.mem_append.mpr (Or.inl he)))
          · intro e he
            rcases List.mem_cons.mp he with he | he
            · rw [he]; exact ⟨hle, hnz⟩
            · exact hz2 e he
          · intro e he x hx
            rcases List.mem_cons.mp he with he | he
            · rw [he]; exact hmin x (hsub x (List.mem_append.mpr (Or.inr hx)))
            · exact hr2 e he x hx
          · rw [if_neg hemp]
            rcases hcase with ⟨c1, c2, c3⟩ | ⟨c1, c2⟩
            · exact Or.inl ⟨c1, c2.trans hnd, (c3.cons t).trans hd.symm⟩
            · exact Or.inr ⟨c1, c2⟩

theorem wrap_int64_of_range (x : Int) (h1 : -2 ^ 63 ≤ x) (h2 : x < 2 ^ 63) : wrap_int64 x = x := by
  unfold wrap_int64
  have : (x + 2 ^ 63) % 2 ^ 64 = x + 2 ^ 63 := Int.emod_eq_of_lt (by omega) (by omega)
  omega

/-- What `RunDueTasks` does on a non-empty queue: see
`DueTimeHeap.RunDueTasks_loop_spec`. -/
theorem DueTimeHeap.RunDueTasks_cases (h : DueTimeHeap) (now : Int) (hne : h ≠ []) :
    ∃ ran rest1,
      (h.RunDueTasks now).1 = ran ∧
      List.Perm h (ran ++ rest1) ∧
      ran.Pairwise (fun a b => a.due_time ≤ b.due_time) ∧
      (∀ e ∈ ran, e.due_time ≤ now ∧ e.due_time_ ≠ 0) ∧
      (∀ e ∈ ran, ∀ x ∈ rest1, e.due_time ≤ x.due_time) ∧
      (((h.RunDueTasks now).2 = some rest1 ∧ rest1 = h.not_due now ∧
          List.Perm ran (h.due now)) ∨
        ((h.RunDueTasks now).2 = none ∧
          ∃ z ∈ rest1, z.due_time ≤ now ∧ z.due_time_ = 0 ∧
            ∀ x ∈ rest1, z.due_time ≤ x.due_time)) := by
  obtain ⟨ran, rest1, h1, h2, h3, h4, h5, h6⟩ :=
    DueTimeHeap.RunDueTasks_loop_spec now h.length h [] hne (le_refl _)
  have hemp : h.isEmpty = false := by
    cases h with
    | nil => exact absurd rfl hne
    | cons x xs => rfl
  refine ⟨ran, rest1, ?_, h2, h3, h4, h5, ?_⟩
  · simp only [DueTimeHeap.RunDueTasks, hemp]
    simpa using h1
  · simp only [DueTimeHeap.RunDueTasks, hemp]
    simpa using h6

/-- On a non-empty queue in which every due entry passes the check of `Run`,
`RunDueTasks` runs the due entries in the order of their due times and leaves
the entries not yet due. -/
theorem DueTimeHeap.RunDueTasks_spec (h : DueTimeHeap) (now : Int) (hne : h ≠ [])
    (hnz : ∀ e ∈ h, e.due_time ≤ now → e.due_time_ ≠ 0) :
    ∃ ran, h.RunDueTasks now = (ran, some (h.not_due now)) ∧
      List.Perm ran (h.due now) ∧ ran.Pairwise (fun a b => a.due_time ≤ b.due_time) := by
  obtain ⟨ran, rest1, h1, h2, h3, _, _, h6⟩ := DueTimeHeap.RunDueTasks_cases h now hne
  rcases h6 with ⟨c1, c2, c3⟩ | ⟨_, z, hz, hz1, hz2, _⟩
  · refine ⟨ran, ?_, c3, h3⟩
    rw [← c2, ← c1, ← h1]
  · exact absurd hz2 (hnz z (h2.symm.subset (List.mem_append.mpr (Or.inr hz))) hz1)

/-- When `RunDueTasks` leaves a queue, it has run the due entries in the order
of their due times, each of them passing the check of `Run`, and has left the
entries not yet due. -/
theorem DueTimeHeap.RunDueTasks_left (h : DueTimeHeap) (now : Int) (ran : List DelayedTaskInfo)
    (rest : DueTimeHeap) (hr : h.RunDueTasks now = (ran, some rest)) :
    h ≠ [] ∧ rest = h.not_due now ∧ List.Perm ran (h.due now) ∧
      ran.Pairwise (fun a b => a.due_time ≤ b.due_time) ∧
      (∀ e ∈ h, e.due_time ≤ now → e.due_time_ ≠ 0) := by
  have hne : h ≠ [] := by
    intro hc
    rw [hc] at hr
    simp [DueTimeHeap.RunDueTasks] at hr
  obtain ⟨ran1, rest1, h1, h2, h3, h4, _, h6⟩ := DueTimeHeap.RunDueTasks_cases h now hne
  rw [hr] at h1 h6
  simp only at h1 h6
  subst h1
  rcases h6 with ⟨c1, c2, c3⟩ | ⟨c1, _⟩
  · simp only [Option.some.injEq] at c1
    subst c1
    refine ⟨hne, c2, c3, h3, ?_⟩
    intro e he hdue
    have : e ∈ h.due now := List.mem_filter.mpr ⟨he, by simpa using hdue⟩
    exact (h4 e (c3.symm.subset this)).2
  · cases c1

/-- What `RunDueTasks` has run on any queue, whether it returns or not: the
entries run and the entries `held` at the end make up the queue; the entries
run are in the order of their due times, were due, passed the check of `Run`,
and each was due no later than every entry held at the end; the queue it
leaves when it returns is `held`. -/
theorem DueTimeHeap.RunDueTasks_ran (h : DueTimeHeap) (now : Int) :
    ∃ held : List DelayedTaskInfo,
      List.Perm h ((h.RunDueTasks now).1 ++ held) ∧
      (h.RunDueTasks now).1.Pairwise (fun a b => a.due_time ≤ b.due_time) ∧
      (∀ e ∈ (h.RunDueTasks now).1, e.due_time ≤ now ∧ e.due_time_ ≠ 0) ∧
      (∀ e ∈ (h.RunDueTasks now).1, ∀ x ∈ held, e.due_time ≤ x.due_time) ∧
      (∀ rest, (h.RunDueTasks now).2 = some rest → rest = held) := by
  by_cases hne : h = []
  · subst hne
    refine ⟨[], ?_, ?_, ?_, ?_, ?_⟩
    · simp [DueTimeHeap.RunDueTasks]
    · simp [DueTimeHeap.RunDueTasks]
    · intro e he
      simp [DueTimeHeap.RunDueTasks] at he
    · intro e _ x hx
      cases hx
    · intro rest hr
      simp [DueTimeHeap.RunDueTasks] at hr
  · obtain ⟨ran, rest1, h1, h2, h3, h4, h5, h6⟩ := DueTimeHeap.RunDueTasks_cases h now hne
    rw [h1]
    refine ⟨rest1, h2, h3, h4, h5, ?_⟩
    intro rest hr
    rcases h6 with ⟨c1, _⟩ | ⟨c1, _⟩
    · rw [c1] at hr
      exact (Option.some.inj hr).symm
    · rw [c1] at hr
      cases hr

/-- The method `RunDueTasks` returns exactly on a queue that holds an entry
and in which no due entry has the due time 0. -/
theorem DueTimeHeap.RunDueTasks_returns_iff (h : DueTimeHeap) (now : Int) :
    (∃ rest, (h.RunDueTasks now).2 = some rest) ↔
      (h ≠ [] ∧ ∀ e ∈ h, e.due_time ≤ now → e.due_time_ ≠ 0) := by
  constructor
  · rintro ⟨rest, hr⟩
    have hpair : h.RunDueTasks now = ((h.RunDueTasks now).1, some rest) := by rw [← hr]
    obtain ⟨a, _, _, _, e⟩ := DueTimeHeap.RunDueTasks_left h now _ rest hpair
    exact ⟨a, e⟩
  · rintro ⟨hne, hnz⟩
    obtain ⟨ran, h1, _⟩ := DueTimeHeap.RunDueTasks_spec h now hne hnz
    exact ⟨_, by rw [h1]⟩

theorem DueTimeHeap.due_not_due_perm (h : DueTimeHeap) (now : Int) :
    List.Perm h (h.due now ++ h.not_due now) := by
  have h1 := (List.filter_append_perm (fun e : DelayedTaskInfo => decide (e.due_time ≤ now)) h).symm
  have h2 : h.not_due now = h.filter (fun e => !decide (e.due_time ≤ now)) := by
    apply List.filter_congr
    intro e _
    by_cases hc : e.due_time ≤ now
    · simp [hc]
    · simp [hc, lt_of_not_le hc]
  rw [h2]
  exact h1

/-! ## Lemmas on the methods and on the worker step -/

theorem TaskQueueWin.CancelTimers_pending (q : TaskQueueWin) :
    q.CancelTimers.pending_ = q.pending_ := by
  simp only [TaskQueueWin.CancelTimers]; split <;> rfl

theorem TaskQueueWin.CancelTimers_messages (q : TaskQueueWin) :
    q.CancelTimers.messages = q.messages := by
  simp only [TaskQueueWin.CancelTimers]; split <;> rfl

theorem TaskQueueWin.CancelTimers_timer_tasks (q : TaskQueueWin) :
    q.CancelTimers.timer_tasks_ = q.timer_tasks_ := by
  simp only [TaskQueueWin.CancelTimers]; split <;> rfl

theorem TaskQueueWin.CancelTimers_log (q : TaskQueueWin) :
    q.CancelTimers.log = q.log := by
  simp only [TaskQueueWin.CancelTimers]; split <;> rfl

theorem TaskQueueWin.CancelTimers_clock (q : TaskQueueWin) :
    q.CancelTimers.clock = q.clock := by
  simp only [TaskQueueWin.CancelTimers]; split <;> rfl

theorem TaskQueueWin.ScheduleNextTimer_some (q q1 : TaskQueueWin) (mm_id user_id : Nat)
    (h : q.ScheduleNextTimer mm_id user_id = some q1) :
    q1.pending_ = q.pending_ ∧ q1.messages = q.messages ∧
      q1.timer_tasks_ = q.timer_tasks_ ∧ q1.log = q.log ∧ q1.clock = q.clock := by
  unfold TaskQueueWin.ScheduleNextTimer at h
  split at h
  · exact absurd h (by simp)
  · split at h
    · cases h; simp
    · split at h
      · exact absurd h (by simp)
      · split at h
        · exact absurd h (by simp)
        · cases h; simp
        · cases h; simp

theorem TaskQueueWin.RunDueTasks_some (q q1 : TaskQueueWin) (h : q.RunDueTasks = some q1) :
    ∃ ran, q1 = { q with timer_tasks_ := q.timer_tasks_.not_due q.clock,
                         log := q.log ++ ran.flatMap DelayedTaskInfo.run_and_pop } ∧
      List.Perm ran (q.timer_tasks_.due q.clock) ∧
      ran.Pairwise (fun a b => a.due_time ≤ b.due_time) ∧
      ∀ e ∈ ran, e.due_time_ ≠ 0 := by
  unfold TaskQueueWin.RunDueTasks at h
  simp only [TaskQueueWin.GetTick] at h
  cases hr : DueTimeHeap.RunDueTasks q.timer_tasks_ q.clock with
  | mk ran rest =>
    rw [hr] at h
    cases rest with
    | none => cases h
    | some rest =>
      simp only [Option.some.injEq] at h
      obtain ⟨_, c2, c3, c4, c5⟩ := DueTimeHeap.RunDueTasks_left _ _ _ _ hr
      refine ⟨ran, ?_, c3, c4, ?_⟩
      · rw [← h, c2]
      · intro e he
        have hd := List.mem_filter.mp (c3.subset he)
        exact c5 e hd.1 (by simpa using hd.2)

theorem TaskQueueWin.queue_delayed_task_some (q q1 : TaskQueueWin) (info : DelayedTaskInfo)
    (mm_id user_id : Nat) (h : q.queue_delayed_task info mm_id user_id = some q1) :
    q1.pending_ = q.pending_ ∧ q1.messages = q.messages ∧
      q1.timer_tasks_ = q.timer_tasks_ ++ [info] ∧ q1.log = q.log ∧ q1.clock = q.clock := by
  unfold TaskQueueWin.queue_delayed_task at h
  simp only at h
  split at h
  · obtain ⟨h1, h2, h3, h4, h5⟩ := TaskQueueWin.ScheduleNextTimer_some _ _ _ _ h
    rw [TaskQueueWin.CancelTimers_pending] at h1
    rw [TaskQueueWin.CancelTimers_messages] at h2
    rw [TaskQueueWin.CancelTimers_timer_tasks] at h3
    rw [TaskQueueWin.CancelTimers_log] at h4
    rw [TaskQueueWin.CancelTimers_clock] at h5
    exact ⟨h1, h2, h3, h4, h5⟩
  · cases h; simp [DueTimeHeap.emplace]

/-- What one step of the worker does to the containers and to the log. -/
theorem TaskQueueWin.worker_effect (q : TaskQueueWin) (mm_id user_id : Nat) :
    ∃ (tasks : List QueuedTask) (msgs : List Msg) (ran : List DelayedTaskInfo),
      q.pending_ = tasks ++ (q.worker mm_id user_id).pending_ ∧
      q.messages = msgs ++ (q.worker mm_id user_id).messages ∧
      List.Perm (q.timer_tasks_ ++ msgs.flatMap Msg.entries)
        (ran ++ (q.worker mm_id user_id).timer_tasks_) ∧
      (q.worker mm_id user_id).log =
        q.log ++ tasks.flatMap run_pending_task ++ msgs.flatMap Msg.runs ++
          ran.flatMap DelayedTaskInfo.run_and_pop ∧
      (ran = [] ∨ (List.Perm ran (q.timer_tasks_.due q.clock) ∧
        (q.worker mm_id user_id).timer_tasks_ = q.timer_tasks_.not_due q.clock)) ∧
      ran.Pairwise (fun a b => a.due_time ≤ b.due_time) ∧
      ∀ e ∈ ran, e.due_time_ ≠ 0 := by
  have nochange : ∀ q1 : TaskQueueWin, q1.pending_ = q.pending_ → q1.messages = q.messages →
      q1.timer_tasks_ = q.timer_tasks_ → q1.log = q.log →
      ∃ (tasks : List QueuedTask) (msgs : List Msg) (ran : List DelayedTaskInfo),
      q.pending_ = tasks ++ q1.pending_ ∧ q.messages = msgs ++ q1.messages ∧
      List.Perm (q.timer_tasks_ ++ msgs.flatMap Msg.entries) (ran ++ q1.timer_tasks_) ∧
      q1.log = q.log ++ tasks.flatMap run_pending_task ++ msgs.flatMap Msg.runs ++
          ran.flatMap DelayedTaskInfo.run_and_pop ∧
      (ran = [] ∨ (List.Perm ran (q.timer_tasks_.due q.clock) ∧
        q1.timer_tasks_ = q.timer_tasks_.not_due q.clock)) ∧
      ran.Pairwise (fun a b => a.due_time ≤ b.due_time) ∧
      ∀ e ∈ ran, e.due_time_ ≠ 0 := by
    intro q1 h1 h2 h3 h4
    exact ⟨[], [], [], by simp [h1], by simp [h2], by simp [h3], by simp [h4], Or.inl rfl,
      List.Pairwise.nil, fun e he => absurd he (List.not_mem_nil e)⟩
  unfold TaskQueueWin.worker
  split
  · exact nochange _ rfl rfl rfl rfl
  · -- msg_loop
    unfold TaskQueueWin.peek_message
    split
    · exact nochange _ rfl rfl rfl rfl
    · next rest hm =>
      exact ⟨[], [Msg.quit], [], by simp, by simp [hm], by simp [Msg.entries], by simp [Msg.runs],
        Or.inl rfl, List.Pairwise.nil,
        fun e he => absurd he (List.not_mem_nil e)⟩
    · next task rest hm =>
      exact ⟨[], [Msg.run_task task], [], by simp, by simp [hm], by simp [Msg.entries],
        by simp [Msg.runs], Or.inl rfl, List.Pairwise.nil,
        fun e he => absurd he (List.not_mem_nil e)⟩
    · next info rest hm =>
      cases hq : TaskQueueWin.queue_delayed_task { q with messages := rest } info mm_id user_id with
      | none => exact nochange _ rfl rfl rfl rfl
      | some q1 =>
        obtain ⟨h1, h2, h3, h4, _⟩ := TaskQueueWin.queue_delayed_task_some _ _ _ _ _ hq
        simp only at h1 h2 h3 h4
        exact ⟨[], [Msg.queue_delayed_task info], [],
          by simp [TaskQueueWin.continue_at, h1],
          by simp [TaskQueueWin.continue_at, h2, hm],
          by simp [TaskQueueWin.continue_at, h3, Msg.entries],
          by simp [TaskQueueWin.continue_at, h4, Msg.runs], Or.inl rfl, List.Pairwise.nil,
        fun e he => absurd he (List.not_mem_nil e)⟩
    · next wParam rest hm =>
      cases hq : TaskQueueWin.wm_timer { q with messages := rest } wParam with
      | none => exact nochange _ rfl rfl rfl rfl
      | some q1 =>
        unfold TaskQueueWin.wm_timer at hq
        split at hq
        · exact absurd hq (by simp)
        · obtain ⟨ran, h1, h2, h3, h3z⟩ := TaskQueueWin.RunDueTasks_some _ _ hq
          subst h1
          refine ⟨[], [Msg.timer wParam], ran, by simp [TaskQueueWin.continue_at],
            by simp [TaskQueueWin.continue_at, hm], ?_, by simp [TaskQueueWin.continue_at, Msg.runs],
            Or.inr ⟨h2, by simp [TaskQueueWin.continue_at]⟩, h3, h3z⟩
          simp only [TaskQueueWin.continue_at, Msg.entries, List.flatMap_cons, List.flatMap_nil,
            List.append_nil]
          exact (DueTimeHeap.due_not_due_perm q.timer_tasks_ q.clock).trans
            (List.Perm.append_right _ h2.symm)
    · exact nochange _ rfl rfl rfl rfl
    · next m rest hm =>
      split
      · exact ⟨[], [Msg.window m], [], by simp, by simp [hm], by simp [Msg.entries],
          by simp [Msg.runs], Or.inl rfl, List.Pairwise.nil,
        fun e he => absurd he (List.not_mem_nil e)⟩
      · exact ⟨[], [Msg.window m], [], by simp, by simp [hm], by simp [Msg.entries],
          by simp [Msg.runs], Or.inl rfl, List.Pairwise.nil,
        fun e he => absurd he (List.not_mem_nil e)⟩
  · -- msg_schedule
    cases hq : q.ScheduleNextTimer mm_id user_id with
    | none => exact nochange _ rfl rfl rfl rfl
    | some q1 =>
      obtain ⟨h1, h2, h3, h4, _⟩ := TaskQueueWin.ScheduleNextTimer_some _ _ _ _ hq
      exact nochange _ h1 h2 h3 h4
  · split <;> exact nochange _ rfl rfl rfl rfl
  · -- timer_check
    split
    · cases hq : TaskQueueWin.RunDueTasks { q with timer_ := q.timer_.Cancel } with
      | none => exact nochange _ rfl rfl rfl rfl
      | some q1 =>
        obtain ⟨ran, h1, h2, h3, h3z⟩ := TaskQueueWin.RunDueTasks_some _ _ hq
        subst h1
        refine ⟨[], [], ran, by simp [TaskQueueWin.continue_at],
          by simp [TaskQueueWin.continue_at], ?_, by simp [TaskQueueWin.continue_at],
          Or.inr ⟨h2, by simp [TaskQueueWin.continue_at]⟩, h3, h3z⟩
        simp only [TaskQueueWin.continue_at, List.flatMap_nil, List.append_nil]
        exact (DueTimeHeap.due_not_due_perm q.timer_tasks_ q.clock).trans
          (List.Perm.append_right _ h2.symm)
    · exact nochange _ rfl rfl rfl rfl
  · -- main_schedule
    cases hq : q.ScheduleNextTimer mm_id user_id with
    | none => exact nochange _ rfl rfl rfl rfl
    | some q1 =>
      obtain ⟨h1, h2, h3, h4, _⟩ := TaskQueueWin.ScheduleNextTimer_some _ _ _ _ hq
      exact nochange _ h1 h2 h3 h4
  · split <;> exact nochange _ rfl rfl rfl rfl
  · -- drain
    cases hp : q.pending_ with
    | nil =>
      simp only [TaskQueueWin.RunPendingTasks_iteration, hp]
      exact ⟨[], [], [], by simp, by simp, by simp, by simp, Or.inl rfl, List.Pairwise.nil,
        fun e he => absurd he (List.not_mem_nil e)⟩
    | cons task rest =>
      simp only [TaskQueueWin.RunPendingTasks_iteration, hp]
      exact ⟨[task], [], [], by simp, by simp, by simp, by simp, Or.inl rfl,
        List.Pairwise.nil, fun e he => absurd he (List.not_mem_nil e)⟩
  · exact nochange _ rfl rfl rfl rfl
  · exact nochange _ rfl rfl rfl rfl


theorem run_pending_task_eq (t : QueuedTask) :
    run_pending_task t =
      Event.run Path.pending t :: (if t.result then [Event.destroy t] else [Event.release t]) := by
  cases hr : t.result <;> simp [run_pending_task, unique_ptr.release, unique_ptr.dtor, hr]

theorem DelayedTaskInfo.run_and_pop_eq (i : DelayedTaskInfo) (h : i.due_time_ ≠ 0) :
    i.run_and_pop =
      Event.run Path.timer i.task_ ::
        (if i.task_.result then [Event.destroy i.task_] else [Event.release i.task_]) := by
  cases hr : i.task_.result <;>
    simp [DelayedTaskInfo.run_and_pop, DelayedTaskInfo.Run, h, unique_ptr.release,
      unique_ptr.reset, unique_ptr.dtor, hr]

theorem DelayedTaskInfo.run_and_pop_zero (i : DelayedTaskInfo) (h : i.due_time_ = 0) :
    i.run_and_pop = [] := by
  simp [DelayedTaskInfo.run_and_pop, DelayedTaskInfo.Run, h]

theorem runs_on_append (p : Path) (l1 l2 : List Event) :
    runs_on p (l1 ++ l2) = runs_on p l1 ++ runs_on p l2 := by
  simp [runs_on, List.filterMap_append]

theorem runs_append (l1 l2 : List Event) : runs (l1 ++ l2) = runs l1 ++ runs l2 := by
  simp [runs, List.filterMap_append]

theorem runs_on_pending_tasks (tasks : List QueuedTask) :
    runs_on Path.pending (tasks.flatMap run_pending_task) = tasks := by
  induction tasks with
  | nil => rfl
  | cons t ts ih =>
    rw [List.flatMap_cons, runs_on_append, ih, run_pending_task_eq]
    cases t.result <;> simp [runs_on]

theorem runs_on_pending_msgs (msgs : List Msg) :
    runs_on Path.pending (msgs.flatMap Msg.runs) = [] := by
  induction msgs with
  | nil => rfl
  | cons m ms ih =>
    rw [List.flatMap_cons, runs_on_append, ih]
    cases m with
    | run_task t => cases hr : t.result <;> simp [Msg.runs, run_task_message, runs_on, hr]
    | _ => simp [Msg.runs, runs_on]

theorem runs_on_pending_ran (ran : List DelayedTaskInfo) :
    runs_on Path.pending (ran.flatMap DelayedTaskInfo.run_and_pop) = [] := by
  induction ran with
  | nil => rfl
  | cons i is ih =>
    rw [List.flatMap_cons, runs_on_append, ih]
    by_cases hz : i.due_time_ = 0
    · rw [DelayedTaskInfo.run_and_pop_zero i hz]; rfl
    · rw [DelayedTaskInfo.run_and_pop_eq i hz]
      cases i.task_.result <;> simp [runs_on]

theorem TaskQueueWin.worker_msg_loop (q : TaskQueueWin) (start : Int) (mm_id user_id : Nat)
    (hp : q.phase = Phase.msg_loop start) :
    q.worker mm_id user_id = q.peek_message start mm_id user_id := by
  unfold TaskQueueWin.worker
  rw [hp]

theorem MultimediaTimer.Cancel_raced_id (t : MultimediaTimer) (now : Int) :
    (t.Cancel_raced now).timer_id_ = 0 := by
  unfold MultimediaTimer.Cancel_raced MultimediaTimer.KillEvent
  split
  · rfl
  · next h => simpa using h

theorem MultimediaTimer.Cancel_id (t : MultimediaTimer) : t.Cancel.timer_id_ = 0 := by
  unfold MultimediaTimer.Cancel
  split
  · rfl
  · next h => simpa using h

/-- The method `Cancel` is `ResetEvent` followed by the killing of the
timer. -/
theorem MultimediaTimer.Cancel_eq (t : MultimediaTimer) : t.Cancel = t.ResetEvent.KillEvent := by
  unfold MultimediaTimer.Cancel MultimediaTimer.KillEvent MultimediaTimer.ResetEvent
  split <;> rfl

/-- The method `ScheduleNextTimer` reads of the multimedia timer its
`timer_id_` only: on two states that differ in the rest of the timer it fails
on both or succeeds on both, with results that differ in the timer only. -/
theorem TaskQueueWin.ScheduleNextTimer_timer (s : TaskQueueWin) (T : MultimediaTimer)
    (mm_id user_id : Nat) (hT : T.timer_id_ = s.timer_.timer_id_) :
    (TaskQueueWin.ScheduleNextTimer { s with timer_ := T } mm_id user_id = none ∧
      s.ScheduleNextTimer mm_id user_id = none) ∨
    ∃ s1 T1, s.ScheduleNextTimer mm_id user_id = some s1 ∧
      TaskQueueWin.ScheduleNextTimer { s with timer_ := T } mm_id user_id =
        some { s1 with timer_ := T1 } := by
  obtain ⟨t0, tt, tid, pend, inq, ut, msgs, clock, phase, log⟩ := s
  simp only at hT
  unfold TaskQueueWin.ScheduleNextTimer
  simp only [TaskQueueWin.GetTick]
  by_cases h0 : tid ≠ 0
  · simp only [if_pos h0]
    exact Or.inl ⟨trivial, trivial⟩
  · simp only [if_neg h0]
    cases tt.top with
    | none => exact Or.inr ⟨_, T, rfl, rfl⟩
    | some next_task =>
      simp only
      cases dchecked_cast_uint32 (next_delay_ms next_task clock) with
      | none => exact Or.inl ⟨rfl, rfl⟩
      | some ms =>
        dsimp only
        unfold MultimediaTimer.StartOneShotTimer
        rw [hT]
        by_cases h1 : t0.timer_id_ ≠ 0
        · simp only [if_pos h1]
          exact Or.inl ⟨trivial, trivial⟩
        · simp only [if_neg h1]
          cases hb : decide (mm_id ≠ 0)
          · exact Or.inr ⟨_, _, rfl, rfl⟩
          · exact Or.inr ⟨_, _, rfl, rfl⟩

theorem TaskQueueWin.CancelTimers_raced_eq (q : TaskQueueWin) :
    ∃ T, q.CancelTimers_raced = { q.CancelTimers with timer_ := T } ∧
      T.timer_id_ = q.CancelTimers.timer_.timer_id_ := by
  refine ⟨q.timer_.Cancel_raced q.clock, ?_, ?_⟩
  · unfold TaskQueueWin.CancelTimers_raced TaskQueueWin.CancelTimers
    simp only
    split <;> rfl
  · rw [MultimediaTimer.Cancel_raced_id]
    unfold TaskQueueWin.CancelTimers
    simp only
    split
    · exact (MultimediaTimer.Cancel_id _).symm
    · exact (MultimediaTimer.Cancel_id _).symm

theorem TaskQueueWin.queue_delayed_task_raced_eq (s : TaskQueueWin) (info : DelayedTaskInfo)
    (mm_id user_id : Nat) :
    (s.queue_delayed_task_raced info mm_id user_id = none ∧
      s.queue_delayed_task info mm_id user_id = none) ∨
    ∃ s1 T1, s.queue_delayed_task info mm_id user_id = some s1 ∧
      s.queue_delayed_task_raced info mm_id user_id = some { s1 with timer_ := T1 } := by
  have resched : (TaskQueueWin.ScheduleNextTimer
        (TaskQueueWin.CancelTimers_raced { s with timer_tasks_ := s.timer_tasks_.emplace info })
        mm_id user_id = none ∧
      TaskQueueWin.ScheduleNextTimer
        (TaskQueueWin.CancelTimers { s with timer_tasks_ := s.timer_tasks_.emplace info })
        mm_id user_id = none) ∨
      ∃ s1 T1, TaskQueueWin.ScheduleNextTimer
          (TaskQueueWin.CancelTimers { s with timer_tasks_ := s.timer_tasks_.emplace info })
          mm_id user_id = some s1 ∧
        TaskQueueWin.ScheduleNextTimer
          (TaskQueueWin.CancelTimers_raced
            { s with timer_tasks_ := s.timer_tasks_.emplace info })
          mm_id user_id = some { s1 with timer_ := T1 } := by
    obtain ⟨T, h1, h2⟩ := TaskQueueWin.CancelTimers_raced_eq
      { s with timer_tasks_ := s.timer_tasks_.emplace info }
    rw [h1]
    rcases TaskQueueWin.ScheduleNextTimer_timer _ T mm_id user_id h2 with
      ⟨e1, e2⟩ | ⟨s1, T1, e1, e2⟩
    · exact Or.inl ⟨e1, e2⟩
    · exact Or.inr ⟨s1, T1, e1, e2⟩
  unfold TaskQueueWin.queue_delayed_task_raced TaskQueueWin.queue_delayed_task
  cases htop : s.timer_tasks_.top with
  | none => exact resched
  | some top =>
    simp only
    by_cases hn : top.due_time > info.due_time
    · simp only [hn, decide_True, if_true]
      exact resched
    · simp only [hn, decide_False, Bool.false_eq_true, if_false]
      exact Or.inr ⟨_, s.timer_, rfl, rfl⟩

/-- The step `worker_raced` and the step `worker` lead to states that differ
in the multimedia timer only. -/
theorem TaskQueueWin.worker_raced_eq (q : TaskQueueWin) (mm_id user_id : Nat) :
    ∃ T, q.worker_raced mm_id user_id = { q.worker mm_id user_id with timer_ := T } := by
  have same : ∀ x : TaskQueueWin, ∃ T, x = { x with timer_ := T } := fun x => ⟨x.timer_, rfl⟩
  unfold TaskQueueWin.worker_raced
  split
  · next start hp =>
    split
    · next info rest hm =>
      have hw : q.worker mm_id user_id =
          TaskQueueWin.continue_at
            (TaskQueueWin.queue_delayed_task { q with messages := rest } info mm_id user_id) q
            (Phase.msg_budget start) := by
        rw [TaskQueueWin.worker_msg_loop q start _ _ hp]
        simp only [TaskQueueWin.peek_message, hm]
      rw [hw]
      rcases TaskQueueWin.queue_delayed_task_raced_eq { q with messages := rest } info mm_id
        user_id with ⟨e1, e2⟩ | ⟨s1, T1, e1, e2⟩
      · rw [e1, e2]
        exact ⟨q.timer_, rfl⟩
      · rw [e1, e2]
        exact ⟨T1, rfl⟩
    · exact same _
  · next result hp =>
    have hw : q.worker mm_id user_id =
        if result = WaitResult.object_0 ∨ (¬ q.timer_tasks_.isEmpty ∧ q.timer_.event_ = true) then
          TaskQueueWin.continue_at (({ q with timer_ := q.timer_.Cancel }).RunDueTasks) q
            (Phase.main_schedule result)
        else { q with phase := Phase.pending_check result } := by
      unfold TaskQueueWin.worker
      rw [hp]
    rw [hw]
    split
    · unfold TaskQueueWin.RunDueTasks
      simp only [TaskQueueWin.GetTick]
      cases DueTimeHeap.RunDueTasks q.timer_tasks_ q.clock with
      | mk ran rest =>
        cases rest with
        | none => exact ⟨q.timer_, rfl⟩
        | some r => exact ⟨q.timer_.Cancel_raced q.clock, rfl⟩
    · exact ⟨q.timer_, rfl⟩
  · exact same _

/-- The step `worker_raced` changes every part of the state but the
multimedia timer as the step `worker` does. -/
theorem TaskQueueWin.worker_raced_fields (q : TaskQueueWin) (mm_id user_id : Nat) :
    (q.worker_raced mm_id user_id).pending_ = (q.worker mm_id user_id).pending_ ∧
    (q.worker_raced mm_id user_id).messages = (q.worker mm_id user_id).messages ∧
    (q.worker_raced mm_id user_id).timer_tasks_ = (q.worker mm_id user_id).timer_tasks_ ∧
    (q.worker_raced mm_id user_id).log = (q.worker mm_id user_id).log ∧
    (q.worker_raced mm_id user_id).clock = (q.worker mm_id user_id).clock ∧
    (q.worker_raced mm_id user_id).phase = (q.worker mm_id user_id).phase ∧
    (q.worker_raced mm_id user_id).in_queue_ = (q.worker mm_id user_id).in_queue_ ∧
    (q.worker_raced mm_id user_id).timer_id_ = (q.worker mm_id user_id).timer_id_ ∧
    (q.worker_raced mm_id user_id).user_timer = (q.worker mm_id user_id).user_timer := by
  obtain ⟨T, h⟩ := TaskQueueWin.worker_raced_eq q mm_id user_id
  rw [h]
  exact ⟨rfl, rfl, rfl, rfl, rfl, rfl, rfl, rfl, rfl⟩

theorem TaskQueueWin.worker_pending_seq (q : TaskQueueWin) (mm_id user_id : Nat) :
    (q.worker mm_id user_id).pending_seq = q.pending_seq := by
  obtain ⟨tasks, msgs, ran, h1, _, _, h4, _, _⟩ := TaskQueueWin.worker_effect q mm_id user_id
  simp only [TaskQueueWin.pending_seq, h4, runs_on_append, runs_on_pending_tasks,
    runs_on_pending_msgs, runs_on_pending_ran, List.append_nil]
  rw [h1 ]
  simp

theorem TaskQueueWin.step_pending_seq (q : TaskQueueWin) (a : Action)
    (hq : q.phase ≠ Phase.failed) :
    (q.step a).pending_seq = q.pending_seq ++ a.immediate_tasks := by
  unfold TaskQueueWin.step
  rw [if_neg hq]
  cases a with
  | PostTask task => simp [TaskQueueWin.PostTask, TaskQueueWin.pending_seq, Action.immediate_tasks]
  | PostDelayedTask task ms posted =>
    by_cases h0 : ms % 4294967296 = 0
    · simp [TaskQueueWin.PostDelayedTask, TaskQueueWin.PostTask, TaskQueueWin.pending_seq,
        Action.immediate_tasks, h0]
    · cases posted <;>
        simp [TaskQueueWin.PostDelayedTask, TaskQueueWin.pending_seq, Action.immediate_tasks, h0,
          unique_ptr.dtor, runs_on_append, runs_on]
  | post_run_task task => simp [TaskQueueWin.pending_seq, Action.immediate_tasks]
  | post_window_message m => simp [TaskQueueWin.pending_seq, Action.immediate_tasks]
  | Delete c =>
    cases c <;> simp [TaskQueueWin.Delete, TaskQueueWin.post_quit, TaskQueueWin.fail,
      TaskQueueWin.pending_seq,
      Action.immediate_tasks]
  | tick dt => simp [TaskQueueWin.pending_seq, Action.immediate_tasks]
  | mm_timer_expires =>
    simp only [Action.immediate_tasks, List.append_nil]
    split
    · split <;> rfl
    · rfl
  | user_timer_expires =>
    simp only [Action.immediate_tasks, List.append_nil]
    split
    · split <;> rfl
    · rfl
  | wake r =>
    simp only [Action.immediate_tasks, List.append_nil, TaskQueueWin.wake]
    split <;> rfl
  | worker mm_id user_id =>
    simp only [Action.immediate_tasks, List.append_nil]
    exact TaskQueueWin.worker_pending_seq q mm_id user_id
  | worker_raced mm_id user_id =>
    simp only [Action.immediate_tasks, List.append_nil]
    obtain ⟨T, h⟩ := TaskQueueWin.worker_raced_eq q mm_id user_id
    rw [h]
    exact TaskQueueWin.worker_pending_seq q mm_id user_id

theorem TaskQueueWin.exec_cons (q : TaskQueueWin) (a : Action) (acts : List Action) :
    q.exec (a :: acts) = (q.step a).exec acts := rfl

theorem TaskQueueWin.step_failed (q : TaskQueueWin) (a : Action) (hq : q.phase = Phase.failed) :
    q.step a = q := by
  simp [TaskQueueWin.step, hq]

theorem TaskQueueWin.exec_failed (q : TaskQueueWin) (acts : List Action)
    (hq : q.phase = Phase.failed) : q.exec acts = q := by
  induction acts with
  | nil => rfl
  | cons a as ih => rw [TaskQueueWin.exec_cons, TaskQueueWin.step_failed q a hq, ih]

theorem TaskQueueWin.exec_pending_seq_le :
    ∀ (acts : List Action) (q : TaskQueueWin),
      (q.exec acts).pending_seq <+: q.pending_seq ++ acts.flatMap Action.immediate_tasks
  | [], q => by simp [TaskQueueWin.exec]
  | a :: acts, q => by
    by_cases hq : q.phase = Phase.failed
    · rw [TaskQueueWin.exec_failed q _ hq]
      exact List.prefix_append _ _
    · rw [TaskQueueWin.exec_cons]
      have ih := TaskQueueWin.exec_pending_seq_le acts (q.step a)
      rw [TaskQueueWin.step_pending_seq q a hq] at ih
      simpa [List.flatMap_cons, List.append_assoc] using ih

theorem TaskQueueWin.exec_pending_seq_eq :
    ∀ (acts : List Action) (q : TaskQueueWin), (q.exec acts).phase ≠ Phase.failed →
      (q.exec acts).pending_seq = q.pending_seq ++ acts.flatMap Action.immediate_tasks
  | [], q, _ => by simp [TaskQueueWin.exec]
  | a :: acts, q, hf => by
    by_cases hq : q.phase = Phase.failed
    · rw [TaskQueueWin.exec_failed q _ hq] at hf
      exact absurd hq hf
    · rw [TaskQueueWin.exec_cons] at hf ⊢
      rw [TaskQueueWin.exec_pending_seq_eq acts (q.step a) hf,
        TaskQueueWin.step_pending_seq q a hq]
      simp [List.flatMap_cons, List.append_assoc]


theorem runs_pending_tasks (tasks : List QueuedTask) :
    runs (tasks.flatMap run_pending_task) = tasks := by
  induction tasks with
  | nil => rfl
  | cons t ts ih =>
    rw [List.flatMap_cons, runs_append, ih, run_pending_task_eq]
    cases t.result <;> simp [runs]

theorem runs_ran (ran : List DelayedTaskInfo) (hnz : ∀ e ∈ ran, e.due_time_ ≠ 0) :
    runs (ran.flatMap DelayedTaskInfo.run_and_pop) = ran.map DelayedTaskInfo.task_ := by
  induction ran with
  | nil => rfl
  | cons i is ih =>
    rw [List.flatMap_cons, runs_append, ih (fun e he => hnz e (List.mem_cons_of_mem _ he)),
      DelayedTaskInfo.run_and_pop_eq i (hnz i (List.mem_cons_self _ _))]
    cases i.task_.result <;> simp [runs]

theorem count_msg_tasks (t : QueuedTask) (msgs : List Msg) :
    (msgs.flatMap Msg.tasks).count t =
      (runs (msgs.flatMap Msg.runs)).count t +
        ((msgs.flatMap Msg.entries).map DelayedTaskInfo.task_).count t := by
  induction msgs with
  | nil => rfl
  | cons m ms ih =>
    simp only [List.flatMap_cons, List.count_append, runs_append, List.map_append, ih]
    cases m with
    | run_task task =>
      cases hr : task.result <;>
        simp [Msg.tasks, Msg.runs, Msg.entries, run_task_message, runs, hr] <;> omega
    | queue_delayed_task info => simp [Msg.tasks, Msg.runs, Msg.entries, runs]; omega
    | _ => simp [Msg.tasks, Msg.runs, Msg.entries, runs]

theorem TaskQueueWin.worker_tally (q : TaskQueueWin) (mm_id user_id : Nat) (t : QueuedTask) :
    (q.worker mm_id user_id).tally t = q.tally t := by
  obtain ⟨tasks, msgs, ran, h1, h2, h3, h4, _, _, hz⟩ :=
    TaskQueueWin.worker_effect q mm_id user_id
  have hc := h3.map DelayedTaskInfo.task_ |>.count_eq t
  have hm := count_msg_tasks t msgs
  simp only [TaskQueueWin.tally, TaskQueueWin.held, h4, runs_append, runs_pending_tasks,
    runs_ran ran hz, List.count_append]
  rw [h1, h2]
  simp only [List.map_append, List.count_append, List.flatMap_append] at hc ⊢
  omega

theorem TaskQueueWin.step_tally (q : TaskQueueWin) (a : Action) (t : QueuedTask) :
    (q.step a).tally t ≤ q.tally t + a.tasks.count t := by
  unfold TaskQueueWin.step
  split
  · exact Nat.le_add_right _ _
  · cases a with
    | PostTask task =>
      simp only [TaskQueueWin.PostTask, TaskQueueWin.tally, TaskQueueWin.held, Action.tasks,
        List.count_append]
      omega
    | PostDelayedTask task ms posted =>
      by_cases h0 : ms % 2 ^ 32 = 0
      · simp only [TaskQueueWin.PostDelayedTask, TaskQueueWin.PostTask, TaskQueueWin.tally,
          TaskQueueWin.held, Action.tasks, h0, if_true, List.count_append]
        omega
      · cases posted
        · simp only [TaskQueueWin.PostDelayedTask, TaskQueueWin.tally, TaskQueueWin.held,
            Action.tasks, h0, if_false, unique_ptr.dtor, runs_append, List.count_append]
          simp [runs]
        · simp only [TaskQueueWin.PostDelayedTask, TaskQueueWin.tally, TaskQueueWin.held,
            Action.tasks, h0, if_false, if_true, List.count_append, List.flatMap_append,
            List.flatMap_cons, List.flatMap_nil, Msg.tasks, DelayedTaskInfo.create,
            List.append_nil]
          omega
    | post_run_task task =>
      simp only [TaskQueueWin.tally, TaskQueueWin.held, Action.tasks, Msg.tasks,
        List.count_append, List.flatMap_append, List.flatMap_cons, List.flatMap_nil,
        List.append_nil]
      omega
    | post_window_message m => simp [TaskQueueWin.tally, TaskQueueWin.held, Action.tasks, Msg.tasks]
    | Delete c =>
      cases c <;> simp [TaskQueueWin.Delete, TaskQueueWin.post_quit, TaskQueueWin.fail,
        TaskQueueWin.tally,
        TaskQueueWin.held, Action.tasks, Msg.tasks]
    | tick dt => simp [TaskQueueWin.tally, TaskQueueWin.held, Action.tasks]
    | mm_timer_expires =>
      simp only [Action.tasks, List.count_nil, Nat.add_zero]
      split
      · split <;> exact le_refl _
      · exact le_refl _
    | user_timer_expires =>
      simp only [Action.tasks, List.count_nil, Nat.add_zero]
      split
      · split
        · simp [TaskQueueWin.tally, TaskQueueWin.held, Msg.tasks]
        · exact le_refl _
      · exact le_refl _
    | wake r =>
      simp only [Action.tasks, List.count_nil, Nat.add_zero, TaskQueueWin.wake]
      split <;> exact le_refl _
    | worker mm_id user_id =>
      simp only [Action.tasks, List.count_nil, Nat.add_zero]
      exact le_of_eq (TaskQueueWin.worker_tally q mm_id user_id t)
    | worker_raced mm_id user_id =>
      simp only [Action.tasks, List.count_nil, Nat.add_zero]
      obtain ⟨T, h⟩ := TaskQueueWin.worker_raced_eq q mm_id user_id
      rw [h]
      exact le_of_eq (TaskQueueWin.worker_tally q mm_id user_id t)

theorem TaskQueueWin.exec_tally (t : QueuedTask) :
    ∀ (acts : List Action) (q : TaskQueueWin),
      (q.exec acts).tally t ≤ q.tally t + (acts.flatMap Action.tasks).count t
  | [], q => by simp [TaskQueueWin.exec]
  | a :: acts, q => by
    rw [TaskQueueWin.exec_cons]
    have ih := TaskQueueWin.exec_tally t acts (q.step a)
    have hs := TaskQueueWin.step_tally q a t
    simp only [List.flatMap_cons, List.count_append]
    omega


theorem runs_on_timer_tasks (tasks : List QueuedTask) :
    runs_on Path.timer (tasks.flatMap run_pending_task) = [] := by
  induction tasks with
  | nil => rfl
  | cons t ts ih =>
    rw [List.flatMap_cons, runs_on_append, ih, run_pending_task_eq]
    cases t.result <;> simp [runs_on]

theorem runs_on_timer_msgs (msgs : List Msg) :
    runs_on Path.timer (msgs.flatMap Msg.runs) = [] := by
  induction msgs with
  | nil => rfl
  | cons m ms ih =>
    rw [List.flatMap_cons, runs_on_append, ih]
    cases m with
    | run_task t => cases hr : t.result <;> simp [Msg.runs, run_task_message, runs_on, hr]
    | _ => simp [Msg.runs, runs_on]

theorem runs_on_timer_ran (ran : List DelayedTaskInfo) (hnz : ∀ e ∈ ran, e.due_time_ ≠ 0) :
    runs_on Path.timer (ran.flatMap DelayedTaskInfo.run_and_pop) =
      ran.map DelayedTaskInfo.task_ := by
  induction ran with
  | nil => rfl
  | cons i is ih =>
    rw [List.flatMap_cons, runs_on_append, ih (fun e he => hnz e (List.mem_cons_of_mem _ he)),
      DelayedTaskInfo.run_and_pop_eq i (hnz i (List.mem_cons_self _ _))]
    cases i.task_.result <;> simp [runs_on]

/-- The delayed entries a worker step runs: they come from `timer_tasks_` in
ascending order of due time, and they are all the entries due at the tick of
the step. -/
theorem TaskQueueWin.worker_timer_runs (q : TaskQueueWin) (mm_id user_id : Nat) :
    ∃ ran : List DelayedTaskInfo,
      runs_on Path.timer (q.worker mm_id user_id).log =
        runs_on Path.timer q.log ++ ran.map DelayedTaskInfo.task_ ∧
      ran.Pairwise (fun a b => a.due_time ≤ b.due_time) ∧
      (ran = [] ∨ (List.Perm ran (q.timer_tasks_.due q.clock) ∧
        (q.worker mm_id user_id).timer_tasks_ = q.timer_tasks_.not_due q.clock)) := by
  obtain ⟨tasks, msgs, ran, _, _, _, h4, h5, h6, hz⟩ :=
    TaskQueueWin.worker_effect q mm_id user_id
  refine ⟨ran, ?_, h6, h5⟩
  simp only [h4, runs_on_append, runs_on_timer_tasks, runs_on_timer_msgs,
    runs_on_timer_ran ran hz, List.append_nil]

theorem TaskQueueWin.PostDelayedTask_runs_on (p : Path) (q : TaskQueueWin) (task : QueuedTask)
    (ms : Nat) (posted : Bool) :
    runs_on p (q.PostDelayedTask task ms posted).log = runs_on p q.log := by
  unfold TaskQueueWin.PostDelayedTask
  split
  · rfl
  · cases posted
    · simp [unique_ptr.dtor, runs_on_append, runs_on]
    · rfl

theorem TaskQueueWin.step_timer_runs (q : TaskQueueWin) (a : Action) :
    ∃ ran : List DelayedTaskInfo,
      runs_on Path.timer (q.step a).log =
        runs_on Path.timer q.log ++ ran.map DelayedTaskInfo.task_ ∧
      ran.Pairwise (fun a b => a.due_time ≤ b.due_time) ∧
      (ran = [] ∨ (List.Perm ran (q.timer_tasks_.due q.clock) ∧
        (q.step a).timer_tasks_ = q.timer_tasks_.not_due q.clock)) := by
  have none_run : ∀ q1 : TaskQueueWin, runs_on Path.timer q1.log = runs_on Path.timer q.log →
      ∃ ran : List DelayedTaskInfo,
        runs_on Path.timer q1.log = runs_on Path.timer q.log ++ ran.map DelayedTaskInfo.task_ ∧
        ran.Pairwise (fun a b => a.due_time ≤ b.due_time) ∧
        (ran = [] ∨ (List.Perm ran (q.timer_tasks_.due q.clock) ∧
          q1.timer_tasks_ = q.timer_tasks_.not_due q.clock)) := by
    intro q1 h
    exact ⟨[], by simp [h], List.Pairwise.nil, Or.inl rfl⟩
  unfold TaskQueueWin.step
  by_cases hq : q.phase = Phase.failed
  · rw [if_pos hq]; exact none_run _ rfl
  · rw [if_neg hq]
    cases a with
    | PostTask task => exact none_run _ rfl
    | PostDelayedTask task ms posted =>
      exact none_run _ (TaskQueueWin.PostDelayedTask_runs_on _ _ _ _ _)
    | post_run_task task => exact none_run _ rfl
    | post_window_message m => exact none_run _ rfl
    | Delete c => cases c <;> exact none_run _ rfl
    | tick dt => exact none_run _ rfl
    | mm_timer_expires =>
      dsimp only
      apply none_run
      split
      · split <;> rfl
      · rfl
    | user_timer_expires =>
      dsimp only
      apply none_run
      split
      · split <;> rfl
      · rfl
    | wake r =>
      dsimp only [TaskQueueWin.wake]
      apply none_run
      split <;> rfl
    | worker mm_id user_id => exact TaskQueueWin.worker_timer_runs q mm_id user_id
    | worker_raced mm_id user_id =>
      obtain ⟨T, h⟩ := TaskQueueWin.worker_raced_eq q mm_id user_id
      dsimp only
      rw [h]
      exact TaskQueueWin.worker_timer_runs q mm_id user_id


theorem DueTimeHeap.top_append_singleton (i : DelayedTaskInfo) : ∀ (h : DueTimeHeap),
    DueTimeHeap.top (h ++ [i]) =
      match h.top with
      | none => some i
      | some m => if greater m i then some i else some m
  | [] => by simp [DueTimeHeap.top]
  | x :: xs => by
    have ih := DueTimeHeap.top_append_singleton i xs
    rw [List.cons_append]
    simp only [DueTimeHeap.top]
    rw [ih]
    cases hx : DueTimeHeap.top xs with
    | none => simp
    | some m =>
      simp only
      by_cases h1 : greater m i = true <;> by_cases h2 : greater x m = true <;>
        by_cases h3 : greater x i = true <;> simp [h1, h2, h3]
      all_goals
        simp only [greater_iff, not_lt] at h1 h2 h3
        omega

theorem next_delay_ms_nonneg (m : DelayedTaskInfo) (now : Int) : 0 ≤ next_delay_ms m now :=
  le_max_left _ _

theorem next_delay_ms_eq (m : DelayedTaskInfo) (now : Int) (hlo : -2 ^ 63 ≤ m.due_time - now)
    (hhi : m.due_time - now < 2 ^ 63) : next_delay_ms m now = max 0 (m.due_time - now) := by
  simp [next_delay_ms, int64_sub, wrap_int64_of_range _ hlo hhi]

theorem dchecked_cast_uint32_eq (v : Int) (h0 : 0 ≤ v) :
    dchecked_cast_uint32 v = if v < 2 ^ 32 then some v.toNat else none := by
  simp [dchecked_cast_uint32, h0]

/-- `ScheduleNextTimer` on a queue with top entry `m`, no timer identifier held. -/
theorem TaskQueueWin.ScheduleNextTimer_top (q : TaskQueueWin) (mm_id user_id : Nat)
    (m : DelayedTaskInfo) (htop : q.timer_tasks_.top = some m) (h0 : q.timer_id_ = 0)
    (h1 : q.timer_.timer_id_ = 0) :
    q.ScheduleNextTimer mm_id user_id =
      if next_delay_ms m q.clock < 2 ^ 32 then
        some (if mm_id ≠ 0 then
          { q with timer_ := { q.timer_ with
              timer_id_ := mm_id,
              os_timer := some ⟨mm_id, (next_delay_ms m q.clock).toNat, q.clock⟩ } }
        else
          { q with timer_ := { q.timer_ with timer_id_ := 0 },
                   timer_id_ := user_id,
                   user_timer := if user_id ≠ 0 then
                     some ⟨user_id, (next_delay_ms m q.clock).toNat, q.clock⟩ else q.user_timer })
      else none := by
  unfold TaskQueueWin.ScheduleNextTimer
  simp only [h0, ne_eq, not_true_eq_false, if_false, htop, TaskQueueWin.GetTick,
    dchecked_cast_uint32_eq _ (next_delay_ms_nonneg m q.clock)]
  by_cases hfit : next_delay_ms m q.clock < 2 ^ 32
  · simp only [hfit, if_true, MultimediaTimer.StartOneShotTimer, h1, ne_eq, not_true_eq_false,
      if_false]
    by_cases hmm : mm_id = 0
    · subst hmm; simp
    · simp [hmm]
  · simp only [hfit, if_false]


theorem TaskQueueWin.CancelTimers_ids (q : TaskQueueWin) :
    q.CancelTimers.timer_id_ = 0 ∧ q.CancelTimers.timer_.timer_id_ = 0 ∧
      q.CancelTimers.timer_.event_ = false := by
  simp only [TaskQueueWin.CancelTimers, MultimediaTimer.Cancel]
  by_cases h1 : q.timer_id_ = 0 <;> by_cases h2 : q.timer_.timer_id_ = 0 <;> simp [h1, h2]

theorem TaskQueueWin.CancelTimers_consistent (q : TaskQueueWin)
    (hc : q.timers_consistent = true) :
    q.CancelTimers =
      { q with timer_ := { event_ := false, timer_id_ := 0, os_timer := none },
               timer_id_ := 0, user_timer := none } := by
  simp only [TaskQueueWin.timers_consistent, Bool.and_eq_true] at hc
  obtain ⟨hc1, hc2⟩ := hc
  have hu : (if q.timer_id_ ≠ 0 then OsTimer.kill q.user_timer q.timer_id_ else q.user_timer)
      = none := by
    cases hut : q.user_timer with
    | none => simp [OsTimer.kill]
    | some t =>
      rw [hut] at hc2
      simp only [decide_eq_true_eq] at hc2
      have : q.timer_id_ ≠ 0 := by rw [← hc2.1]; exact hc2.2
      simp [OsTimer.kill, this, hc2.1]
  have hm : q.timer_.Cancel = { event_ := false, timer_id_ := 0, os_timer := none } := by
    cases hot : q.timer_.os_timer with
    | none =>
      by_cases h2 : q.timer_.timer_id_ = 0
      · simp only [MultimediaTimer.Cancel, h2, ne_eq, not_true_eq_false, if_false]
        rw [← h2, ← hot]
      · simp [MultimediaTimer.Cancel, h2, OsTimer.kill, hot]
    | some t =>
      rw [hot] at hc1
      simp only [decide_eq_true_eq] at hc1
      have : q.timer_.timer_id_ ≠ 0 := by rw [← hc1.1]; exact hc1.2
      simp [MultimediaTimer.Cancel, OsTimer.kill, this, hc1.1, hot]
  simp only [TaskQueueWin.CancelTimers, hm]
  by_cases h1 : q.timer_id_ = 0
  · simp only [h1, ne_eq, not_true_eq_false, if_false] at hu ⊢
    rw [← hu]
  · simp only [h1, ne_eq, not_false_eq_true, if_true] at hu ⊢
    rw [hu]

/-- The handler of `WM_QUEUE_DELAYED_TASK` when rescheduling is not needed. -/
theorem TaskQueueWin.queue_delayed_task_keep (q : TaskQueueWin) (info : DelayedTaskInfo)
    (mm_id user_id : Nat) (top : DelayedTaskInfo) (htop : q.timer_tasks_.top = some top)
    (hle : top.due_time ≤ info.due_time) :
    q.queue_delayed_task info mm_id user_id =
      some { q with timer_tasks_ := q.timer_tasks_ ++ [info] } := by
  simp [TaskQueueWin.queue_delayed_task, htop, not_lt_of_le hle, DueTimeHeap.emplace]

/-- The top of the queue after an entry due strictly earlier than the old top,
or into an empty queue, was inserted. -/
theorem DueTimeHeap.top_emplace_earlier (h : DueTimeHeap) (info : DelayedTaskInfo)
    (hneed : h.top = none ∨ ∃ top, h.top = some top ∧ info.due_time < top.due_time) :
    DueTimeHeap.top (h ++ [info]) = some info := by
  rw [DueTimeHeap.top_append_singleton]
  rcases hneed with hn | ⟨top, ht, hlt⟩
  · rw [hn]
  · rw [ht]
    have : greater top info = true := (greater_iff _ _).2 hlt
    simp [this]

/-- The handler of `WM_QUEUE_DELAYED_TASK` when rescheduling is needed. -/
theorem TaskQueueWin.queue_delayed_task_reschedule (q : TaskQueueWin) (info : DelayedTaskInfo)
    (mm_id user_id : Nat)
    (hneed : q.timer_tasks_.top = none ∨
      ∃ top, q.timer_tasks_.top = some top ∧ info.due_time < top.due_time) :
    q.queue_delayed_task info mm_id user_id =
      if next_delay_ms info q.clock < 2 ^ 32 then
        some (if mm_id ≠ 0 then
          { q.CancelTimers with
              timer_tasks_ := q.timer_tasks_ ++ [info],
              timer_ := { q.CancelTimers.timer_ with
                timer_id_ := mm_id,
                os_timer := some ⟨mm_id, (next_delay_ms info q.clock).toNat, q.clock⟩ } }
        else
          { q.CancelTimers with
              timer_tasks_ := q.timer_tasks_ ++ [info],
              timer_ := { q.CancelTimers.timer_ with timer_id_ := 0 },
              timer_id_ := user_id,
              user_timer := if user_id ≠ 0 then
                some ⟨user_id, (next_delay_ms info q.clock).toNat, q.clock⟩
                else q.CancelTimers.user_timer })
      else none := by
  have hstep : q.queue_delayed_task info mm_id user_id =
      TaskQueueWin.ScheduleNextTimer
        (TaskQueueWin.CancelTimers { q with timer_tasks_ := q.timer_tasks_ ++ [info] })
        mm_id user_id := by
    rcases hneed with hn | ⟨top, ht, hlt⟩
    · simp [TaskQueueWin.queue_delayed_task, hn, DueTimeHeap.emplace]
    · simp [TaskQueueWin.queue_delayed_task, ht, hlt, DueTimeHeap.emplace]
  have htop := DueTimeHeap.top_emplace_earlier q.timer_tasks_ info hneed
  obtain ⟨h0, h1, _⟩ := TaskQueueWin.CancelTimers_ids q
  have hcz : TaskQueueWin.CancelTimers { q with timer_tasks_ := q.timer_tasks_ ++ [info] } =
      { q.CancelTimers with timer_tasks_ := q.timer_tasks_ ++ [info] } := by
    simp only [TaskQueueWin.CancelTimers]
    split <;> rfl
  have hs := TaskQueueWin.ScheduleNextTimer_top
    { q.CancelTimers with timer_tasks_ := q.timer_tasks_ ++ [info] } mm_id user_id info htop h0 h1
  rw [hstep, hcz, hs]
  simp only [TaskQueueWin.CancelTimers_clock]


theorem TaskQueueWin.RunPendingTasks_loop_spec :
    ∀ (pending : List QueuedTask) (fuel : Nat) (q : TaskQueueWin), q.pending_ = pending →
      pending.length < fuel →
      TaskQueueWin.RunPendingTasks_loop fuel q =
        some { q with pending_ := [], log := q.log ++ pending.flatMap run_pending_task }
  | [], fuel, q, hp, hlen => by
    cases fuel with
    | zero => simp at hlen
    | succ n =>
      simp only [TaskQueueWin.RunPendingTasks_loop, TaskQueueWin.RunPendingTasks_iteration, hp]
      cases q
      simp only at hp
      subst hp
      simp
  | task :: rest, fuel, q, hp, hlen => by
    cases fuel with
    | zero => simp at hlen
    | succ n =>
      simp only [TaskQueueWin.RunPendingTasks_loop, TaskQueueWin.RunPendingTasks_iteration, hp]
      rw [TaskQueueWin.RunPendingTasks_loop_spec rest n _ rfl (by simpa using hlen)]
      simp [List.flatMap_cons]

theorem TaskQueueWin.RunPendingTasks_spec (q : TaskQueueWin) :
    q.RunPendingTasks =
      some { q with pending_ := [], log := q.log ++ q.pending_.flatMap run_pending_task } :=
  TaskQueueWin.RunPendingTasks_loop_spec q.pending_ _ q rfl (Nat.lt_succ_self _)

theorem TaskQueueWin.foldl_PostTask (tasks : List QueuedTask) :
    ∀ q : TaskQueueWin, (tasks.foldl TaskQueueWin.PostTask q).pending_ = q.pending_ ++ tasks ∧
      (tasks.foldl TaskQueueWin.PostTask q).log = q.log := by
  induction tasks with
  | nil => intro q; simp
  | cons t ts ih =>
    intro q
    obtain ⟨h1, h2⟩ := ih (q.PostTask t)
    simp only [List.foldl_cons, h1, h2]
    simp [TaskQueueWin.PostTask]

theorem TaskQueueWin.CancelTimers_in_queue (q : TaskQueueWin) :
    q.CancelTimers.in_queue_ = q.in_queue_ := by
  simp only [TaskQueueWin.CancelTimers]; split <;> rfl

theorem TaskQueueWin.ScheduleNextTimer_in_queue (q q1 : TaskQueueWin) (mm_id user_id : Nat)
    (h : q.ScheduleNextTimer mm_id user_id = some q1) : q1.in_queue_ = q.in_queue_ := by
  unfold TaskQueueWin.ScheduleNextTimer at h
  split at h
  · exact absurd h (by simp)
  · split at h
    · cases h; simp
    · split at h
      · exact absurd h (by simp)
      · split at h
        · exact absurd h (by simp)
        · cases h; simp
        · cases h; simp

theorem TaskQueueWin.RunDueTasks_in_queue (q q1 : TaskQueueWin) (h : q.RunDueTasks = some q1) :
    q1.in_queue_ = q.in_queue_ := by
  obtain ⟨ran, h1, _, _⟩ := TaskQueueWin.RunDueTasks_some q q1 h
  rw [h1]

theorem TaskQueueWin.queue_delayed_task_in_queue (q q1 : TaskQueueWin) (info : DelayedTaskInfo)
    (mm_id user_id : Nat) (h : q.queue_delayed_task info mm_id user_id = some q1) :
    q1.in_queue_ = q.in_queue_ := by
  unfold TaskQueueWin.queue_delayed_task at h
  simp only at h
  split at h
  · have := TaskQueueWin.ScheduleNextTimer_in_queue _ _ _ _ h
    rw [TaskQueueWin.CancelTimers_in_queue] at this
    exact this
  · cases h; rfl

/-- A worker step outside `RunPendingTasks` and away from the statement that
resets `in_queue_` leaves `pending_` and `in_queue_` as they are. -/
theorem TaskQueueWin.worker_frame_pending (q : TaskQueueWin) (mm_id user_id : Nat)
    (h1 : ∀ r, q.phase ≠ Phase.pending_check r) (h2 : q.phase ≠ Phase.drain) :
    (q.worker mm_id user_id).pending_ = q.pending_ ∧
      (q.worker mm_id user_id).in_queue_ = q.in_queue_ := by
  unfold TaskQueueWin.worker
  split
  · exact ⟨rfl, rfl⟩
  · unfold TaskQueueWin.peek_message
    split
    · exact ⟨rfl, rfl⟩
    · exact ⟨rfl, rfl⟩
    · exact ⟨rfl, rfl⟩
    · next info rest hm =>
      cases hq : TaskQueueWin.queue_delayed_task { q with messages := rest } info mm_id user_id with
      | none => exact ⟨rfl, rfl⟩
      | some q1 =>
        obtain ⟨h3, _⟩ := TaskQueueWin.queue_delayed_task_some _ _ _ _ _ hq
        have h4 := TaskQueueWin.queue_delayed_task_in_queue _ _ _ _ _ hq
        exact ⟨h3, h4⟩
    · next wParam rest hm =>
      cases hq : TaskQueueWin.wm_timer { q with messages := rest } wParam with
      | none => exact ⟨rfl, rfl⟩
      | some q1 =>
        unfold TaskQueueWin.wm_timer at hq
        split at hq
        · exact absurd hq (by simp)
        · obtain ⟨ran, h3, _, _⟩ := TaskQueueWin.RunDueTasks_some _ _ hq
          subst h3
          exact ⟨rfl, rfl⟩
    · exact ⟨rfl, rfl⟩
    · split <;> exact ⟨rfl, rfl⟩
  · cases hq : q.ScheduleNextTimer mm_id user_id with
    | none => exact ⟨rfl, rfl⟩
    | some q1 =>
      obtain ⟨h3, _⟩ := TaskQueueWin.ScheduleNextTimer_some _ _ _ _ hq
      exact ⟨h3, TaskQueueWin.ScheduleNextTimer_in_queue q q1 _ _ hq⟩
  · split <;> exact ⟨rfl, rfl⟩
  · split
    · cases hq : TaskQueueWin.RunDueTasks { q with timer_ := q.timer_.Cancel } with
      | none => exact ⟨rfl, rfl⟩
      | some q1 =>
        obtain ⟨ran, h3, _, _⟩ := TaskQueueWin.RunDueTasks_some _ _ hq
        subst h3
        exact ⟨rfl, rfl⟩
    · exact ⟨rfl, rfl⟩
  · cases hq : q.ScheduleNextTimer mm_id user_id with
    | none => exact ⟨rfl, rfl⟩
    | some q1 =>
      obtain ⟨h3, _⟩ := TaskQueueWin.ScheduleNextTimer_some _ _ _ _ hq
      exact ⟨h3, TaskQueueWin.ScheduleNextTimer_in_queue q q1 _ _ hq⟩
  · next r hp => exact absurd hp (h1 r)
  · next hp => exact absurd hp h2
  · exact ⟨rfl, rfl⟩
  · exact ⟨rfl, rfl⟩

theorem TaskQueueWin.no_missed_wake_iff (q : TaskQueueWin) :
    q.no_missed_wake = true ↔
      (q.pending_ = [] ∨ q.in_queue_ = true ∨ q.phase = Phase.drain ∨ q.phase = Phase.failed) := by
  simp [TaskQueueWin.no_missed_wake, or_assoc]

theorem TaskQueueWin.worker_no_missed_wake (q : TaskQueueWin) (mm_id user_id : Nat)
    (h : q.no_missed_wake = true) : (q.worker mm_id user_id).no_missed_wake = true := by
  rw [TaskQueueWin.no_missed_wake_iff] at h ⊢
  by_cases hd : q.phase = Phase.drain
  · simp only [TaskQueueWin.worker, hd, TaskQueueWin.RunPendingTasks_iteration]
    cases hp : q.pending_ with
    | nil => exact Or.inl (by simp [hp])
    | cons t rest => exact Or.inr (Or.inr (Or.inl (by simp [hd])))
  · by_cases hc : ∃ r, q.phase = Phase.pending_check r
    · obtain ⟨r, hr⟩ := hc
      simp only [TaskQueueWin.worker, hr]
      split
      · exact Or.inr (Or.inr (Or.inl rfl))
      · rcases h with h | h | h | h
        · exact Or.inl h
        · exact Or.inr (Or.inl h)
        · exact absurd h hd
        · rw [hr] at h; cases h
    · have hc1 : ∀ r, q.phase ≠ Phase.pending_check r := fun r hr => hc ⟨r, hr⟩
      obtain ⟨h3, h4⟩ := TaskQueueWin.worker_frame_pending q mm_id user_id hc1 hd
      rw [h3, h4]
      rcases h with h | h | h | h
      · exact Or.inl h
      · exact Or.inr (Or.inl h)
      · exact absurd h hd
      · have : q.worker mm_id user_id = q := by simp [TaskQueueWin.worker, h]
        rw [this]
        exact Or.inr (Or.inr (Or.inr h))

theorem TaskQueueWin.step_no_missed_wake (q : TaskQueueWin) (a : Action)
    (h : q.no_missed_wake = true) : (q.step a).no_missed_wake = true := by
  unfold TaskQueueWin.step
  by_cases hq : q.phase = Phase.failed
  · rw [if_pos hq]; exact h
  · rw [if_neg hq]
    cases a with
    | PostTask task => simp [TaskQueueWin.PostTask, TaskQueueWin.no_missed_wake]
    | PostDelayedTask task ms posted =>
      dsimp only
      unfold TaskQueueWin.PostDelayedTask
      split
      · simp [TaskQueueWin.PostTask, TaskQueueWin.no_missed_wake]
      · cases posted <;> exact h
    | post_run_task task => exact h
    | post_window_message m => exact h
    | Delete c =>
      cases c
      · exact h
      · simp [TaskQueueWin.Delete, TaskQueueWin.post_quit, TaskQueueWin.fail,
          TaskQueueWin.no_missed_wake]
    | tick dt => exact h
    | mm_timer_expires =>
      dsimp only
      split
      · split <;> exact h
      · exact h
    | user_timer_expires =>
      dsimp only
      split
      · split <;> exact h
      · exact h
    | wake r =>
      dsimp only [TaskQueueWin.wake]
      split
      · next hw =>
        rw [TaskQueueWin.no_missed_wake_iff] at h ⊢
        rcases h with h | h | h | h
        · exact Or.inl h
        · exact Or.inr (Or.inl h)
        · rw [hw.1] at h; cases h
        · exact absurd h hq
      · exact h
    | worker mm_id user_id => exact TaskQueueWin.worker_no_missed_wake q mm_id user_id h
    | worker_raced mm_id user_id =>
      obtain ⟨T, hT⟩ := TaskQueueWin.worker_raced_eq q mm_id user_id
      dsimp only
      rw [hT]
      exact TaskQueueWin.worker_no_missed_wake q mm_id user_id h

theorem TaskQueueWin.exec_no_missed_wake : ∀ (acts : List Action) (q : TaskQueueWin),
    q.no_missed_wake = true → (q.exec acts).no_missed_wake = true
  | [], _, h => h
  | a :: acts, q, h => by
    rw [TaskQueueWin.exec_cons]
    exact TaskQueueWin.exec_no_missed_wake acts _ (TaskQueueWin.step_no_missed_wake q a h)

theorem TaskQueueWin.continue_at_phase (r : Option TaskQueueWin) (q : TaskQueueWin) (p : Phase) :
    (TaskQueueWin.continue_at r q p).phase = p ∨
      (TaskQueueWin.continue_at r q p).phase = Phase.failed := by
  cases r with
  | none => exact Or.inr rfl
  | some q1 => exact Or.inl rfl

/-- The worker leaves its loop only by taking a message numbered `WM_QUIT`
from the queue. -/
theorem TaskQueueWin.worker_stopped (q : TaskQueueWin) (mm_id user_id : Nat)
    (h : (q.worker mm_id user_id).phase = Phase.stopped) :
    q.phase = Phase.stopped ∨
      ∃ start m rest, q.phase = Phase.msg_loop start ∧ q.messages = m :: rest ∧
        m.not_quit = false ∧
        q.worker mm_id user_id = { q with messages := rest, phase := Phase.stopped } := by
  unfold TaskQueueWin.worker at h ⊢
  split at h
  · next hp => rw [hp] at h; cases h
  · next start hp =>
    unfold TaskQueueWin.peek_message at h ⊢
    split at h
    · cases h
    · next rest hm => exact Or.inr ⟨start, Msg.quit, rest, hp, hm, rfl, by simp [hp, hm]⟩
    · cases h
    · rcases TaskQueueWin.continue_at_phase _ _ _ with h1 | h1 <;> rw [h1] at h <;> cases h
    · rcases TaskQueueWin.continue_at_phase _ _ _ with h1 | h1 <;> rw [h1] at h <;> cases h
    · cases h
    · next message rest hm =>
      split at h
      · next hw =>
        exact Or.inr ⟨start, Msg.window message, rest, hp, hm, by simp [Msg.not_quit, hw],
          by simp [hp, hm, hw]⟩
      · cases h
  · rcases TaskQueueWin.continue_at_phase _ _ _ with h1 | h1 <;> rw [h1] at h <;> cases h
  · split at h <;> cases h
  · split at h
    · rcases TaskQueueWin.continue_at_phase _ _ _ with h1 | h1 <;> rw [h1] at h <;> cases h
    · cases h
  · rcases TaskQueueWin.continue_at_phase _ _ _ with h1 | h1 <;> rw [h1] at h <;> cases h
  · split at h <;> cases h
  · next hp =>
    simp only [TaskQueueWin.RunPendingTasks_iteration] at h
    split at h
    · cases h
    · next heq =>
      split at heq
      · cases heq
      · cases heq; simp only at h; rw [hp] at h; cases h
  · next hp => exact Or.inl hp
  · next hp => rw [hp] at h; cases h

theorem TaskQueueWin.PostDelayedTask_phase (q : TaskQueueWin) (task : QueuedTask) (ms : Nat)
    (posted : Bool) : (q.PostDelayedTask task ms posted).phase = q.phase := by
  unfold TaskQueueWin.PostDelayedTask
  split
  · rfl
  · cases posted <;> rfl

theorem TaskQueueWin.PostDelayedTask_runs (q : TaskQueueWin) (task : QueuedTask)
    (ms : Nat) (posted : Bool) :
    runs (q.PostDelayedTask task ms posted).log = runs q.log := by
  unfold TaskQueueWin.PostDelayedTask
  split
  · rfl
  · cases posted
    · simp [unique_ptr.dtor, runs_append, runs]
    · rfl

/-- Once the worker has left its loop, no step runs a task and the worker stays
out of the loop. -/
theorem TaskQueueWin.step_after_stop (q : TaskQueueWin) (a : Action)
    (h : q.phase = Phase.stopped ∨ q.phase = Phase.failed) :
    ((q.step a).phase = Phase.stopped ∨ (q.step a).phase = Phase.failed) ∧
      runs (q.step a).log = runs q.log := by
  unfold TaskQueueWin.step
  by_cases hq : q.phase = Phase.failed
  · rw [if_pos hq]; exact ⟨Or.inr hq, rfl⟩
  · rw [if_neg hq]
    have hs : q.phase = Phase.stopped := by
      rcases h with h | h
      · exact h
      · exact absurd h hq
    cases a with
    | PostTask task => exact ⟨Or.inl hs, rfl⟩
    | PostDelayedTask task ms posted =>
      dsimp only
      rw [TaskQueueWin.PostDelayedTask_phase, TaskQueueWin.PostDelayedTask_runs]
      exact ⟨Or.inl hs, rfl⟩
    | post_run_task task => exact ⟨Or.inl hs, rfl⟩
    | post_window_message m => exact ⟨Or.inl hs, rfl⟩
    | Delete c =>
      cases c
      · exact ⟨Or.inl hs, rfl⟩
      · exact ⟨Or.inr rfl, rfl⟩
    | tick dt => exact ⟨Or.inl hs, rfl⟩
    | mm_timer_expires =>
      dsimp only
      split
      · split <;> exact ⟨Or.inl hs, rfl⟩
      · exact ⟨Or.inl hs, rfl⟩
    | user_timer_expires =>
      dsimp only
      split
      · split <;> exact ⟨Or.inl hs, rfl⟩
      · exact ⟨Or.inl hs, rfl⟩
    | wake r =>
      have : q.wake r = q := by simp [TaskQueueWin.wake, hs]
      dsimp only
      rw [this]
      exact ⟨Or.inl hs, rfl⟩
    | worker mm_id user_id =>
      have : q.worker mm_id user_id = q := by simp [TaskQueueWin.worker, hs]
      dsimp only
      rw [this]
      exact ⟨Or.inl hs, rfl⟩
    | worker_raced mm_id user_id =>
      have : q.worker_raced mm_id user_id = q := by
        simp [TaskQueueWin.worker_raced, TaskQueueWin.worker, hs]
      dsimp only
      rw [this]
      exact ⟨Or.inl hs, rfl⟩

theorem TaskQueueWin.exec_after_stop : ∀ (acts : List Action) (q : TaskQueueWin),
    (q.phase = Phase.stopped ∨ q.phase = Phase.failed) →
      ((q.exec acts).phase = Phase.stopped ∨ (q.exec acts).phase = Phase.failed) ∧
        runs (q.exec acts).log = runs q.log
  | [], _, h => ⟨h, rfl⟩
  | a :: acts, q, h => by
    rw [TaskQueueWin.exec_cons]
    obtain ⟨h1, h2⟩ := TaskQueueWin.step_after_stop q a h
    obtain ⟨h3, h4⟩ := TaskQueueWin.exec_after_stop acts (q.step a) h1
    exact ⟨h3, h4.trans h2⟩

theorem TaskQueueWin.handle_message_messages (q q1 : TaskQueueWin) (msg : Msg) (h : Handling)
    (hh : q.handle_message msg h = some q1) : q1.messages = q.messages := by
  unfold TaskQueueWin.handle_message at hh
  split at hh
  · cases hh; rfl
  · cases hh; rfl
  · split at hh
    · cases hh
    · next q2 hq =>
      cases hh
      exact (TaskQueueWin.queue_delayed_task_some _ _ _ _ _ hq).2.1
  · split at hh
    · cases hh
    · next q2 hq =>
      have h1 := (TaskQueueWin.ScheduleNextTimer_some _ _ _ _ hh).2.1
      unfold TaskQueueWin.wm_timer at hq
      split at hq
      · cases hq
      · obtain ⟨ran, h2, _, _⟩ := TaskQueueWin.RunDueTasks_some _ _ hq
        rw [h1, h2]
        rfl
  · cases hh
  · cases hh; rfl

/-- The loop of `ProcessQueuedMessages` takes a front part `taken` of the
message queue; `WM_QUIT` can only be the last message taken, and the value
returned tells whether the variable `msg` holds `WM_QUIT` at the end. -/
theorem TaskQueueWin.ProcessQueuedMessages_loop_spec (start : Int) :
    ∀ (hs : List Handling) (q : TaskQueueWin) (msg : Msg) (q1 : TaskQueueWin) (r : Bool),
      TaskQueueWin.ProcessQueuedMessages_loop start hs q msg = some (q1, r) →
      ∃ taken : List Msg, q.messages = taken ++ q1.messages ∧
        (∀ m ∈ taken.dropLast, m.not_quit = true) ∧
        r = (taken.getLast?.getD msg).not_quit := by
  intro hs
  induction hs with
  | nil =>
    intro q msg q1 r hrun
    unfold TaskQueueWin.ProcessQueuedMessages_loop at hrun
    split at hrun
    · next hm =>
      cases hrun
      exact ⟨[], by simp [hm], by simp, rfl⟩
    · next m rest hm =>
      split at hrun
      · next hq =>
        cases hrun
        exact ⟨[m], by simp [hm], by simp, rfl⟩
      · cases hrun
  | cons h hs1 ih =>
    intro q msg q1 r hrun
    unfold TaskQueueWin.ProcessQueuedMessages_loop at hrun
    split at hrun
    · next hm =>
      cases hrun
      exact ⟨[], by simp [hm], by simp, rfl⟩
    · next m rest hm =>
      split at hrun
      · next hq =>
        cases hrun
        exact ⟨[m], by simp [hm], by simp, rfl⟩
      · next hq =>
        simp only at hrun
        split at hrun
        · cases hrun
        · next q2 hh =>
          have hq2 : q2.messages = rest := TaskQueueWin.handle_message_messages _ _ _ _ hh
          split at hrun
          · cases hrun
            exact ⟨[m], by simp [hm, hq2], by simp, rfl⟩
          · obtain ⟨taken, h1, h2, h3⟩ := ih q2 m q1 r hrun
            refine ⟨m :: taken, by rw [hm, ← hq2, h1]; rfl, ?_, ?_⟩
            · cases taken with
              | nil => simp
              | cons x xs =>
                simp only [List.dropLast_cons₂, List.mem_cons]
                intro x1 hx1
                rcases hx1 with hx1 | hx1
                · rw [hx1]
                  simpa using hq
                · exact h2 x1 hx1
            · cases taken with
              | nil => exact h3
              | cons x xs =>
                rw [h3, List.getLast?_cons_cons, List.getLast?_eq_getLast _ (List.cons_ne_nil x xs)]
                rfl

/-- With a handling for every message in the queue, the loop of
`ProcessQueuedMessages` returns unless a check in a handler fails: when it
does not return, a message of the queue was handed, in a state that holds the
messages behind it, to a handler that failed. -/
theorem TaskQueueWin.ProcessQueuedMessages_loop_total (start : Int) :
    ∀ (hs : List Handling) (q : TaskQueueWin) (msg : Msg),
      q.messages.length ≤ hs.length →
      (TaskQueueWin.ProcessQueuedMessages_loop start hs q msg).isSome = true ∨
        ∃ (m : Msg) (q0 : TaskQueueWin) (h : Handling) (before : List Msg),
          q.messages = before ++ m :: q0.messages ∧ m.not_quit = true ∧ h ∈ hs ∧
            q0.handle_message m h = none := by
  intro hs
  induction hs with
  | nil =>
    intro q msg hl
    have hm : q.messages = [] := List.eq_nil_of_length_eq_zero (Nat.le_zero.mp hl)
    unfold TaskQueueWin.ProcessQueuedMessages_loop
    rw [hm]
    exact Or.inl rfl
  | cons h hs1 ih =>
    intro q msg hl
    unfold TaskQueueWin.ProcessQueuedMessages_loop
    split
    · exact Or.inl rfl
    · next m rest hm =>
      split
      · exact Or.inl rfl
      · next hq =>
        simp only
        cases hh : TaskQueueWin.handle_message { q with messages := rest } m h with
        | none =>
          exact Or.inr ⟨m, { q with messages := rest }, h, [], hm, by simpa using hq,
            List.mem_cons_self _ _, hh⟩
        | some q2 =>
          simp only
          have hq2 : q2.messages = rest := TaskQueueWin.handle_message_messages _ _ _ _ hh
          split
          · exact Or.inl rfl
          · have hl2 : q2.messages.length ≤ hs1.length := by
              rw [hq2]
              rw [hm] at hl
              simpa using hl
            rcases ih q2 m hl2 with h1 | ⟨m1, q0, h1, before, e1, e2, e3, e4⟩
            · exact Or.inl h1
            · refine Or.inr ⟨m1, q0, h1, m :: before, ?_, e2, List.mem_cons_of_mem _ e3, e4⟩
              rw [hm, ← hq2, e1]
              rfl

theorem TaskQueueWin.ScheduleNextTimer_phase (q q1 : TaskQueueWin) (mm_id user_id : Nat)
    (h : q.ScheduleNextTimer mm_id user_id = some q1) : q1.phase = q.phase := by
  unfold TaskQueueWin.ScheduleNextTimer at h
  split at h
  · exact absurd h (by simp)
  · split at h
    · cases h; simp
    · split at h
      · exact absurd h (by simp)
      · split at h
        · exact absurd h (by simp)
        · cases h; simp
        · cases h; simp

theorem TaskQueueWin.step_worker (q : TaskQueueWin) (mm_id user_id : Nat)
    (hnf : q.phase ≠ Phase.failed) :
    q.step (Action.worker mm_id user_id) = q.worker mm_id user_id := by
  simp only [TaskQueueWin.step, if_neg hnf]

theorem TaskQueueWin.step_tick (q : TaskQueueWin) (dt : Nat) (hnf : q.phase ≠ Phase.failed) :
    q.step (Action.tick dt) = q.advance dt := by
  simp only [TaskQueueWin.step, if_neg hnf, TaskQueueWin.advance]

theorem TaskQueueWin.worker_msg_budget (q : TaskQueueWin) (start : Int) (mm_id user_id : Nat)
    (hp : q.phase = Phase.msg_budget start) :
    q.worker mm_id user_id =
      { q with phase :=
          if q.GetTick > int64_add start kMaxTaskProcessingTimeMs then
            Phase.timer_check WaitResult.object_2
          else Phase.msg_loop start } := by
  unfold TaskQueueWin.worker
  rw [hp]
  simp only
  split <;> rfl

theorem TaskQueueWin.worker_msg_schedule (q : TaskQueueWin) (start : Int) (mm_id user_id : Nat)
    (hp : q.phase = Phase.msg_schedule start) :
    q.worker mm_id user_id =
      TaskQueueWin.continue_at (q.ScheduleNextTimer mm_id user_id) q (Phase.msg_budget start) := by
  unfold TaskQueueWin.worker
  rw [hp]

/-- The method `ScheduleNextTimer` does not read the position of the worker. -/
theorem TaskQueueWin.ScheduleNextTimer_at (q : TaskQueueWin) (p : Phase) (mm_id user_id : Nat) :
    TaskQueueWin.ScheduleNextTimer { q with phase := p } mm_id user_id =
      (q.ScheduleNextTimer mm_id user_id).map (fun q1 => { q1 with phase := p }) := by
  unfold TaskQueueWin.ScheduleNextTimer
  simp only [TaskQueueWin.GetTick]
  split
  · rfl
  · cases q.timer_tasks_.top with
    | none => rfl
    | some next_task =>
      simp only
      cases dchecked_cast_uint32 (next_delay_ms next_task q.clock) with
      | none => rfl
      | some milliseconds =>
        simp only
        cases q.timer_.StartOneShotTimer milliseconds mm_id q.clock with
        | none => rfl
        | some r =>
          obtain ⟨t, b⟩ := r
          cases b <;> rfl

/-- The steps `worker, tick, worker` from a state at the check of the time. -/
theorem TaskQueueWin.exec_tick_budget (q : TaskQueueWin) (start : Int) (dt mm_id user_id : Nat)
    (hp : q.phase = Phase.msg_budget start) :
    q.exec [Action.tick dt, Action.worker mm_id user_id] =
      { q.advance dt with phase :=
          if (q.advance dt).GetTick > int64_add start kMaxTaskProcessingTimeMs then
            Phase.timer_check WaitResult.object_2
          else Phase.msg_loop start } := by
  have hnf : q.phase ≠ Phase.failed := by rw [hp]; exact fun hc => by cases hc
  have hnf1 : (q.advance dt).phase ≠ Phase.failed := hnf
  simp only [TaskQueueWin.exec, List.foldl_cons, List.foldl_nil]
  rw [TaskQueueWin.step_tick q dt hnf, TaskQueueWin.step_worker _ _ _ hnf1,
    TaskQueueWin.worker_msg_budget (q.advance dt) start _ _ hp]

/-- The handling of one message in the transition system agrees with
`handle_message` followed by the check of the time. -/
theorem TaskQueueWin.exec_script (q : TaskQueueWin) (start : Int) (m : Msg) (rest : List Msg)
    (h : Handling) (hp : q.phase = Phase.msg_loop start) (hm : q.messages = m :: rest)
    (hq : m.not_quit = true) :
    (TaskQueueWin.handle_message { q with messages := rest } m h = none →
      (q.exec (m.script h)).phase = Phase.failed) ∧
    (∀ q1, TaskQueueWin.handle_message { q with messages := rest } m h = some q1 →
      q.exec (m.script h) =
        { q1 with phase :=
            if q1.GetTick > int64_add start kMaxTaskProcessingTimeMs then
              Phase.timer_check WaitResult.object_2
            else Phase.msg_loop start }) := by
  have hnf : q.phase ≠ Phase.failed := by rw [hp]; exact fun hc => by cases hc
  have hcons : ∀ (a : Action) (l : List Action), q.exec (a :: l) = (q.step a).exec l :=
    fun _ _ => rfl
  cases m with
  | quit => cases hq
  | run_task task =>
    constructor
    · intro hc; simp [TaskQueueWin.handle_message] at hc
    · intro q1 hh
      simp only [TaskQueueWin.handle_message, Option.some.injEq] at hh
      subst hh
      have s1 : q.step (Action.worker h.mm_id h.user_id) =
          { q with messages := rest, log := q.log ++ run_task_message task,
                   phase := Phase.msg_budget start } := by
        rw [TaskQueueWin.step_worker q _ _ hnf, TaskQueueWin.worker_msg_loop q start _ _ hp]
        simp only [TaskQueueWin.peek_message, hm]
      simp only [Msg.script]
      rw [hcons, s1, TaskQueueWin.exec_tick_budget _ start _ _ _ rfl]
      rfl
  | queue_delayed_task info =>
    have s1 : q.step (Action.worker h.mm_id h.user_id) =
        TaskQueueWin.continue_at
          (TaskQueueWin.queue_delayed_task { q with messages := rest } info h.mm_id h.user_id) q
          (Phase.msg_budget start) := by
      rw [TaskQueueWin.step_worker q _ _ hnf, TaskQueueWin.worker_msg_loop q start _ _ hp]
      simp only [TaskQueueWin.peek_message, hm]
    simp only [Msg.script, TaskQueueWin.handle_message]
    rw [hcons, s1]
    cases hh : TaskQueueWin.queue_delayed_task { q with messages := rest } info h.mm_id
        h.user_id with
    | none =>
      dsimp only
      refine ⟨fun _ => ?_, fun q1 hc => by cases hc⟩
      simp only [TaskQueueWin.continue_at]
      rw [TaskQueueWin.exec_failed _ _ rfl]
      rfl
    | some q2 =>
      dsimp only
      refine ⟨fun hc => (by cases hc), fun q1 hc => ?_⟩
      simp only [Option.some.injEq] at hc
      subst hc
      simp only [TaskQueueWin.continue_at]
      rw [TaskQueueWin.exec_tick_budget _ start _ _ _ rfl]
      rfl
  | timer wParam =>
    have s1 : q.step (Action.worker h.mm_id h.user_id) =
        TaskQueueWin.continue_at (TaskQueueWin.wm_timer { q with messages := rest } wParam) q
          (Phase.msg_schedule start) := by
      rw [TaskQueueWin.step_worker q _ _ hnf, TaskQueueWin.worker_msg_loop q start _ _ hp]
      simp only [TaskQueueWin.peek_message, hm]
    simp only [Msg.script, TaskQueueWin.handle_message]
    rw [hcons, s1]
    cases hh : TaskQueueWin.wm_timer { q with messages := rest } wParam with
    | none =>
      refine ⟨fun _ => ?_, fun q1 hc => by cases hc⟩
      simp only [TaskQueueWin.continue_at]
      rw [TaskQueueWin.exec_failed _ _ rfl]
      rfl
    | some q2 =>
      simp only [TaskQueueWin.continue_at]
      have hnf2 : ({ q2 with phase := Phase.msg_schedule start } : TaskQueueWin).phase ≠
          Phase.failed := fun hc => by cases hc
      rw [TaskQueueWin.exec_cons, TaskQueueWin.step_tick _ _ hnf2, TaskQueueWin.exec_cons,
        TaskQueueWin.step_worker _ _ _ (by exact hnf2),
        TaskQueueWin.worker_msg_schedule _ start _ _ rfl]
      have e : ({ q2 with phase := Phase.msg_schedule start } : TaskQueueWin).advance h.elapsed =
          { q2.advance h.elapsed with phase := Phase.msg_schedule start } := rfl
      rw [e, TaskQueueWin.ScheduleNextTimer_at (q2.advance h.elapsed) (Phase.msg_schedule start)]
      cases hs : (q2.advance h.elapsed).ScheduleNextTimer h.mm_id h.user_id with
      | none =>
        refine ⟨fun _ => ?_, fun q1 hc => by cases hc⟩
        simp only [Option.map, TaskQueueWin.continue_at]
        rw [TaskQueueWin.exec_failed _ _ rfl]
        rfl
      | some q3 =>
        refine ⟨fun hc => (by cases hc), fun q1 hc => ?_⟩
        simp only [Option.some.injEq] at hc
        subst hc
        simp only [Option.map, TaskQueueWin.continue_at, TaskQueueWin.exec, List.foldl_cons,
          List.foldl_nil]
        rw [TaskQueueWin.step_worker _ _ _ (fun hc => by cases hc),
          TaskQueueWin.worker_msg_budget _ start _ _ rfl]
        rfl
  | other =>
    constructor
    · intro _
      simp only [Msg.script]
      rw [hcons, TaskQueueWin.step_worker q _ _ hnf, TaskQueueWin.worker_msg_loop q start _ _ hp]
      simp only [TaskQueueWin.peek_message, hm]
      rw [TaskQueueWin.exec_failed _ _ rfl]
      rfl
    · intro q1 hc; simp [TaskQueueWin.handle_message] at hc
  | window n =>
    constructor
    · intro hc; simp [TaskQueueWin.handle_message] at hc
    · intro q1 hh
      simp only [TaskQueueWin.handle_message, Option.some.injEq] at hh
      subst hh
      have hw : n ≠ WM_QUIT := by simpa [Msg.not_quit] using hq
      have s1 : q.step (Action.worker h.mm_id h.user_id) =
          { q with messages := rest, phase := Phase.msg_budget start } := by
        rw [TaskQueueWin.step_worker q _ _ hnf, TaskQueueWin.worker_msg_loop q start _ _ hp]
        simp only [TaskQueueWin.peek_message, hm, if_neg hw]
      simp only [Msg.script]
      rw [hcons, s1, TaskQueueWin.exec_tick_budget _ start _ _ _ rfl]
      rfl

/-- The loop of `Delete` posts one `WM_QUIT`, after any number of refusals
for lack of quota. -/
theorem TaskQueueWin.post_quit_some (q q0 : TaskQueueWin) :
    ∀ errors : List Nat, q.post_quit errors = some q0 →
      q0 = { q with messages := q.messages ++ [Msg.quit] }
  | [], h => by
    simp only [TaskQueueWin.post_quit, Option.some.injEq] at h
    exact h.symm
  | error :: errors, h => by
    unfold TaskQueueWin.post_quit at h
    split at h
    · cases h
    · exact TaskQueueWin.post_quit_some q q0 errors h

theorem TaskQueueWin.exec_append (q : TaskQueueWin) (a b : List Action) :
    q.exec (a ++ b) = (q.exec a).exec b := by
  simp [TaskQueueWin.exec, List.foldl_append]

theorem TaskQueueWin.enabled_all_append :
    ∀ (a b : List Action) (q : TaskQueueWin),
      q.enabled_all (a ++ b) = (q.enabled_all a && (q.exec a).enabled_all b)
  | [], b, q => by simp [TaskQueueWin.enabled_all, TaskQueueWin.exec]
  | x :: a, b, q => by
    rw [List.cons_append]
    simp only [TaskQueueWin.enabled_all, TaskQueueWin.exec_cons]
    rw [TaskQueueWin.enabled_all_append a b (q.step x), Bool.and_assoc]

/-- Posting a list of immediate tasks, one after the other. -/
theorem TaskQueueWin.exec_PostTask :
    ∀ (tasks : List QueuedTask) (q : TaskQueueWin), q.phase ≠ Phase.failed →
      q.exec (tasks.map Action.PostTask) =
        { q with pending_ := q.pending_ ++ tasks,
                 in_queue_ := q.in_queue_ || !tasks.isEmpty } ∧
      q.enabled_all (tasks.map Action.PostTask) = true
  | [], q, _ => by
    obtain ⟨a, b, c, d, e, f, g, h, p, l⟩ := q
    simp [TaskQueueWin.exec, TaskQueueWin.enabled_all]
  | t :: ts, q, hq => by
    have hs : q.step (Action.PostTask t) = q.PostTask t := by
      simp only [TaskQueueWin.step, if_neg hq]
    obtain ⟨h1, h2⟩ := TaskQueueWin.exec_PostTask ts (q.PostTask t) hq
    simp only [List.map_cons, TaskQueueWin.exec_cons, TaskQueueWin.enabled_all, hs, h1, h2]
    simp [TaskQueueWin.PostTask, TaskQueueWin.enabled, hq]

/-- One drain pass runs every task of `pending_`, however long that takes: no
step of it looks at the clock, the timers or the message queue. -/
theorem TaskQueueWin.exec_drain_pass :
    ∀ (tasks rest : List QueuedTask) (q : TaskQueueWin), q.phase = Phase.drain →
      q.pending_ = tasks ++ rest →
      q.exec (drain_pass tasks) =
        { q with pending_ := rest, log := q.log ++ tasks.flatMap run_pending_task,
                 clock := q.clock + tasks.length } ∧
      q.enabled_all (drain_pass tasks) = true
  | [], rest, q, _, hp => by
    obtain ⟨a, b, c, d, e, f, g, h, p, l⟩ := q
    simp only [List.nil_append] at hp
    subst hp
    simp [drain_pass, TaskQueueWin.exec, TaskQueueWin.enabled_all]
  | t :: ts, rest, q, hph, hp => by
    obtain ⟨a, b, c, d, e, f, g, h, p, l⟩ := q
    simp only at hph hp
    subst hph
    subst hp
    obtain ⟨h1, h2⟩ := TaskQueueWin.exec_drain_pass ts rest
      { timer_ := a, timer_tasks_ := b, timer_id_ := c, pending_ := ts ++ rest, in_queue_ := e,
        user_timer := f, messages := g, clock := h + 1, phase := Phase.drain,
        log := l ++ run_pending_task t } rfl rfl
    have e1 : drain_pass (t :: ts) = Action.worker 0 0 :: Action.tick 1 :: drain_pass ts := rfl
    have e2 : TaskQueueWin.step
        (TaskQueueWin.step
          { timer_ := a, timer_tasks_ := b, timer_id_ := c, pending_ := t :: ts ++ rest,
            in_queue_ := e, user_timer := f, messages := g, clock := h, phase := Phase.drain,
            log := l } (Action.worker 0 0)) (Action.tick 1) =
        { timer_ := a, timer_tasks_ := b, timer_id_ := c, pending_ := ts ++ rest, in_queue_ := e,
          user_timer := f, messages := g, clock := h + 1, phase := Phase.drain,
          log := l ++ run_pending_task t } := rfl
    rw [e1]
    simp only [TaskQueueWin.exec_cons, TaskQueueWin.enabled_all, e2, h1, h2]
    refine ⟨?_, ?_⟩
    · simp only [List.flatMap_cons, List.append_assoc, List.length_cons, Nat.cast_add,
        Nat.cast_one, TaskQueueWin.mk.injEq, true_and, and_true]
      omega
    · rfl

/-- The execution `flood tasks` can happen, and at its end every immediate task
has run while the delayed entry is still in the message queue. -/
theorem TaskQueueWin.exec_flood (tasks : List QueuedTask) (h : tasks ≠ []) :
    (TaskQueueWin.init 0).enabled_all (flood tasks) = true ∧
    (TaskQueueWin.init 0).exec (flood tasks) =
      { TaskQueueWin.init 0 with
        messages := [Msg.queue_delayed_task { due_time_ := 50, task_ := flood_delayed }],
        clock := tasks.length, phase := Phase.drain,
        log := tasks.flatMap run_pending_task } := by
  obtain ⟨h1, h2⟩ := TaskQueueWin.exec_PostTask tasks (TaskQueueWin.init 0)
    (fun hc => by cases hc)
  have hin : (false || !tasks.isEmpty) = true := by
    cases tasks with
    | nil => exact absurd rfl h
    | cons t ts => rfl
  have h3 : (TaskQueueWin.init 0).exec (tasks.map Action.PostTask) =
      { timer_ := { event_ := false, timer_id_ := 0, os_timer := none },
        timer_tasks_ := [], timer_id_ := 0, pending_ := tasks, in_queue_ := true,
        user_timer := none, messages := [],
        clock := 0, phase := Phase.wait, log := [] } := by
    rw [h1]
    simp only [TaskQueueWin.init, List.nil_append, hin]
  have h4 : TaskQueueWin.exec
      { timer_ := { event_ := false, timer_id_ := 0, os_timer := none },
        timer_tasks_ := [], timer_id_ := 0, pending_ := tasks, in_queue_ := true,
        user_timer := none, messages := [],
        clock := 0, phase := Phase.wait, log := [] }
        [Action.PostDelayedTask flood_delayed 50 true, Action.wake WaitResult.object_1,
         Action.worker 0 0, Action.worker 0 0] =
      { timer_ := { event_ := false, timer_id_ := 0, os_timer := none },
        timer_tasks_ := [], timer_id_ := 0, pending_ := tasks, in_queue_ := false,
        user_timer := none, messages := [Msg.queue_delayed_task { due_time_ := 50, task_ := flood_delayed }],
        clock := 0, phase := Phase.drain, log := [] } := by
    rfl
  have h5 : TaskQueueWin.enabled_all
      { timer_ := { event_ := false, timer_id_ := 0, os_timer := none },
        timer_tasks_ := [], timer_id_ := 0, pending_ := tasks, in_queue_ := true,
        user_timer := none, messages := [],
        clock := 0, phase := Phase.wait, log := [] }
        [Action.PostDelayedTask flood_delayed 50 true, Action.wake WaitResult.object_1,
         Action.worker 0 0, Action.worker 0 0] = true := by
    rfl
  obtain ⟨h6, h7⟩ := TaskQueueWin.exec_drain_pass tasks []
      { timer_ := { event_ := false, timer_id_ := 0, os_timer := none },
        timer_tasks_ := [], timer_id_ := 0, pending_ := tasks, in_queue_ := false,
        user_timer := none, messages := [Msg.queue_delayed_task { due_time_ := 50, task_ := flood_delayed }],
        clock := 0, phase := Phase.drain, log := [] } rfl (by simp)
  constructor
  · unfold flood
    rw [TaskQueueWin.enabled_all_append, TaskQueueWin.enabled_all_append,
      TaskQueueWin.exec_append, h2, h3, h4, h5, h7]
    rfl
  · unfold flood
    rw [TaskQueueWin.exec_append, TaskQueueWin.exec_append, h3, h4, h6]
    simp [TaskQueueWin.init]

/-- A stranded worker stays stranded under the actions of the worker and of
the operating system: no task runs and `timer_tasks_` keeps its entries. -/
theorem TaskQueueWin.step_stranded (q : TaskQueueWin) (a : Action) (hs : q.stranded = true)
    (ha : a.internal = true) :
    (q.step a).stranded = true ∧ (q.step a).log = q.log ∧
      (q.step a).timer_tasks_ = q.timer_tasks_ := by
  obtain ⟨⟨ev, mid, ot⟩, tt, tid, pend, inq, ut, msgs, clock, phase, log⟩ := q
  simp only [TaskQueueWin.stranded, Bool.and_eq_true, Bool.or_eq_true, decide_eq_true_eq,
    Option.isNone_iff_eq_none, Bool.not_eq_true', List.isEmpty_iff] at hs
  obtain ⟨⟨⟨⟨⟨⟨h1, h2⟩, h3⟩, h4⟩, h5⟩, h6⟩, h7⟩ := hs
  subst h1 h2 h3 h4 h5 h6
  cases a with
  | PostTask task => cases ha
  | PostDelayedTask task ms posted => cases ha
  | post_run_task task => cases ha
  | post_window_message m => cases ha
  | Delete c => cases ha
  | tick dt =>
    rcases h7 with (h7 | h7) | h7 <;> subst h7 <;> exact ⟨rfl, rfl, rfl⟩
  | mm_timer_expires =>
    rcases h7 with (h7 | h7) | h7 <;> subst h7 <;> exact ⟨rfl, rfl, rfl⟩
  | user_timer_expires =>
    rcases h7 with (h7 | h7) | h7 <;> subst h7 <;> exact ⟨rfl, rfl, rfl⟩
  | wake r =>
    rcases h7 with (h7 | h7) | h7 <;> subst h7 <;> cases r <;> exact ⟨rfl, rfl, rfl⟩
  | worker mm_id user_id =>
    rcases h7 with (h7 | h7) | h7 <;> subst h7
    · exact ⟨rfl, rfl, rfl⟩
    · simp [TaskQueueWin.step, TaskQueueWin.worker, TaskQueueWin.stranded]
    · exact ⟨rfl, rfl, rfl⟩
  | worker_raced mm_id user_id =>
    rcases h7 with (h7 | h7) | h7 <;> subst h7
    · exact ⟨rfl, rfl, rfl⟩
    · simp [TaskQueueWin.step, TaskQueueWin.worker_raced, TaskQueueWin.stranded]
    · exact ⟨rfl, rfl, rfl⟩

theorem TaskQueueWin.exec_stranded :
    ∀ (acts : List Action) (q : TaskQueueWin), q.stranded = true →
      (q.exec (acts.filter Action.internal)).stranded = true ∧
        (q.exec (acts.filter Action.internal)).log = q.log ∧
        (q.exec (acts.filter Action.internal)).timer_tasks_ = q.timer_tasks_
  | [], _, hs => ⟨hs, rfl, rfl⟩
  | a :: acts, q, hs => by
    by_cases ha : a.internal = true
    · rw [List.filter_cons_of_pos ha, TaskQueueWin.exec_cons]
      obtain ⟨h1, h2, h3⟩ := TaskQueueWin.step_stranded q a hs ha
      obtain ⟨h4, h5, h6⟩ := TaskQueueWin.exec_stranded acts (q.step a) h1
      exact ⟨h4, h5.trans h2, h6.trans h3⟩
    · rw [List.filter_cons_of_neg ha]
      exact TaskQueueWin.exec_stranded acts q hs

/-- A list without repetition of the entries `a0` and `b0`, in ascending order
of due time, where `b0` is due before `a0`. -/
theorem DelayedTaskInfo.two_sorted (ran : List DelayedTaskInfo) (a0 b0 : DelayedTaskInfo)
    (hlt : b0.due_time < a0.due_time) (hmem : ∀ e ∈ ran, e = a0 ∨ e = b0) (hnd : ran.Nodup)
    (hs : ran.Pairwise (fun x y => x.due_time ≤ y.due_time)) :
    ran = [] ∨ ran = [a0] ∨ ran = [b0] ∨ ran = [b0, a0] := by
  cases ran with
  | nil => exact Or.inl rfl
  | cons x xs =>
    cases xs with
    | nil =>
      rcases hmem x (by simp) with h | h
      · exact Or.inr (Or.inl (by rw [h]))
      · exact Or.inr (Or.inr (Or.inl (by rw [h])))
    | cons y ys =>
      cases ys with
      | nil =>
        have hxy : x ≠ y := by
          intro hc
          simp [hc] at hnd
        have hle : x.due_time ≤ y.due_time := by
          simp only [List.pairwise_cons, List.mem_singleton, forall_eq] at hs
          exact hs.1
        rcases hmem x (by simp) with hx | hx <;> rcases hmem y (by simp) with hy | hy
        · exact absurd (hx.trans hy.symm) hxy
        · subst hx; subst hy; omega
        · subst hx; subst hy; exact Or.inr (Or.inr (Or.inr rfl))
        · exact absurd (hx.trans hy.symm) hxy
      | cons z zs =>
        exfalso
        simp only [List.nodup_cons, List.mem_cons, not_or] at hnd
        obtain ⟨⟨hxy, hxz, _⟩, ⟨hyz, _⟩, _⟩ := hnd
        rcases hmem x (by simp) with hx | hx <;> rcases hmem y (by simp) with hy | hy <;>
          rcases hmem z (by simp) with hz | hz <;> subst hx <;> subst hy <;>
          first
            | exact hxy rfl
            | (subst hz; first | exact hxz rfl | exact hyz rfl)

/-- A worker step keeps the bookkeeping of the three posts, given that the
worker has kept up so far. -/
theorem TaskQueueWin.worker_ordered (c : Int) (C : QueuedTask) (a0 b0 : DelayedTaskInfo)
    (S : List DelayedTaskInfo) (pc : List QueuedTask) (q : TaskQueueWin) (mm_id user_id : Nat)
    (ranlist : List DelayedTaskInfo)
    (ha : a0.due_time = c + 100) (hb1 : c + 10 ≤ b0.due_time) (hb2 : b0.due_time < a0.due_time)
    (hS : ∀ e ∈ S, e = a0 ∨ e = b0) (hnd : S.Nodup) (hpc : pc = [] ∨ (pc = [C] ∧ b0 ∈ S))
    (ht : q.timely c C = true) (inv : q.ordered C a0 b0 S pc ranlist) :
    ∃ ranlist1, (q.worker mm_id user_id).ordered C a0 b0 S pc ranlist1 := by
  obtain ⟨i1, i2, i3, i4, i5, i6⟩ := inv
  obtain ⟨tasks, msgs, ran, e1, e2, e3, e4, e5, e6, ez⟩ :=
    TaskQueueWin.worker_effect q mm_id user_id
  have hmr : msgs.flatMap Msg.runs = [] := by
    rw [List.flatMap_eq_nil_iff]
    intro m hm
    exact i6 m (by rw [e2]; exact List.mem_append_left _ hm)
  have hlog : (q.worker mm_id user_id).log =
      q.log ++ tasks.flatMap run_pending_task ++ ran.flatMap DelayedTaskInfo.run_and_pop := by
    rw [e4, hmr, List.append_nil]
  have hnodup : (ranlist ++ q.timer_tasks_ ++ q.messages.flatMap Msg.entries).Nodup :=
    i3.nodup_iff.mpr hnd
  have hheap_nd : q.timer_tasks_.Nodup := by
    rw [List.append_assoc] at hnodup
    exact (List.nodup_append.mp (List.nodup_append.mp hnodup).2.1).1
  have hdisj : ∀ e ∈ ranlist, e ∉ q.timer_tasks_ := by
    intro e he hh
    rw [List.append_assoc] at hnodup
    exact (List.nodup_append.mp hnodup).2.2 he (List.mem_append_left _ hh)
  have hmem_heap : ∀ e ∈ q.timer_tasks_, e = a0 ∨ e = b0 := by
    intro e he
    exact hS e (i3.mem_iff.mp (List.mem_append_left _ (List.mem_append_right _ he)))
  have hran_sub : ∀ e ∈ ran, e ∈ q.timer_tasks_ ∧ e.due_time ≤ q.clock := by
    intro e he
    rcases e5 with h | ⟨h, _⟩
    · rw [h] at he; cases he
    · have := h.mem_iff.mp he
      simpa [DueTimeHeap.due] using this
  have hran_nd : ran.Nodup := by
    rcases e5 with h | ⟨h, _⟩
    · rw [h]; exact List.nodup_nil
    · exact h.nodup_iff.mpr (hheap_nd.filter _)
  have hran_cases := DelayedTaskInfo.two_sorted ran a0 b0 hb2
    (fun e he => hmem_heap e (hran_sub e he).1) hran_nd e6
  simp only [TaskQueueWin.timely, Bool.and_eq_true, Bool.or_eq_true, decide_eq_true_eq,
    List.isEmpty_iff] at ht
  obtain ⟨t1, t2⟩ := ht
  have hpend : ∀ l : List QueuedTask, l = [C] → l ++ q.pending_ = pc → q.pending_ = [] := by
    intro l hl h
    rcases hpc with hp | ⟨hp, _⟩
    · rw [hl, hp] at h; cases h
    · rw [hl, hp] at h
      simpa using h
  have hC : ran ≠ [] → runs_on Path.pending q.log = [C] := by
    intro hne
    obtain ⟨e, he⟩ := List.exists_mem_of_ne_nil ran hne
    obtain ⟨he1, he2⟩ := hran_sub e he
    have hdue : c + 10 ≤ e.due_time := by
      rcases hmem_heap e he1 with h | h <;> rw [h] <;> omega
    have hrun : C ∈ runs q.log := by
      rcases t1 with t1 | t1
      · omega
      · exact t1
    by_cases hr : ranlist = []
    · rw [i1, hr, List.map_nil, List.append_nil] at hrun
      rcases hpc with hp | ⟨hp, _⟩
      · rw [hp] at i2
        have := (List.append_eq_nil.mp i2).1
        rw [this] at hrun
        cases hrun
      · rw [hp] at i2
        cases hl : runs_on Path.pending q.log with
        | nil => rw [hl] at hrun; cases hrun
        | cons x xs =>
          rw [hl] at i2
          simp only [List.cons_append, List.cons.injEq] at i2
          have := (List.append_eq_nil.mp i2.2).1
          rw [i2.1, this]
    · exact i5 hr
  have htasks : ranlist ≠ [] ∨ ran ≠ [] → tasks = [] := by
    intro h
    have hp : runs_on Path.pending q.log = [C] := by
      rcases h with h | h
      · exact i5 h
      · exact hC h
    have := hpend _ hp i2
    rw [this] at e1
    exact (List.append_eq_nil.mp e1.symm).1
  have hpr : runs_on Path.pending (q.worker mm_id user_id).log =
      runs_on Path.pending q.log ++ tasks := by
    rw [hlog, runs_on_append, runs_on_append, runs_on_pending_tasks, runs_on_pending_ran,
      List.append_nil]
  have hr : runs (q.worker mm_id user_id).log =
      runs q.log ++ tasks ++ ran.map DelayedTaskInfo.task_ := by
    rw [hlog, runs_append, runs_append, runs_pending_tasks, runs_ran ran ez]
  refine ⟨ranlist ++ ran, ?_, ?_, ?_, ?_, ?_, ?_⟩
  · rw [hr, hpr, i1, List.map_append]
    by_cases h : ranlist ≠ [] ∨ ran ≠ []
    · rw [htasks h]
      simp
    · simp only [not_or, not_not] at h
      rw [h.1, h.2]
      simp
  · rw [hpr, List.append_assoc, ← e1, i2]
  · refine List.Perm.trans ?_ i3
    rw [e2, List.flatMap_append]
    have p1 : List.Perm (ran ++ (q.worker mm_id user_id).timer_tasks_)
        (q.timer_tasks_ ++ msgs.flatMap Msg.entries) := e3.symm
    have p2 := (p1.append_right ((q.worker mm_id user_id).messages.flatMap Msg.entries))
    have p3 := p2.append_left ranlist
    simpa [List.append_assoc] using p3
  · have hrl : ranlist = [] ∨ ranlist = [b0] ∨ ranlist = [b0, a0] := by
      obtain ⟨t, ht⟩ := i4
      cases ranlist with
      | nil => exact Or.inl rfl
      | cons x xs =>
        simp only [List.cons_append, List.cons.injEq] at ht
        cases xs with
        | nil => exact Or.inr (Or.inl (by rw [ht.1]))
        | cons y ys =>
          simp only [List.cons_append, List.cons.injEq] at ht
          have := (List.append_eq_nil.mp ht.2.2).1
          exact Or.inr (Or.inr (by rw [ht.1, ht.2.1, this]))
    have hb_ran : b0 ∈ ran → b0 ∉ ranlist := fun h1 h2 => hdisj b0 h2 (hran_sub b0 h1).1
    have ha_ran : a0 ∈ ran → a0 ∉ ranlist := fun h1 h2 => hdisj a0 h2 (hran_sub a0 h1).1
    rcases hran_cases with h | h | h | h
    · rw [h, List.append_nil]; exact i4
    · rcases hrl with h0 | h0 | h0
      · exfalso
        have hane : ran ≠ [] := by rw [h]; exact List.cons_ne_nil _ _
        have ha_in : a0 ∈ ran := by rw [h]; exact List.mem_singleton_self _
        obtain ⟨_, hdue⟩ := hran_sub a0 ha_in
        have hent : q.messages.flatMap Msg.entries = [] := by
          rcases t2 with t2 | t2
          · omega
          · exact t2
        have hpc1 : b0 ∈ S := by
          rcases hpc with hp | ⟨_, hp⟩
          · have h1 := hC hane
            rw [hp, h1] at i2
            cases i2
          · exact hp
        have hb_heap : b0 ∈ q.timer_tasks_ := by
          have := i3.mem_iff.mpr hpc1
          rw [h0, hent] at this
          simpa using this
        have hb_due : b0 ∈ q.timer_tasks_.due q.clock := by
          simp only [DueTimeHeap.due, List.mem_filter, decide_eq_true_eq]
          exact ⟨hb_heap, by omega⟩
        rcases e5 with e5 | ⟨e5, _⟩
        · exact hane e5
        · have := e5.mem_iff.mpr hb_due
          rw [h] at this
          have hba : b0 = a0 := List.mem_singleton.mp this
          rw [hba] at hb2
          omega
      · rw [h0, h]; exact List.prefix_refl _
      · exfalso
        exact ha_ran (by rw [h]; exact List.mem_singleton_self _) (by rw [h0]; simp)
    · rcases hrl with h0 | h0 | h0
      · rw [h0, h]; exact ⟨[a0], rfl⟩
      · exfalso
        exact hb_ran (by rw [h]; exact List.mem_singleton_self _) (by rw [h0]; simp)
      · exfalso
        exact hb_ran (by rw [h]; exact List.mem_singleton_self _) (by rw [h0]; simp)
    · rcases hrl with h0 | h0 | h0
      · rw [h0, h]; exact List.prefix_refl _
      · exfalso
        exact hb_ran (by rw [h]; simp) (by rw [h0]; simp)
      · exfalso
        exact hb_ran (by rw [h]; simp) (by rw [h0]; simp)
  · intro hne
    rw [hpr]
    have h : ranlist ≠ [] ∨ ran ≠ [] := by
      by_contra hc
      simp only [not_or, not_not] at hc
      exact hne (by rw [hc.1, hc.2]; rfl)
    rw [htasks h, List.append_nil]
    rcases h with h | h
    · exact i5 h
    · exact hC h
  · intro m hm
    exact i6 m (by rw [e2]; exact List.mem_append_right _ hm)

theorem TaskQueueWin.continue_at_clock (r : Option TaskQueueWin) (q : TaskQueueWin) (p : Phase)
    (h : ∀ q1, r = some q1 → q1.clock = q.clock) :
    (TaskQueueWin.continue_at r q p).clock = q.clock := by
  cases r with
  | none => rfl
  | some q1 => exact h q1 rfl

/-- The worker does not move the clock. -/
theorem TaskQueueWin.worker_clock (q : TaskQueueWin) (mm_id user_id : Nat) :
    (q.worker mm_id user_id).clock = q.clock := by
  have hsched : ∀ (q0 q1 : TaskQueueWin), q0.ScheduleNextTimer mm_id user_id = some q1 →
      q1.clock = q0.clock := fun q0 q1 h => (TaskQueueWin.ScheduleNextTimer_some _ _ _ _ h).2.2.2.2
  have hdue : ∀ (q0 q1 : TaskQueueWin), q0.RunDueTasks = some q1 → q1.clock = q0.clock := by
    intro q0 q1 h
    obtain ⟨ran, h1, _, _⟩ := TaskQueueWin.RunDueTasks_some _ _ h
    rw [h1]
  unfold TaskQueueWin.worker
  split
  · rfl
  · unfold TaskQueueWin.peek_message
    split
    · rfl
    · rfl
    · rfl
    · exact TaskQueueWin.continue_at_clock _ _ _
        (fun q1 h => (TaskQueueWin.queue_delayed_task_some _ _ _ _ _ h).2.2.2.2)
    · apply TaskQueueWin.continue_at_clock
      intro q1 h
      unfold TaskQueueWin.wm_timer at h
      split at h
      · cases h
      · exact (hdue _ q1 h).trans rfl
    · rfl
    · split <;> rfl
  · exact TaskQueueWin.continue_at_clock _ _ _ (fun q1 h => hsched _ _ h)
  · split <;> rfl
  · split
    · exact TaskQueueWin.continue_at_clock _ _ _ (fun q1 h => (hdue _ q1 h).trans rfl)
    · rfl
  · exact TaskQueueWin.continue_at_clock _ _ _ (fun q1 h => hsched _ _ h)
  · split <;> rfl
  · unfold TaskQueueWin.RunPendingTasks_iteration
    cases q.pending_ <;> rfl
  · rfl
  · rfl

/-- The clock never goes back. -/
theorem TaskQueueWin.step_clock (q : TaskQueueWin) (a : Action) : q.clock ≤ (q.step a).clock := by
  by_cases hq : q.phase = Phase.failed
  · rw [TaskQueueWin.step_failed q a hq]
  · unfold TaskQueueWin.step
    rw [if_neg hq]
    cases a with
    | PostTask task => exact le_refl _
    | PostDelayedTask task ms posted =>
      dsimp only
      unfold TaskQueueWin.PostDelayedTask
      split
      · exact le_refl _
      · cases posted <;> exact le_refl _
    | post_run_task task => exact le_refl _
    | post_window_message m => exact le_refl _
    | Delete c =>
      cases c
      · exact le_refl _
      · exact le_refl _
    | tick dt =>
      simp only
      omega
    | mm_timer_expires =>
      dsimp only
      split
      · split <;> exact le_refl _
      · exact le_refl _
    | user_timer_expires =>
      dsimp only
      split
      · split <;> exact le_refl _
      · exact le_refl _
    | wake r =>
      dsimp only
      unfold TaskQueueWin.wake
      split <;> exact le_refl _
    | worker mm_id user_id =>
      dsimp only
      rw [TaskQueueWin.worker_clock]
    | worker_raced mm_id user_id =>
      dsimp only
      rw [(TaskQueueWin.worker_raced_fields q mm_id user_id).2.2.2.2.1, TaskQueueWin.worker_clock]

theorem TaskQueueWin.exec_clock : ∀ (acts : List Action) (q : TaskQueueWin),
    q.clock ≤ (q.exec acts).clock
  | [], _ => le_refl _
  | a :: acts, q => by
    rw [TaskQueueWin.exec_cons]
    exact le_trans (TaskQueueWin.step_clock q a) (TaskQueueWin.exec_clock acts (q.step a))

/-- A step of the worker or of the operating system keeps the bookkeeping of
the three posts, given that the worker has kept up so far. -/
theorem TaskQueueWin.step_ordered (c : Int) (C : QueuedTask) (a0 b0 : DelayedTaskInfo)
    (S : List DelayedTaskInfo) (pc : List QueuedTask) (q : TaskQueueWin) (a : Action)
    (ranlist : List DelayedTaskInfo)
    (ha : a0.due_time = c + 100) (hb1 : c + 10 ≤ b0.due_time) (hb2 : b0.due_time < a0.due_time)
    (hS : ∀ e ∈ S, e = a0 ∨ e = b0) (hnd : S.Nodup) (hpc : pc = [] ∨ (pc = [C] ∧ b0 ∈ S))
    (hi : a.internal = true)
    (ht : q.timely c C = true) (inv : q.ordered C a0 b0 S pc ranlist) :
    ∃ ranlist1, (q.step a).ordered C a0 b0 S pc ranlist1 := by
  by_cases hq : q.phase = Phase.failed
  · rw [TaskQueueWin.step_failed q a hq]
    exact ⟨ranlist, inv⟩
  · unfold TaskQueueWin.step
    rw [if_neg hq]
    cases a with
    | PostTask task => cases hi
    | PostDelayedTask task ms posted => cases hi
    | post_run_task task => cases hi
    | post_window_message m => cases hi
    | Delete c => cases hi
    | tick dt => exact ⟨ranlist, inv⟩
    | mm_timer_expires =>
      dsimp only
      split
      · split
        · exact ⟨ranlist, inv⟩
        · exact ⟨ranlist, inv⟩
      · exact ⟨ranlist, inv⟩
    | user_timer_expires =>
      dsimp only
      split
      · split
        · obtain ⟨i1, i2, i3, i4, i5, i6⟩ := inv
          refine ⟨ranlist, i1, i2, ?_, i4, i5, ?_⟩
          · simpa [List.flatMap_append, Msg.entries] using i3
          · intro m hm
            simp only [List.mem_append, List.mem_singleton] at hm
            rcases hm with hm | hm
            · exact i6 m hm
            · rw [hm]; rfl
        · exact ⟨ranlist, inv⟩
      · exact ⟨ranlist, inv⟩
    | wake r =>
      dsimp only
      unfold TaskQueueWin.wake
      split
      · exact ⟨ranlist, inv⟩
      · exact ⟨ranlist, inv⟩
    | worker mm_id user_id =>
      exact TaskQueueWin.worker_ordered c C a0 b0 S pc q mm_id user_id ranlist ha hb1 hb2 hS hnd
        hpc ht inv
    | worker_raced mm_id user_id =>
      obtain ⟨T, hT⟩ := TaskQueueWin.worker_raced_eq q mm_id user_id
      dsimp only
      rw [hT]
      exact TaskQueueWin.worker_ordered c C a0 b0 S pc q mm_id user_id ranlist ha hb1 hb2 hS hnd
        hpc ht inv

theorem TaskQueueWin.always_head (p : TaskQueueWin → Bool) (q : TaskQueueWin)
    (acts : List Action) (h : q.always p acts = true) : p q = true := by
  cases acts with
  | nil => exact h
  | cons a acts =>
    simp only [TaskQueueWin.always, Bool.and_eq_true] at h
    exact h.1

theorem TaskQueueWin.always_append (p : TaskQueueWin → Bool) :
    ∀ (a b : List Action) (q : TaskQueueWin), q.always p (a ++ b) = true →
      q.always p a = true ∧ (q.exec a).always p b = true
  | [], b, q, h => ⟨TaskQueueWin.always_head p q b h, h⟩
  | x :: a, b, q, h => by
    simp only [List.cons_append, TaskQueueWin.always, Bool.and_eq_true] at h ⊢
    obtain ⟨h1, h2⟩ := TaskQueueWin.always_append p a b (q.step x) h.2
    exact ⟨⟨h.1, h1⟩, h2⟩

/-- Steps of the worker and of the operating system keep the bookkeeping of
the three posts, as long as the worker keeps up. -/
theorem TaskQueueWin.exec_ordered (c : Int) (C : QueuedTask) (a0 b0 : DelayedTaskInfo)
    (S : List DelayedTaskInfo) (pc : List QueuedTask)
    (ha : a0.due_time = c + 100) (hb1 : c + 10 ≤ b0.due_time) (hb2 : b0.due_time < a0.due_time)
    (hS : ∀ e ∈ S, e = a0 ∨ e = b0) (hnd : S.Nodup) (hpc : pc = [] ∨ (pc = [C] ∧ b0 ∈ S)) :
    ∀ (acts : List Action) (q : TaskQueueWin) (ranlist : List DelayedTaskInfo),
      acts.all Action.internal = true → q.always (TaskQueueWin.timely c C) acts = true →
      q.ordered C a0 b0 S pc ranlist →
      ∃ ranlist1, (q.exec acts).ordered C a0 b0 S pc ranlist1
  | [], q, ranlist, _, _, inv => ⟨ranlist, inv⟩
  | a :: acts, q, ranlist, hi, ht, inv => by
    simp only [List.all_cons, Bool.and_eq_true] at hi
    simp only [TaskQueueWin.always, Bool.and_eq_true] at ht
    obtain ⟨r1, inv1⟩ := TaskQueueWin.step_ordered c C a0 b0 S pc q a ranlist ha hb1 hb2 hS hnd
      hpc hi.1 ht.1 inv
    exact TaskQueueWin.exec_ordered c C a0 b0 S pc ha hb1 hb2 hS hnd hpc acts (q.step a) r1 hi.2
      ht.2 inv1

/-- Before the immediate task is posted, no task has run. -/
theorem TaskQueueWin.ordered_nil (q : TaskQueueWin) (C : QueuedTask) (a0 b0 : DelayedTaskInfo)
    (S ranlist : List DelayedTaskInfo) (inv : q.ordered C a0 b0 S [] ranlist) :
    ranlist = [] ∧ runs q.log = [] ∧ runs_on Path.pending q.log = [] ∧ q.pending_ = [] := by
  obtain ⟨i1, i2, _, _, i5, _⟩ := inv
  obtain ⟨p1, p2⟩ := List.append_eq_nil.mp i2
  have hr : ranlist = [] := by
    by_contra hc
    have := i5 hc
    rw [p1] at this
    cases this
  refine ⟨hr, ?_, p1, p2⟩
  rw [i1, p1, hr]
  rfl

theorem TaskQueueWin.exec_not_failed (q : TaskQueueWin) (acts : List Action)
    (h : (q.exec acts).phase ≠ Phase.failed) : q.phase ≠ Phase.failed := by
  intro hc
  rw [TaskQueueWin.exec_failed q acts hc] at h
  exact h hc

theorem DueTimeHeap.foldl_emplace (entries : List DelayedTaskInfo) :
    ∀ h : DueTimeHeap, entries.foldl DueTimeHeap.emplace h = h ++ entries := by
  induction entries with
  | nil => intro h; simp
  | cons e es ih =>
    intro h
    rw [List.foldl_cons, ih]
    simp [DueTimeHeap.emplace]

theorem TaskQueueWin.foldl_PostTask_eq (tasks : List QueuedTask) :
    ∀ q : TaskQueueWin, tasks.foldl TaskQueueWin.PostTask q =
      { q with pending_ := q.pending_ ++ tasks, in_queue_ := q.in_queue_ || !tasks.isEmpty } := by
  induction tasks with
  | nil =>
    intro q
    obtain ⟨a, b, c, d, e, f, g, h, p, l⟩ := q
    simp
  | cons t ts ih =>
    intro q
    rw [List.foldl_cons, ih]
    simp [TaskQueueWin.PostTask]

/-- With enough fuel the loop of `RunPendingTasks` with posting tasks returns
with `pending_` empty, having run the tasks queued at entry and then the
tasks posted meanwhile, in the order of posting. -/
theorem TaskQueueWin.RunPendingTasks_reentrant_spec :
    ∀ (fuel : Nat) (posted : List (List QueuedTask)) (q : TaskQueueWin),
      q.pending_.length + posted.flatten.length < fuel →
      ∃ (ran : List QueuedTask) (q1 : TaskQueueWin),
        TaskQueueWin.RunPendingTasks_reentrant fuel posted q = some q1 ∧
        q1.pending_ = [] ∧
        ran = q.pending_ ++ (posted.take ran.length).flatten ∧
        q1.log = q.log ++ ran.flatMap run_pending_task ∧
        q1.timer_tasks_ = q.timer_tasks_ ∧ q1.messages = q.messages
  | 0, _, _, h => absurd h (Nat.not_lt_zero _)
  | fuel + 1, posted, q, h => by
    unfold TaskQueueWin.RunPendingTasks_reentrant
    cases hp : q.pending_ with
    | nil =>
      simp only [TaskQueueWin.RunPendingTasks_iteration, hp]
      exact ⟨[], q, rfl, hp, by simp, by simp, rfl, rfl⟩
    | cons t rest =>
      simp only [TaskQueueWin.RunPendingTasks_iteration, hp]
      rw [TaskQueueWin.foldl_PostTask_eq]
      have hlen : posted.flatten.length =
          (posted.headD []).length + posted.tail.flatten.length := by
        cases posted with
        | nil => rfl
        | cons x xs => simp
      obtain ⟨ran, q1, h1, h2, h3, h4, h5, h6⟩ :=
        TaskQueueWin.RunPendingTasks_reentrant_spec fuel posted.tail
          { q with pending_ := rest ++ posted.headD [], log := q.log ++ run_pending_task t,
                   in_queue_ := q.in_queue_ || !(posted.headD []).isEmpty }
          (by
            rw [hp] at h
            simp only [List.length_cons, List.length_append] at h ⊢
            omega)
      refine ⟨t :: ran, q1, h1, h2, ?_, ?_, h5, h6⟩
      · simp only at h3
        cases posted with
        | nil =>
          simp only [List.headD_nil, List.append_nil, List.tail_nil, List.take_nil,
            List.flatten_nil] at h3 ⊢
          rw [← h3]
        | cons x xs =>
          simp only [List.headD_cons, List.tail_cons] at h3
          simp only [List.length_cons, List.take_succ_cons, List.flatten_cons, List.cons_append,
            List.cons.injEq, true_and]
          rw [← List.append_assoc]
          exact h3
      · rw [h4]
        simp [List.flatMap_cons, List.append_assoc]

theorem next_delay_ms_fits (e : DelayedTaskInfo) (now : Int) (h : e.posted_by now)
    (hnow : now < 2 ^ 63) :
    0 ≤ next_delay_ms e now ∧ next_delay_ms e now < 2 ^ 32 := by
  obtain ⟨tick, d, h1, h2, h3, h4⟩ := h
  have hd : e.due_time = wrap_int64 (tick + d) := by
    rw [h4]; rfl
  unfold next_delay_ms int64_sub
  rw [hd]
  unfold wrap_int64
  have e63 : (2 : Int) ^ 63 = 9223372036854775808 := by norm_num
  have e64 : (2 : Int) ^ 64 = 18446744073709551616 := by norm_num
  have e32 : (2 : Int) ^ 32 = 4294967296 := by norm_num
  have e32n : (2 : Nat) ^ 32 = 4294967296 := by norm_num
  rw [e63, e64, e32]
  rw [e63] at hnow
  rw [e32n] at h3
  constructor
  · exact le_max_left _ _
  · apply max_lt
    · norm_num
    · omega

theorem dchecked_cast_uint32_fits (v : Int) (h1 : 0 ≤ v) (h2 : v < 2 ^ 32) :
    dchecked_cast_uint32 v = some v.toNat := by
  unfold dchecked_cast_uint32
  rw [if_pos ⟨h1, h2⟩]

theorem DelayedTaskInfo.posted_by_mono (e : DelayedTaskInfo) (a b : Int) (hab : a ≤ b)
    (h : e.posted_by a) : e.posted_by b := by
  obtain ⟨tick, d, h1, h2, h3, h4⟩ := h
  exact ⟨tick, d, h1, le_trans h2 hab, h3, h4⟩

theorem TaskQueueWin.worker_delayed_entries (q : TaskQueueWin) (mm_id user_id : Nat) :
    ∀ e ∈ (q.worker mm_id user_id).delayed_entries, e ∈ q.delayed_entries := by
  obtain ⟨tasks, msgs, ran, _, e2, e3, _, _, _⟩ := TaskQueueWin.worker_effect q mm_id user_id
  intro e he
  simp only [TaskQueueWin.delayed_entries, List.mem_append] at he ⊢
  rw [e2, List.flatMap_append, List.mem_append]
  rcases he with he | he
  · have h1 : e ∈ ran ++ (q.worker mm_id user_id).timer_tasks_ :=
      List.mem_append.mpr (Or.inr he)
    have h2 := e3.symm.subset h1
    rcases List.mem_append.mp h2 with h3 | h3
    · exact Or.inl h3
    · exact Or.inr (Or.inl h3)
  · exact Or.inr (Or.inr he)

/-- A step adds to the delayed entries the engine holds only an entry the
constructor makes at the current tick. -/
theorem TaskQueueWin.step_posted_by (q : TaskQueueWin) (a : Action) (hc : 0 ≤ q.clock)
    (h : ∀ e ∈ q.delayed_entries, e.posted_by q.clock) :
    ∀ e ∈ (q.step a).delayed_entries, e.posted_by (q.step a).clock := by
  have hclock := TaskQueueWin.step_clock q a
  suffices hs : ∀ e ∈ (q.step a).delayed_entries,
      e ∈ q.delayed_entries ∨ e.posted_by q.clock by
    intro e he
    rcases hs e he with h1 | h1
    · exact DelayedTaskInfo.posted_by_mono _ _ _ hclock (h e h1)
    · exact DelayedTaskInfo.posted_by_mono _ _ _ hclock h1
  have added : ∀ (m : Msg), m.entries = [] → ∀ e ∈
      (({ q with messages := q.messages ++ [m] } : TaskQueueWin)).delayed_entries,
      e ∈ q.delayed_entries ∨ e.posted_by q.clock := by
    intro m hm e he
    simp only [TaskQueueWin.delayed_entries, List.flatMap_append, List.flatMap_cons,
      List.flatMap_nil, hm, List.append_nil] at he
    exact Or.inl he
  by_cases hq : q.phase = Phase.failed
  · rw [TaskQueueWin.step_failed q a hq]
    intro e he
    exact Or.inl he
  · unfold TaskQueueWin.step
    rw [if_neg hq]
    cases a with
    | PostTask task => intro e he; exact Or.inl he
    | PostDelayedTask task ms posted =>
      dsimp only
      unfold TaskQueueWin.PostDelayedTask
      split
      · intro e he; exact Or.inl he
      · cases posted
        · intro e he; exact Or.inl he
        · intro e he
          simp only [TaskQueueWin.delayed_entries, List.flatMap_append, List.flatMap_cons,
            List.flatMap_nil, Msg.entries, List.append_nil, List.mem_append,
            List.mem_singleton, if_true] at he
          rcases he with he | he | he
          · exact Or.inl (List.mem_append.mpr (Or.inl he))
          · exact Or.inl (List.mem_append.mpr (Or.inr he))
          · refine Or.inr ⟨q.clock, ms % 2 ^ 32, hc, le_refl _, Nat.mod_lt _ (by norm_num), ?_⟩
            rw [he]
            rfl
    | post_run_task task => exact added _ rfl
    | post_window_message m => exact added _ rfl
    | Delete c =>
      cases c
      · exact added _ rfl
      · intro e he; exact Or.inl he
    | tick dt => intro e he; exact Or.inl he
    | mm_timer_expires =>
      dsimp only
      split
      · split
        · intro e he; exact Or.inl he
        · intro e he; exact Or.inl he
      · intro e he; exact Or.inl he
    | user_timer_expires =>
      dsimp only
      split
      · split
        · exact added _ rfl
        · intro e he; exact Or.inl he
      · intro e he; exact Or.inl he
    | wake r =>
      dsimp only
      unfold TaskQueueWin.wake
      split
      · intro e he; exact Or.inl he
      · intro e he; exact Or.inl he
    | worker mm_id user_id =>
      intro e he
      exact Or.inl (TaskQueueWin.worker_delayed_entries q mm_id user_id e he)
    | worker_raced mm_id user_id =>
      intro e he
      obtain ⟨T, hT⟩ := TaskQueueWin.worker_raced_eq q mm_id user_id
      dsimp only at he
      rw [hT] at he
      exact Or.inl (TaskQueueWin.worker_delayed_entries q mm_id user_id e he)

theorem TaskQueueWin.exec_posted_by : ∀ (acts : List Action) (q : TaskQueueWin),
    0 ≤ q.clock → (∀ e ∈ q.delayed_entries, e.posted_by q.clock) →
      ∀ e ∈ (q.exec acts).delayed_entries, e.posted_by (q.exec acts).clock
  | [], _, _, h => h
  | a :: acts, q, hc, h => by
    rw [TaskQueueWin.exec_cons]
    exact TaskQueueWin.exec_posted_by acts (q.step a)
      (le_trans hc (TaskQueueWin.step_clock q a)) (TaskQueueWin.step_posted_by q a hc h)

/-- The method `ScheduleNextTimer` returns when no timer id is held, the
entries of the heap were made by the constructor not after the current tick,
and the tick is an `int64_t` value: the checked cast of the delay succeeds. -/
theorem TaskQueueWin.ScheduleNextTimer_returns (s : TaskQueueWin) (mm_id user_id : Nat)
    (h : ∀ e ∈ s.timer_tasks_, e.posted_by s.clock) (hnow : s.clock < 2 ^ 63)
    (h1 : s.timer_id_ = 0) (h2 : s.timer_.timer_id_ = 0) :
    ∃ s1, s.ScheduleNextTimer mm_id user_id = some s1 := by
  unfold TaskQueueWin.ScheduleNextTimer
  rw [if_neg (by simp [h1])]
  cases htop : s.timer_tasks_.top with
  | none => exact ⟨_, rfl⟩
  | some next_task =>
    obtain ⟨f1, f2⟩ := next_delay_ms_fits next_task s.clock
      (h _ (DueTimeHeap.top_mem _ _ htop)) hnow
    simp only [TaskQueueWin.GetTick, dchecked_cast_uint32_fits _ f1 f2,
      MultimediaTimer.StartOneShotTimer, h2, ne_eq, not_true_eq_false, if_false]
    cases hb : decide (¬ mm_id = 0)
    · exact ⟨_, rfl⟩
    · exact ⟨_, rfl⟩

/-- The case `WM_QUEUE_DELAYED_TASK` returns when the entries of the heap and
the new entry were made by the constructor not after the current tick and
the tick is an `int64_t` value: `CancelTimers` leaves no timer id, and the
checked cast of the delay succeeds. -/
theorem TaskQueueWin.queue_delayed_task_returns (s : TaskQueueWin) (info : DelayedTaskInfo)
    (mm_id user_id : Nat) (h : ∀ e ∈ s.timer_tasks_, e.posted_by s.clock)
    (hi : info.posted_by s.clock) (hnow : s.clock < 2 ^ 63) :
    ∃ s1, s.queue_delayed_task info mm_id user_id = some s1 := by
  unfold TaskQueueWin.queue_delayed_task
  simp only
  split
  · obtain ⟨i1, i2, _⟩ := TaskQueueWin.CancelTimers_ids
      { s with timer_tasks_ := s.timer_tasks_.emplace info }
    apply TaskQueueWin.ScheduleNextTimer_returns _ _ _ _ _ i1 i2
    · rw [TaskQueueWin.CancelTimers_timer_tasks, TaskQueueWin.CancelTimers_clock]
      intro e he
      simp only [DueTimeHeap.emplace, List.mem_append, List.mem_singleton] at he
      rcases he with he | he
      · exact h e he
      · rw [he]; exact hi
    · rw [TaskQueueWin.CancelTimers_clock]
      exact hnow
  · exact ⟨_, rfl⟩

theorem TaskQueueWin.timers_in_order_iff (q : TaskQueueWin) :
    q.timers_in_order = true ↔
      (∀ t, q.timer_.os_timer = some t → t.id = q.timer_.timer_id_ ∧ t.id ≠ 0) ∧
      (∀ t, q.user_timer = some t → t.id = q.timer_id_ ∧ t.id ≠ 0) ∧
      (q.timer_.timer_id_ = 0 → q.timer_.event_ = false) ∧
      (q.timer_id_ ≠ 0 → q.timer_.timer_id_ = 0) ∧
      ((q.timer_id_ ≠ 0 ∨ q.timer_.timer_id_ ≠ 0) → q.timer_tasks_ ≠ []) ∧
      (∀ m ∈ q.messages, m ≠ Msg.timer 0) := by
  simp only [TaskQueueWin.timers_in_order, TaskQueueWin.timers_consistent, Bool.and_eq_true,
    decide_eq_true_eq, List.all_eq_true]
  constructor
  · rintro ⟨⟨⟨⟨⟨h1, h2⟩, h3⟩, h4⟩, h5⟩, h6⟩
    refine ⟨?_, ?_, h3, h4, h5, h6⟩
    · intro t ht
      rw [ht] at h1
      simpa using h1
    · intro t ht
      rw [ht] at h2
      simpa using h2
  · rintro ⟨h1, h2, h3, h4, h5, h6⟩
    refine ⟨⟨⟨⟨⟨?_, ?_⟩, h3⟩, h4⟩, h5⟩, h6⟩
    · cases ht : q.timer_.os_timer with
      | none => rfl
      | some t => simpa using h1 t ht
    · cases ht : q.user_timer with
      | none => rfl
      | some t => simpa using h2 t ht

/-- With the timer fields in order and no identifier set, no timer is
outstanding and the event is not signalled. -/
theorem TaskQueueWin.timers_in_order_idle (q : TaskQueueWin) (h : q.timers_in_order = true)
    (h1 : q.timer_id_ = 0) (h2 : q.timer_.timer_id_ = 0) :
    q.timer_.os_timer = none ∧ q.user_timer = none ∧ q.timer_.event_ = false := by
  obtain ⟨i1, i2, i3, _, _, _⟩ := (TaskQueueWin.timers_in_order_iff q).mp h
  refine ⟨?_, ?_, i3 h2⟩
  · cases ht : q.timer_.os_timer with
    | none => rfl
    | some t =>
      obtain ⟨a, b⟩ := i1 t ht
      exact absurd (a.trans h2) b
  · cases ht : q.user_timer with
    | none => rfl
    | some t =>
      obtain ⟨a, b⟩ := i2 t ht
      exact absurd (a.trans h1) b

/-- The method `ScheduleNextTimer`, entered with the timer fields in order and
no identifier set, leaves the timer fields in order. -/
theorem TaskQueueWin.ScheduleNextTimer_in_order (s s1 : TaskQueueWin) (mm_id user_id : Nat)
    (h : s.timers_in_order = true) (h1 : s.timer_id_ = 0) (h2 : s.timer_.timer_id_ = 0)
    (hs : s.ScheduleNextTimer mm_id user_id = some s1) : s1.timers_in_order = true := by
  obtain ⟨j1, j2, j3⟩ := TaskQueueWin.timers_in_order_idle s h h1 h2
  obtain ⟨_, _, _, _, _, i6⟩ := (TaskQueueWin.timers_in_order_iff s).mp h
  cases htop : s.timer_tasks_.top with
  | none =>
    have : s1 = s := by
      simp only [TaskQueueWin.ScheduleNextTimer, h1, ne_eq, not_true_eq_false, if_false,
        htop] at hs
      cases hs; rfl
    rw [this]; exact h
  | some m =>
    have hne : s.timer_tasks_ ≠ [] := by
      intro he
      rw [he] at htop
      cases htop
    rw [TaskQueueWin.ScheduleNextTimer_top s mm_id user_id m htop h1 h2] at hs
    split at hs
    · cases hs
      rw [TaskQueueWin.timers_in_order_iff]
      by_cases hmm : mm_id = 0
      · subst hmm
        by_cases hu : user_id = 0
        · subst hu
          simp [j1, j2, j3, h1, h2]
          exact i6
        · simp [j1, j2, j3, h1, h2, hu, hne]
          exact i6
      · simp [j1, j2, j3, h1, h2, hmm, hne]
        exact i6
    · cases hs

/-- The method `CancelTimers` leaves the timer fields in order, once an entry
was put into the heap. -/
theorem TaskQueueWin.CancelTimers_in_order (s : TaskQueueWin) (h : s.timers_in_order = true) :
    s.CancelTimers.timers_in_order = true := by
  obtain ⟨i1, i2, i3, i4, i5, i6⟩ := (TaskQueueWin.timers_in_order_iff s).mp h
  have hc : s.timers_consistent = true := by
    simp only [TaskQueueWin.timers_in_order, Bool.and_eq_true] at h
    exact h.1.1.1.1
  rw [TaskQueueWin.CancelTimers_consistent s hc, TaskQueueWin.timers_in_order_iff]
  simp
  exact i6

/-- The case `WM_QUEUE_DELAYED_TASK` leaves the timer fields in order. -/
theorem TaskQueueWin.queue_delayed_task_in_order (s s1 : TaskQueueWin) (info : DelayedTaskInfo)
    (mm_id user_id : Nat) (h : s.timers_in_order = true)
    (hs : s.queue_delayed_task info mm_id user_id = some s1) : s1.timers_in_order = true := by
  have hemplace : TaskQueueWin.timers_in_order
      { s with timer_tasks_ := s.timer_tasks_.emplace info } = true := by
    obtain ⟨i1, i2, i3, i4, i5, i6⟩ := (TaskQueueWin.timers_in_order_iff s).mp h
    rw [TaskQueueWin.timers_in_order_iff]
    refine ⟨i1, i2, i3, i4, ?_, i6⟩
    intro _
    simp [DueTimeHeap.emplace]
  unfold TaskQueueWin.queue_delayed_task at hs
  simp only at hs
  split at hs
  · obtain ⟨c1, c2, _⟩ := TaskQueueWin.CancelTimers_ids
      { s with timer_tasks_ := s.timer_tasks_.emplace info }
    exact TaskQueueWin.ScheduleNextTimer_in_order _ _ _ _
      (TaskQueueWin.CancelTimers_in_order _ hemplace) c1 c2 hs
  · cases hs
    exact hemplace

/-- The method `RunDueTasks`, entered with no identifier set, leaves the timer
fields in order. -/
theorem TaskQueueWin.RunDueTasks_in_order (s s1 : TaskQueueWin) (h : s.timers_in_order = true)
    (h1 : s.timer_id_ = 0) (h2 : s.timer_.timer_id_ = 0) (hs : s.RunDueTasks = some s1) :
    s1.timers_in_order = true ∧ s1.timer_id_ = 0 ∧ s1.timer_.timer_id_ = 0 := by
  obtain ⟨i1, i2, i3, i4, i5, i6⟩ := (TaskQueueWin.timers_in_order_iff s).mp h
  obtain ⟨ran, e, _, _⟩ := TaskQueueWin.RunDueTasks_some s s1 hs
  rw [e, TaskQueueWin.timers_in_order_iff]
  refine ⟨⟨i1, i2, i3, i4, ?_, i6⟩, h1, h2⟩
  intro hor
  rcases hor with hor | hor
  · exact absurd h1 hor
  · exact absurd h2 hor

/-- The method `RunDueTasks` returns on a heap that holds an entry and in which
no due entry has the due time 0. -/
theorem TaskQueueWin.RunDueTasks_returns (s : TaskQueueWin) (hne : s.timer_tasks_ ≠ [])
    (hnz : ∀ e ∈ s.timer_tasks_, e.due_time ≤ s.clock → e.due_time_ ≠ 0) :
    ∃ s1, s.RunDueTasks = some s1 := by
  obtain ⟨ran, h1, _, _⟩ := DueTimeHeap.RunDueTasks_spec s.timer_tasks_ s.clock hne hnz
  simp only [TaskQueueWin.RunDueTasks, TaskQueueWin.GetTick, h1]
  exact ⟨_, rfl⟩

theorem TaskQueueWin.timer_bookkeeping_iff (q : TaskQueueWin) :
    q.timer_bookkeeping = true ↔
      q.timers_in_order = true ∧
      (q.phase = Phase.timer_check WaitResult.object_0 → q.timer_.event_ = true) ∧
      (q.phase.at_schedule = true → q.timer_id_ = 0 ∧ q.timer_.timer_id_ = 0) := by
  simp only [TaskQueueWin.timer_bookkeeping, Bool.and_eq_true, decide_eq_true_eq, and_assoc]

/-- Taking the first message from the queue keeps the timer fields in order. -/
theorem TaskQueueWin.timers_in_order_rest (q : TaskQueueWin) (m : Msg) (rest : List Msg)
    (hm : q.messages = m :: rest) (h : q.timers_in_order = true) :
    TaskQueueWin.timers_in_order { q with messages := rest } = true := by
  obtain ⟨i1, i2, i3, i4, i5, i6⟩ := (TaskQueueWin.timers_in_order_iff q).mp h
  rw [TaskQueueWin.timers_in_order_iff]
  refine ⟨i1, i2, i3, i4, i5, ?_⟩
  intro x hx
  exact i6 x (by rw [hm]; exact List.mem_cons_of_mem _ hx)

/-- A message at the back of the queue that is not `WM_TIMER` keeps the timer
fields in order. -/
theorem TaskQueueWin.timers_in_order_post (q : TaskQueueWin) (m : Msg) (hm : m ≠ Msg.timer 0)
    (h : q.timers_in_order = true) :
    TaskQueueWin.timers_in_order { q with messages := q.messages ++ [m] } = true := by
  obtain ⟨i1, i2, i3, i4, i5, i6⟩ := (TaskQueueWin.timers_in_order_iff q).mp h
  rw [TaskQueueWin.timers_in_order_iff]
  refine ⟨i1, i2, i3, i4, i5, ?_⟩
  intro x hx
  rcases List.mem_append.mp hx with hx | hx
  · exact i6 x hx
  · rw [List.mem_singleton.mp hx]; exact hm

/-- The case `WM_TIMER` of a timer the queue holds enters `RunDueTasks` with an
entry in the heap, and when it returns it leaves the timer fields in order and
no identifier set. -/
theorem TaskQueueWin.wm_timer_in_order (s : TaskQueueWin) (wParam : Nat)
    (h : s.timers_in_order = true) (hw : wParam ≠ 0) (hid : s.timer_id_ = wParam) :
    s.timer_tasks_ ≠ [] ∧
    ∀ s1, s.wm_timer wParam = some s1 → s1.timers_in_order = true ∧ s1.timer_id_ = 0 ∧
      s1.timer_.timer_id_ = 0 := by
  obtain ⟨i1, i2, i3, i4, i5, i6⟩ := (TaskQueueWin.timers_in_order_iff s).mp h
  have hne : s.timer_tasks_ ≠ [] := i5 (Or.inl (by rw [hid]; exact hw))
  have hmm : s.timer_.timer_id_ = 0 := i4 (by rw [hid]; exact hw)
  have hk : OsTimer.kill s.user_timer wParam = none := by
    cases hu : s.user_timer with
    | none => rfl
    | some t =>
      have := (i2 t hu).1
      simp [OsTimer.kill, this, hid]
  have hin : TaskQueueWin.timers_in_order
      { s with user_timer := OsTimer.kill s.user_timer wParam, timer_id_ := 0 } = true := by
    rw [TaskQueueWin.timers_in_order_iff]
    refine ⟨i1, ?_, i3, ?_, ?_, i6⟩
    · intro t ht
      rw [hk] at ht
      cases ht
    · intro hc
      exact absurd rfl hc
    · intro hc
      rcases hc with hc | hc
      · exact absurd rfl hc
      · exact absurd hmm hc
  refine ⟨hne, ?_⟩
  intro s1 hs1
  unfold TaskQueueWin.wm_timer at hs1
  rw [if_neg (by simp [hid])] at hs1
  exact TaskQueueWin.RunDueTasks_in_order _ s1 hin rfl hmm hs1

/-- The method `MultimediaTimer::Cancel`, called with the event signalled,
leaves the timer fields in order and no identifier set. -/
theorem TaskQueueWin.Cancel_in_order (s : TaskQueueWin) (h : s.timers_in_order = true)
    (he : s.timer_.event_ = true) :
    TaskQueueWin.timers_in_order { s with timer_ := s.timer_.Cancel } = true ∧
      s.timer_id_ = 0 ∧ s.timer_.Cancel.timer_id_ = 0 ∧ s.timer_tasks_ ≠ [] := by
  obtain ⟨i1, i2, i3, i4, i5, i6⟩ := (TaskQueueWin.timers_in_order_iff s).mp h
  have hmm : s.timer_.timer_id_ ≠ 0 := by
    intro hc
    rw [i3 hc] at he
    cases he
  have hid : s.timer_id_ = 0 := by
    by_contra hc
    exact hmm (i4 hc)
  have hk : OsTimer.kill s.timer_.os_timer s.timer_.timer_id_ = none := by
    cases hu : s.timer_.os_timer with
    | none => rfl
    | some t =>
      have := (i1 t hu).1
      simp [OsTimer.kill, this]
  refine ⟨?_, hid, MultimediaTimer.Cancel_id _, i5 (Or.inr hmm)⟩
  rw [TaskQueueWin.timers_in_order_iff]
  simp only [MultimediaTimer.Cancel, hmm, ne_eq, not_false_eq_true, if_true, hk]
  refine ⟨?_, i2, ?_, ?_, ?_, i6⟩
  · intro t ht; cases ht
  · intro _; trivial
  · intro _; trivial
  · intro hc
    rcases hc with hc | hc
    · exact absurd hid hc
    · exact absurd trivial hc

/-- A step of the worker keeps the bookkeeping of the timers. -/
theorem TaskQueueWin.worker_timer_bookkeeping (q : TaskQueueWin) (mm_id user_id : Nat)
    (h : q.timer_bookkeeping = true) : (q.worker mm_id user_id).timer_bookkeeping = true := by
  obtain ⟨h1, h2, h3⟩ := (TaskQueueWin.timer_bookkeeping_iff q).mp h
  have keep : ∀ s : TaskQueueWin, s.timers_in_order = true →
      (s.phase = Phase.timer_check WaitResult.object_0 → s.timer_.event_ = true) →
      (s.phase.at_schedule = true → s.timer_id_ = 0 ∧ s.timer_.timer_id_ = 0) →
      s.timer_bookkeeping = true := fun s a b c =>
    (TaskQueueWin.timer_bookkeeping_iff s).mpr ⟨a, b, c⟩
  have failed : q.fail.timer_bookkeeping = true :=
    keep _ h1 (fun hc => by cases hc) (fun hc => by cases hc)
  unfold TaskQueueWin.worker
  split
  · exact h
  · next start hp =>
    unfold TaskQueueWin.peek_message
    split
    · exact keep _ h1 (fun hc => by cases hc) (fun hc => by cases hc)
    · next rest hm =>
      exact keep _ (TaskQueueWin.timers_in_order_rest q _ rest hm h1) (fun hc => by cases hc)
        (fun hc => by cases hc)
    · next task rest hm =>
      exact keep _ (TaskQueueWin.timers_in_order_rest q _ rest hm h1) (fun hc => by cases hc)
        (fun hc => by cases hc)
    · next info rest hm =>
      cases hr : TaskQueueWin.queue_delayed_task { q with messages := rest } info mm_id
        user_id with
      | none => exact failed
      | some s1 =>
        exact keep _ (TaskQueueWin.queue_delayed_task_in_order _ s1 info mm_id user_id
          (TaskQueueWin.timers_in_order_rest q _ rest hm h1) hr) (fun hc => by cases hc)
          (fun hc => by cases hc)
    · next wParam rest hm =>
      by_cases hid : q.timer_id_ = wParam
      · have hw : wParam ≠ 0 := by
          intro hc
          obtain ⟨_, _, _, _, _, i6⟩ := (TaskQueueWin.timers_in_order_iff q).mp h1
          exact i6 (Msg.timer wParam) (by rw [hm]; exact List.mem_cons_self _ _) (by rw [hc])
        have hwm := (TaskQueueWin.wm_timer_in_order
          { q with messages := rest } wParam
          (TaskQueueWin.timers_in_order_rest q _ rest hm h1) hw hid).2
        cases e1 : TaskQueueWin.wm_timer { q with messages := rest } wParam with
        | none => exact failed
        | some s1 =>
          obtain ⟨e2, e3, e4⟩ := hwm s1 e1
          exact keep _ e2 (fun hc => by cases hc) (fun _ => ⟨e3, e4⟩)
      · have : TaskQueueWin.wm_timer { q with messages := rest } wParam = none := by
          unfold TaskQueueWin.wm_timer
          rw [if_pos hid]
        rw [this]
        exact failed
    · exact failed
    · next m rest hm =>
      split
      · exact keep _ (TaskQueueWin.timers_in_order_rest q _ rest hm h1)
          (fun hc => by cases hc) (fun hc => by cases hc)
      · exact keep _ (TaskQueueWin.timers_in_order_rest q _ rest hm h1)
          (fun hc => by cases hc) (fun hc => by cases hc)
  · next start hp =>
    obtain ⟨a, b⟩ := h3 (by rw [hp]; rfl)
    cases hr : q.ScheduleNextTimer mm_id user_id with
    | none => exact failed
    | some s1 =>
      exact keep _ (TaskQueueWin.ScheduleNextTimer_in_order q s1 mm_id user_id h1 a b hr)
        (fun hc => by cases hc) (fun hc => by cases hc)
  · next start hp =>
    split
    · exact keep _ h1 (fun hc => by cases hc) (fun hc => by cases hc)
    · exact keep _ h1 (fun hc => by cases hc) (fun hc => by cases hc)
  · next result hp =>
    split
    · next hcond =>
      have he : q.timer_.event_ = true := by
        rcases hcond with hc | hc
        · exact h2 (by rw [hp, hc])
        · exact hc.2
      obtain ⟨c1, c2, c3, c4⟩ := TaskQueueWin.Cancel_in_order q h1 he
      cases hs1 : TaskQueueWin.RunDueTasks { q with timer_ := q.timer_.Cancel } with
      | none => exact failed
      | some s1 =>
        obtain ⟨d1, d2, d3⟩ := TaskQueueWin.RunDueTasks_in_order _ s1 c1 c2 c3 hs1
        exact keep _ d1 (fun hc => by cases hc) (fun _ => ⟨d2, d3⟩)
    · exact keep _ h1 (fun hc => by cases hc) (fun hc => by cases hc)
  · next result hp =>
    obtain ⟨a, b⟩ := h3 (by rw [hp]; rfl)
    cases hr : q.ScheduleNextTimer mm_id user_id with
    | none => exact failed
    | some s1 =>
      exact keep _ (TaskQueueWin.ScheduleNextTimer_in_order q s1 mm_id user_id h1 a b hr)
        (fun hc => by cases hc) (fun hc => by cases hc)
  · next result hp =>
    split
    · exact keep _ h1 (fun hc => by cases hc) (fun hc => by cases hc)
    · exact keep _ h1 (fun hc => by cases hc) (fun hc => by cases hc)
  · next hp =>
    unfold TaskQueueWin.RunPendingTasks_iteration
    cases q.pending_ with
    | nil => exact keep _ h1 (fun hc => by cases hc) (fun hc => by cases hc)
    | cons task rest =>
      exact keep _ h1 (fun hc => by rw [hp] at hc; cases hc)
        (fun hc => by rw [hp] at hc; cases hc)
  · exact h
  · exact h

/-- A plain step keeps the bookkeeping of the timers. -/
theorem TaskQueueWin.step_timer_bookkeeping (q : TaskQueueWin) (a : Action)
    (ha : a.plain = true) (h : q.timer_bookkeeping = true) :
    (q.step a).timer_bookkeeping = true := by
  obtain ⟨h1, h2, h3⟩ := (TaskQueueWin.timer_bookkeeping_iff q).mp h
  have keep : ∀ s : TaskQueueWin, s.timers_in_order = true → s.phase = q.phase →
      s.timer_.event_ = q.timer_.event_ → s.timer_id_ = q.timer_id_ →
      s.timer_.timer_id_ = q.timer_.timer_id_ → s.timer_bookkeeping = true := by
    intro s a b c d e
    rw [TaskQueueWin.timer_bookkeeping_iff, b, c, d, e]
    exact ⟨a, h2, h3⟩
  by_cases hq : q.phase = Phase.failed
  · rw [TaskQueueWin.step_failed q a hq]
    exact h
  · unfold TaskQueueWin.step
    rw [if_neg hq]
    cases a with
    | PostTask task => exact keep _ h1 rfl rfl rfl rfl
    | PostDelayedTask task ms posted =>
      dsimp only
      unfold TaskQueueWin.PostDelayedTask
      split
      · exact keep _ h1 rfl rfl rfl rfl
      · cases posted
        · exact keep _ h1 rfl rfl rfl rfl
        · exact keep _ (TaskQueueWin.timers_in_order_post q _ (by simp) h1) rfl rfl rfl rfl
    | post_run_task task =>
      exact keep _ (TaskQueueWin.timers_in_order_post q _ (by simp) h1) rfl rfl rfl rfl
    | post_window_message m =>
      exact keep _ (TaskQueueWin.timers_in_order_post q _ (by simp) h1) rfl rfl rfl rfl
    | Delete c =>
      cases c
      · exact keep _ (TaskQueueWin.timers_in_order_post q _ (by simp) h1) rfl rfl rfl rfl
      · show q.fail.timer_bookkeeping = true
        rw [TaskQueueWin.timer_bookkeeping_iff]
        refine ⟨h1, ?_, ?_⟩
        · intro hc; cases hc
        · intro hc; cases hc
    | tick dt => exact keep _ h1 rfl rfl rfl rfl
    | mm_timer_expires =>
      dsimp only
      cases hot : q.timer_.os_timer with
      | none => exact h
      | some t =>
        dsimp only
        split
        · obtain ⟨i1, i2, i3, i4, i5, i6⟩ := (TaskQueueWin.timers_in_order_iff q).mp h1
          obtain ⟨a1, a2⟩ := i1 t hot
          rw [TaskQueueWin.timer_bookkeeping_iff, TaskQueueWin.timers_in_order_iff]
          refine ⟨⟨?_, i2, ?_, i4, i5, i6⟩, fun _ => rfl, h3⟩
          · intro x hx; cases hx
          · intro hc
            exact absurd (a1.trans hc) a2
        · exact h
    | user_timer_expires =>
      dsimp only
      split
      · next t hut =>
        split
        · obtain ⟨i1, i2, i3, i4, i5, i6⟩ := (TaskQueueWin.timers_in_order_iff q).mp h1
          obtain ⟨a1, a2⟩ := i2 t hut
          exact keep _ (TaskQueueWin.timers_in_order_post q _
            (fun hc => a2 (Msg.timer.inj hc)) h1) rfl rfl rfl rfl
        · exact h
      · exact h
    | wake r =>
      dsimp only
      unfold TaskQueueWin.wake
      split
      · next hw =>
        rw [TaskQueueWin.timer_bookkeeping_iff]
        refine ⟨h1, ?_, ?_⟩
        · intro hc
          cases r with
          | object_0 => exact hw.2
          | object_1 => cases hc
          | object_2 => cases hc
          | io_completion => cases hc
        · intro hc
          cases r <;> cases hc
      · exact h
    | worker mm_id user_id => exact TaskQueueWin.worker_timer_bookkeeping q mm_id user_id h
    | worker_raced mm_id user_id => cases ha

/-- An execution of plain steps keeps the bookkeeping of the timers. -/
theorem TaskQueueWin.exec_timer_bookkeeping : ∀ (acts : List Action) (q : TaskQueueWin),
    acts.all Action.plain = true → q.timer_bookkeeping = true →
      (q.exec acts).timer_bookkeeping = true
  | [], _, _, h => h
  | a :: acts, q, ha, h => by
    simp only [List.all_cons, Bool.and_eq_true] at ha
    rw [TaskQueueWin.exec_cons]
    exact TaskQueueWin.exec_timer_bookkeeping acts (q.step a) ha.2
      (TaskQueueWin.step_timer_bookkeeping q a ha.1 h)

/-- With no timer outstanding, every outstanding timer is one for the top of
the heap. -/
theorem TaskQueueWin.timers_for_top_idle (s : TaskQueueWin) (h1 : s.timer_.os_timer = none)
    (h2 : s.user_timer = none) : s.timers_for_top = true := by
  unfold TaskQueueWin.timers_for_top
  rw [h1, h2]
  cases s.timer_tasks_.top <;> rfl

/-- The method `ScheduleNextTimer`, entered with no timer outstanding and no
identifier set, starts a timer for the top of the heap: the timer it starts
has the delay of the top at the tick of the call, and one is started when the
heap holds an entry and `timeSetEvent` or `SetTimer` succeeds. -/
theorem TaskQueueWin.ScheduleNextTimer_for_top (s s1 : TaskQueueWin) (mm_id user_id : Nat)
    (h1 : s.timer_id_ = 0) (h2 : s.timer_.timer_id_ = 0) (h3 : s.timer_.os_timer = none)
    (h4 : s.user_timer = none) (hs : s.ScheduleNextTimer mm_id user_id = some s1) :
    s1.timers_for_top = true ∧ s1.timer_tasks_ = s.timer_tasks_ ∧
      ((mm_id ≠ 0 ∨ user_id ≠ 0) → s.timer_tasks_ ≠ [] → s1.wake_scheduled = true) := by
  cases htop : s.timer_tasks_.top with
  | none =>
    have e : s1 = s := by
      simp only [TaskQueueWin.ScheduleNextTimer, h1, ne_eq, not_true_eq_false, if_false,
        htop] at hs
      cases hs; rfl
    rw [e]
    refine ⟨TaskQueueWin.timers_for_top_idle s h3 h4, rfl, ?_⟩
    intro _ hne
    exact absurd ((DueTimeHeap.top_eq_none_iff _).mp htop) hne
  | some m =>
    rw [TaskQueueWin.ScheduleNextTimer_top s mm_id user_id m htop h1 h2] at hs
    split at hs
    · next hfit =>
      have hcast : dchecked_cast_uint32 (next_delay_ms m s.clock) =
          some (next_delay_ms m s.clock).toNat :=
        dchecked_cast_uint32_fits _ (next_delay_ms_nonneg m s.clock) hfit
      cases hs
      by_cases hmm : mm_id = 0
      · subst hmm
        by_cases hu : user_id = 0
        · subst hu
          simp [TaskQueueWin.timers_for_top, htop, h3, h4]
        · simp [TaskQueueWin.timers_for_top, htop, h3, h4, hu, OsTimer.set_for, hcast,
            TaskQueueWin.wake_scheduled]
      · simp [TaskQueueWin.timers_for_top, htop, h3, h4, hmm, OsTimer.set_for, hcast,
          TaskQueueWin.wake_scheduled]
    · cases hs

/-- The case `WM_QUEUE_DELAYED_TASK` keeps every outstanding timer one for the
top of the heap. -/
theorem TaskQueueWin.queue_delayed_task_for_top (s s1 : TaskQueueWin) (info : DelayedTaskInfo)
    (mm_id user_id : Nat) (h : s.timers_in_order = true) (hp : s.timers_for_top = true)
    (hs : s.queue_delayed_task info mm_id user_id = some s1) : s1.timers_for_top = true := by
  have hc : s.timers_consistent = true := by
    simp only [TaskQueueWin.timers_in_order, Bool.and_eq_true] at h
    exact h.1.1.1.1
  unfold TaskQueueWin.queue_delayed_task at hs
  simp only at hs
  split at hs
  · rw [TaskQueueWin.CancelTimers_consistent
      { s with timer_tasks_ := s.timer_tasks_.emplace info } hc] at hs
    exact (TaskQueueWin.ScheduleNextTimer_for_top _ s1 mm_id user_id rfl rfl rfl rfl hs).1
  · next hno =>
    cases hs
    cases htop : s.timer_tasks_.top with
    | none => simp [htop] at hno
    | some m =>
      simp only [htop, decide_eq_true_eq] at hno
      have hg : greater m info = false := by
        rw [Bool.eq_false_iff]
        intro hc2
        exact hno ((greater_iff m info).mp hc2)
      unfold TaskQueueWin.timers_for_top at hp ⊢
      simp only [DueTimeHeap.emplace, DueTimeHeap.top_append_singleton, htop, hg] at hp ⊢
      exact hp

/-- The case `WM_QUEUE_DELAYED_TASK` leaves a wake-up on its way when a timer
can be started. -/
theorem TaskQueueWin.queue_delayed_task_wake (s s1 : TaskQueueWin) (info : DelayedTaskInfo)
    (mm_id user_id : Nat) (h : s.timers_in_order = true)
    (hk : s.timer_tasks_ = [] ∨ s.wake_scheduled = true) (harm : mm_id ≠ 0 ∨ user_id ≠ 0)
    (hs : s.queue_delayed_task info mm_id user_id = some s1) : s1.wake_scheduled = true := by
  have hc : s.timers_consistent = true := by
    simp only [TaskQueueWin.timers_in_order, Bool.and_eq_true] at h
    exact h.1.1.1.1
  unfold TaskQueueWin.queue_delayed_task at hs
  simp only at hs
  split at hs
  · rw [TaskQueueWin.CancelTimers_consistent
      { s with timer_tasks_ := s.timer_tasks_.emplace info } hc] at hs
    exact (TaskQueueWin.ScheduleNextTimer_for_top _ s1 mm_id user_id rfl rfl rfl rfl hs).2.2 harm
      (by simp [DueTimeHeap.emplace])
  · next hno =>
    cases hs
    rcases hk with hk | hk
    · rw [hk] at hno
      simp [DueTimeHeap.top] at hno
    · exact hk

theorem TaskQueueWin.wake_kept_iff (q : TaskQueueWin) :
    q.wake_kept = true ↔
      (q.phase.at_schedule = true ∨ q.phase = Phase.failed ∨ q.timer_tasks_ = [] ∨
        q.wake_scheduled = true) := by
  simp only [TaskQueueWin.wake_kept, Bool.or_eq_true, decide_eq_true_eq, List.isEmpty_iff,
    or_assoc]

/-- A step of the worker keeps every outstanding timer one for the top of
the heap. -/
theorem TaskQueueWin.worker_timers_for_top (q : TaskQueueWin) (mm_id user_id : Nat)
    (h : q.timer_bookkeeping = true) (hp : q.timers_for_top = true) :
    (q.worker mm_id user_id).timers_for_top = true := by
  obtain ⟨h1, h2, h3⟩ := (TaskQueueWin.timer_bookkeeping_iff q).mp h
  have idle : ∀ s : TaskQueueWin, s.timers_in_order = true → s.timer_id_ = 0 →
      s.timer_.timer_id_ = 0 → s.timers_for_top = true := by
    intro s a b c
    obtain ⟨j1, j2, _⟩ := TaskQueueWin.timers_in_order_idle s a b c
    exact TaskQueueWin.timers_for_top_idle s j1 j2
  have sched : ∀ (p : Phase), q.phase.at_schedule = true →
      (TaskQueueWin.continue_at (q.ScheduleNextTimer mm_id user_id) q p).timers_for_top =
        true := by
    intro p hsch
    obtain ⟨a, b⟩ := h3 hsch
    obtain ⟨j1, j2, _⟩ := TaskQueueWin.timers_in_order_idle q h1 a b
    cases hr : q.ScheduleNextTimer mm_id user_id with
    | none => exact hp
    | some s1 => exact (TaskQueueWin.ScheduleNextTimer_for_top q s1 mm_id user_id a b j1 j2 hr).1
  unfold TaskQueueWin.worker
  split
  · exact hp
  · next start hph =>
    unfold TaskQueueWin.peek_message
    split
    · exact hp
    · exact hp
    · exact hp
    · next info rest hm =>
      cases hr : TaskQueueWin.queue_delayed_task { q with messages := rest } info mm_id
        user_id with
      | none => exact hp
      | some s1 =>
        exact TaskQueueWin.queue_delayed_task_for_top _ s1 info mm_id user_id
          (TaskQueueWin.timers_in_order_rest q _ rest hm h1) hp hr
    · next wParam rest hm =>
      by_cases hid : q.timer_id_ = wParam
      · have hw : wParam ≠ 0 := by
          intro hc
          obtain ⟨_, _, _, _, _, i6⟩ := (TaskQueueWin.timers_in_order_iff q).mp h1
          exact i6 (Msg.timer wParam) (by rw [hm]; exact List.mem_cons_self _ _) (by rw [hc])
        have hwm := (TaskQueueWin.wm_timer_in_order
          { q with messages := rest } wParam
          (TaskQueueWin.timers_in_order_rest q _ rest hm h1) hw hid).2
        cases e1 : TaskQueueWin.wm_timer { q with messages := rest } wParam with
        | none => exact hp
        | some s1 =>
          obtain ⟨e2, e3, e4⟩ := hwm s1 e1
          exact idle s1 e2 e3 e4
      · have : TaskQueueWin.wm_timer { q with messages := rest } wParam = none := by
          unfold TaskQueueWin.wm_timer
          rw [if_pos hid]
        rw [this]
        exact hp
    · exact hp
    · split
      · exact hp
      · exact hp
  · next start hph => exact sched _ (by rw [hph]; rfl)
  · split
    · exact hp
    · exact hp
  · next result hph =>
    split
    · next hcond =>
      have he : q.timer_.event_ = true := by
        rcases hcond with hc | hc
        · exact h2 (by rw [hph, hc])
        · exact hc.2
      obtain ⟨c1, c2, c3, c4⟩ := TaskQueueWin.Cancel_in_order q h1 he
      cases hs1 : TaskQueueWin.RunDueTasks { q with timer_ := q.timer_.Cancel } with
      | none => exact hp
      | some s1 =>
        obtain ⟨d1, d2, d3⟩ := TaskQueueWin.RunDueTasks_in_order _ s1 c1 c2 c3 hs1
        exact idle s1 d1 d2 d3
    · exact hp
  · next result hph => exact sched _ (by rw [hph]; rfl)
  · split
    · exact hp
    · exact hp
  · unfold TaskQueueWin.RunPendingTasks_iteration
    cases q.pending_ with
    | nil => exact hp
    | cons task rest => exact hp
  · exact hp
  · exact hp

/-- A step of the worker that can start a timer keeps a wake-up on its way
for the entries of the heap. -/
theorem TaskQueueWin.worker_wake_kept (q : TaskQueueWin) (mm_id user_id : Nat)
    (harm : mm_id ≠ 0 ∨ user_id ≠ 0) (h : q.timer_bookkeeping = true)
    (hk : q.wake_kept = true) : (q.worker mm_id user_id).wake_kept = true := by
  obtain ⟨h1, h2, h3⟩ := (TaskQueueWin.timer_bookkeeping_iff q).mp h
  have failed : ∀ s : TaskQueueWin, s.phase = Phase.failed → s.wake_kept = true :=
    fun s hs => (TaskQueueWin.wake_kept_iff s).mpr (Or.inr (Or.inl hs))
  have exempt : ∀ s : TaskQueueWin, s.phase.at_schedule = true → s.wake_kept = true :=
    fun s hs => (TaskQueueWin.wake_kept_iff s).mpr (Or.inl hs)
  have same : ∀ s : TaskQueueWin, q.phase.at_schedule = false → q.phase ≠ Phase.failed →
      s.timer_tasks_ = q.timer_tasks_ → s.wake_scheduled = q.wake_scheduled →
      s.wake_kept = true := by
    intro s a b c d
    rw [TaskQueueWin.wake_kept_iff, c, d]
    rcases (TaskQueueWin.wake_kept_iff q).mp hk with hk | hk | hk
    · rw [a] at hk; cases hk
    · exact absurd hk b
    · exact Or.inr (Or.inr hk)
  have sched : ∀ (p : Phase), q.phase.at_schedule = true →
      (TaskQueueWin.continue_at (q.ScheduleNextTimer mm_id user_id) q p).wake_kept = true := by
    intro p hsch
    obtain ⟨a, b⟩ := h3 hsch
    obtain ⟨j1, j2, _⟩ := TaskQueueWin.timers_in_order_idle q h1 a b
    cases hr : q.ScheduleNextTimer mm_id user_id with
    | none => exact failed _ rfl
    | some s1 =>
      obtain ⟨_, e2, e3⟩ := TaskQueueWin.ScheduleNextTimer_for_top q s1 mm_id user_id a b j1 j2 hr
      rw [TaskQueueWin.wake_kept_iff]
      by_cases hne : q.timer_tasks_ = []
      · exact Or.inr (Or.inr (Or.inl (e2.trans hne)))
      · exact Or.inr (Or.inr (Or.inr (e3 harm hne)))
  unfold TaskQueueWin.worker
  split
  · exact hk
  · next start hph =>
    have n1 : q.phase.at_schedule = false := by rw [hph]; rfl
    have n2 : q.phase ≠ Phase.failed := by rw [hph]; exact fun hc => by cases hc
    unfold TaskQueueWin.peek_message
    split
    · exact same _ n1 n2 rfl rfl
    · exact same _ n1 n2 rfl rfl
    · exact same _ n1 n2 rfl rfl
    · next info rest hm =>
      cases hr : TaskQueueWin.queue_delayed_task { q with messages := rest } info mm_id
        user_id with
      | none => exact failed _ rfl
      | some s1 =>
        have hq : q.timer_tasks_ = [] ∨ q.wake_scheduled = true := by
          rcases (TaskQueueWin.wake_kept_iff q).mp hk with hk | hk | hk
          · rw [n1] at hk; cases hk
          · exact absurd hk n2
          · exact hk
        rw [TaskQueueWin.wake_kept_iff]
        exact Or.inr (Or.inr (Or.inr (TaskQueueWin.queue_delayed_task_wake _ s1 info mm_id
          user_id (TaskQueueWin.timers_in_order_rest q _ rest hm h1) hq harm hr)))
    · next wParam rest hm =>
      cases hr : TaskQueueWin.wm_timer { q with messages := rest } wParam with
      | none => exact failed _ rfl
      | some s1 => exact exempt _ rfl
    · exact failed _ rfl
    · split
      · exact same _ n1 n2 rfl rfl
      · exact same _ n1 n2 rfl rfl
  · next start hph => exact sched _ (by rw [hph]; rfl)
  · next start hph =>
    have n1 : q.phase.at_schedule = false := by rw [hph]; rfl
    have n2 : q.phase ≠ Phase.failed := by rw [hph]; exact fun hc => by cases hc
    split
    · exact same _ n1 n2 rfl rfl
    · exact same _ n1 n2 rfl rfl
  · next result hph =>
    have n1 : q.phase.at_schedule = false := by rw [hph]; rfl
    have n2 : q.phase ≠ Phase.failed := by rw [hph]; exact fun hc => by cases hc
    split
    · cases hr : TaskQueueWin.RunDueTasks { q with timer_ := q.timer_.Cancel } with
      | none => exact failed _ rfl
      | some s1 => exact exempt _ rfl
    · exact same _ n1 n2 rfl rfl
  · next result hph => exact sched _ (by rw [hph]; rfl)
  · next result hph =>
    have n1 : q.phase.at_schedule = false := by rw [hph]; rfl
    have n2 : q.phase ≠ Phase.failed := by rw [hph]; exact fun hc => by cases hc
    split
    · exact same _ n1 n2 rfl rfl
    · exact same _ n1 n2 rfl rfl
  · next hph =>
    have n1 : q.phase.at_schedule = false := by rw [hph]; rfl
    have n2 : q.phase ≠ Phase.failed := by rw [hph]; exact fun hc => by cases hc
    unfold TaskQueueWin.RunPendingTasks_iteration
    cases q.pending_ with
    | nil => exact same _ n1 n2 rfl rfl
    | cons task rest => exact same _ n1 n2 rfl rfl
  · exact hk
  · exact hk

/-- A plain step keeps every outstanding timer one for the top of the heap. -/
theorem TaskQueueWin.step_timers_for_top (q : TaskQueueWin) (a : Action)
    (ha : a.plain = true) (h : q.timer_bookkeeping = true) (hp : q.timers_for_top = true) :
    (q.step a).timers_for_top = true := by
  by_cases hq : q.phase = Phase.failed
  · rw [TaskQueueWin.step_failed q a hq]
    exact hp
  · unfold TaskQueueWin.step
    rw [if_neg hq]
    cases a with
    | PostTask task => exact hp
    | PostDelayedTask task ms posted =>
      dsimp only
      unfold TaskQueueWin.PostDelayedTask
      split
      · exact hp
      · cases posted
        · exact hp
        · exact hp
    | post_run_task task => exact hp
    | post_window_message m => exact hp
    | Delete c =>
      cases c
      · exact hp
      · exact hp
    | tick dt => exact hp
    | mm_timer_expires =>
      dsimp only
      split
      · split
        · unfold TaskQueueWin.timers_for_top at hp ⊢
          dsimp only
          cases htop : q.timer_tasks_.top with
          | none =>
            rw [htop] at hp
            simp only [Bool.and_eq_true] at hp
            simp only [Option.isNone_none, Bool.true_and]
            exact hp.2
          | some e =>
            rw [htop] at hp
            simp only [Bool.and_eq_true] at hp
            simp only [Bool.true_and]
            exact hp.2
        · exact hp
      · exact hp
    | user_timer_expires =>
      dsimp only
      split
      · split
        · exact hp
        · exact hp
      · exact hp
    | wake r =>
      dsimp only
      unfold TaskQueueWin.wake
      split
      · exact hp
      · exact hp
    | worker mm_id user_id => exact TaskQueueWin.worker_timers_for_top q mm_id user_id h hp
    | worker_raced mm_id user_id => cases ha

/-- A plain step that can start a timer keeps a wake-up on its way for the
entries of the heap. -/
theorem TaskQueueWin.step_wake_kept (q : TaskQueueWin) (a : Action)
    (ha : a.plain = true) (harm : a.gets_timer = true) (h : q.timer_bookkeeping = true)
    (hk : q.wake_kept = true) : (q.step a).wake_kept = true := by
  by_cases hq : q.phase = Phase.failed
  · rw [TaskQueueWin.step_failed q a hq]
    exact hk
  · unfold TaskQueueWin.step
    rw [if_neg hq]
    cases a with
    | PostTask task => exact hk
    | PostDelayedTask task ms posted =>
      dsimp only
      unfold TaskQueueWin.PostDelayedTask
      split
      · exact hk
      · cases posted
        · exact hk
        · exact hk
    | post_run_task task => exact hk
    | post_window_message m => exact hk
    | Delete c =>
      cases c
      · exact hk
      · exact (TaskQueueWin.wake_kept_iff _).mpr (Or.inr (Or.inl rfl))
    | tick dt => exact hk
    | mm_timer_expires =>
      dsimp only
      split
      · split
        · rw [TaskQueueWin.wake_kept_iff]
          exact Or.inr (Or.inr (Or.inr (by simp [TaskQueueWin.wake_scheduled])))
        · exact hk
      · exact hk
    | user_timer_expires =>
      dsimp only
      split
      · split
        · exact hk
        · exact hk
      · exact hk
    | wake r =>
      dsimp only
      unfold TaskQueueWin.wake
      split
      · next hw =>
        rw [TaskQueueWin.wake_kept_iff]
        rcases (TaskQueueWin.wake_kept_iff q).mp hk with hk | hk | hk
        · rw [hw.1] at hk; cases hk
        · exact absurd hk hq
        · exact Or.inr (Or.inr hk)
      · exact hk
    | worker mm_id user_id =>
      exact TaskQueueWin.worker_wake_kept q mm_id user_id (by simpa [Action.gets_timer] using harm)
        h hk
    | worker_raced mm_id user_id => cases ha

/-- An execution of plain steps keeps the bookkeeping of the timers and keeps
every outstanding timer one for the top of the heap. -/
theorem TaskQueueWin.exec_timers_for_top : ∀ (acts : List Action) (q : TaskQueueWin),
    acts.all Action.plain = true → q.timer_bookkeeping = true → q.timers_for_top = true →
      (q.exec acts).timer_bookkeeping = true ∧ (q.exec acts).timers_for_top = true
  | [], _, _, h, hp => ⟨h, hp⟩
  | a :: acts, q, ha, h, hp => by
    simp only [List.all_cons, Bool.and_eq_true] at ha
    rw [TaskQueueWin.exec_cons]
    exact TaskQueueWin.exec_timers_for_top acts (q.step a) ha.2
      (TaskQueueWin.step_timer_bookkeeping q a ha.1 h)
      (TaskQueueWin.step_timers_for_top q a ha.1 h hp)

/-- An execution of plain steps in which a timer can always be started keeps
a wake-up on its way for the entries of the heap. -/
theorem TaskQueueWin.exec_wake_kept : ∀ (acts : List Action) (q : TaskQueueWin),
    acts.all Action.plain = true → acts.all Action.gets_timer = true →
      q.timer_bookkeeping = true → q.wake_kept = true → (q.exec acts).wake_kept = true
  | [], _, _, _, _, hk => hk
  | a :: acts, q, ha, hg, h, hk => by
    simp only [List.all_cons, Bool.and_eq_true] at ha hg
    rw [TaskQueueWin.exec_cons]
    exact TaskQueueWin.exec_wake_kept acts (q.step a) ha.2 hg.2
      (TaskQueueWin.step_timer_bookkeeping q a ha.1 h)
      (TaskQueueWin.step_wake_kept q a ha.1 hg.1 h hk)

/-- In an execution of plain steps, `RunDueTasks` is entered only with an
entry in the heap. In every state such an execution reaches from a new queue:
a timer is outstanding or the event signalled only while the heap holds an
entry; when the worker is at the timer `if` of `RunThreadMain` and takes it,
the heap holds an entry; and when it takes the message `WM_TIMER` of the timer
it holds, the heap holds an entry. -/
theorem TaskQueueWin.plain_exec_RunDueTasks (c : Int) (acts : List Action)
    (hplain : acts.all Action.plain = true) :
    (((TaskQueueWin.init c).exec acts).wake_scheduled = true →
      ((TaskQueueWin.init c).exec acts).timer_tasks_ ≠ []) ∧
    (∀ result, ((TaskQueueWin.init c).exec acts).phase = Phase.timer_check result →
      (result = WaitResult.object_0 ∨
        (¬ ((TaskQueueWin.init c).exec acts).timer_tasks_.isEmpty ∧
          ((TaskQueueWin.init c).exec acts).timer_.event_ = true)) →
      ((TaskQueueWin.init c).exec acts).timer_tasks_ ≠ []) ∧
    (∀ wParam rest, ((TaskQueueWin.init c).exec acts).messages = Msg.timer wParam :: rest →
      ((TaskQueueWin.init c).exec acts).timer_id_ = wParam →
      ((TaskQueueWin.init c).exec acts).timer_tasks_ ≠ []) := by
  have inv := TaskQueueWin.exec_timer_bookkeeping acts (TaskQueueWin.init c) hplain rfl
  generalize (TaskQueueWin.init c).exec acts = q at inv
  obtain ⟨h1, h2, h3⟩ := (TaskQueueWin.timer_bookkeeping_iff q).mp inv
  obtain ⟨i1, i2, i3, i4, i5, i6⟩ := (TaskQueueWin.timers_in_order_iff q).mp h1
  refine ⟨?_, ?_, ?_⟩
  · intro hw
    by_cases ha : q.timer_id_ = 0
    · by_cases hb : q.timer_.timer_id_ = 0
      · obtain ⟨j1, j2, j3⟩ := TaskQueueWin.timers_in_order_idle q h1 ha hb
        simp [TaskQueueWin.wake_scheduled, j1, j2, j3] at hw
      · exact i5 (Or.inr hb)
    · exact i5 (Or.inl ha)
  · intro result hp hcond
    have he : q.timer_.event_ = true := by
      rcases hcond with hc | hc
      · exact h2 (by rw [hp, hc])
      · exact hc.2
    exact (TaskQueueWin.Cancel_in_order q h1 he).2.2.2
  · intro wParam rest hm hid
    have hw : wParam ≠ 0 := by
      intro hc
      exact i6 (Msg.timer wParam) (by rw [hm]; exact List.mem_cons_self _ _) (by rw [hc])
    exact (TaskQueueWin.wm_timer_in_order { q with messages := rest } wParam
      (TaskQueueWin.timers_in_order_rest q _ rest hm h1) hw hid).1

/-- In an execution of plain steps, `ScheduleNextTimer` is entered with no
timer outstanding. In every state such an execution reaches from a new queue
the two timers are not outstanding together; when the worker is at a call of
`ScheduleNextTimer` that follows `RunDueTasks`, no identifier is set, no timer
is outstanding and the event is not signalled; and the call in the case
`WM_QUEUE_DELAYED_TASK` follows `CancelTimers`, which leaves no identifier. -/
theorem TaskQueueWin.plain_exec_ScheduleNextTimer (c : Int) (acts : List Action)
    (hplain : acts.all Action.plain = true) :
    ¬ (((TaskQueueWin.init c).exec acts).timer_.os_timer.isSome = true ∧
      ((TaskQueueWin.init c).exec acts).user_timer.isSome = true) ∧
    (((TaskQueueWin.init c).exec acts).phase.at_schedule = true →
      ((TaskQueueWin.init c).exec acts).timer_id_ = 0 ∧
      ((TaskQueueWin.init c).exec acts).timer_.timer_id_ = 0 ∧
      ((TaskQueueWin.init c).exec acts).timer_.os_timer = none ∧
      ((TaskQueueWin.init c).exec acts).user_timer = none ∧
      ((TaskQueueWin.init c).exec acts).timer_.event_ = false) ∧
    (∀ s : TaskQueueWin, s.CancelTimers.timer_id_ = 0 ∧ s.CancelTimers.timer_.timer_id_ = 0) := by
  have inv := TaskQueueWin.exec_timer_bookkeeping acts (TaskQueueWin.init c) hplain rfl
  generalize (TaskQueueWin.init c).exec acts = q at inv
  obtain ⟨h1, h2, h3⟩ := (TaskQueueWin.timer_bookkeeping_iff q).mp inv
  obtain ⟨i1, i2, i3, i4, i5, i6⟩ := (TaskQueueWin.timers_in_order_iff q).mp h1
  refine ⟨?_, ?_, ?_⟩
  · rintro ⟨ha, hb⟩
    obtain ⟨t, ht⟩ := Option.isSome_iff_exists.mp ha
    obtain ⟨u, hu⟩ := Option.isSome_iff_exists.mp hb
    obtain ⟨a1, a2⟩ := i1 t ht
    obtain ⟨b1, b2⟩ := i2 u hu
    exact a2 (a1.trans (i4 (by rw [← b1]; exact b2)))
  · intro hs
    obtain ⟨a, b⟩ := h3 hs
    obtain ⟨j1, j2, j3⟩ := TaskQueueWin.timers_in_order_idle q h1 a b
    exact ⟨a, b, j1, j2, j3⟩
  · intro s
    obtain ⟨a, b, _⟩ := TaskQueueWin.CancelTimers_ids s
    exact ⟨a, b⟩

/-- In an execution of plain steps in which a timer can always be started,
the heap holds an entry if and only if a wake-up is on its way, and the timer
outstanding was programmed for the top of the heap. In every state such an
execution reaches from a new queue, unless the worker is between `RunDueTasks`
and `ScheduleNextTimer` or a check has failed: a timer is outstanding or the
event signalled exactly when the heap holds an entry; and in every state each
outstanding timer was started with the delay of the top of the heap. -/
theorem TaskQueueWin.plain_exec_wake (c : Int) (acts : List Action)
    (hplain : acts.all Action.plain = true) (harm : acts.all Action.gets_timer = true) :
    (((TaskQueueWin.init c).exec acts).phase.at_schedule = false →
      ((TaskQueueWin.init c).exec acts).phase ≠ Phase.failed →
      (((TaskQueueWin.init c).exec acts).wake_scheduled = true ↔
        ((TaskQueueWin.init c).exec acts).timer_tasks_ ≠ [])) ∧
    ((TaskQueueWin.init c).exec acts).timers_for_top = true := by
  have hk := TaskQueueWin.exec_wake_kept acts (TaskQueueWin.init c) hplain harm rfl rfl
  obtain ⟨_, hp⟩ := TaskQueueWin.exec_timers_for_top acts (TaskQueueWin.init c) hplain rfl rfl
  have hr := (TaskQueueWin.plain_exec_RunDueTasks c acts hplain).1
  refine ⟨?_, hp⟩
  intro n1 n2
  refine ⟨hr, ?_⟩
  intro hne
  rcases (TaskQueueWin.wake_kept_iff _).mp hk with hk | hk | hk | hk
  · rw [n1] at hk; cases hk
  · exact absurd hk n2
  · exact absurd hk hne
  · exact hk

/-! ## The claims -/

set_option maxRecDepth 1000000

/-- Claim C1: immediate tasks run in the order they were posted. From the
initial queue, after any sequence of actions (posts by any threads, timer
events, worker steps), the tasks `RunPendingTasks` has run are a prefix of the
tasks handed to `PostTask`, in posting order; and unless a check has failed,
the tasks run followed by those still in `pending_` are exactly the tasks
posted, in order. Moreover, in any state, after `t1..tn` are posted by
`PostTask`, a call of `RunPendingTasks` returns with `pending_` empty, having
run the tasks queued before and then `t1..tn`, in that order. -/
theorem C1_immediate_tasks_run_in_posting_order (clock : Int) (acts : List Action) :
    runs_on Path.pending ((TaskQueueWin.init clock).exec acts).log <+:
        acts.flatMap Action.immediate_tasks ∧
      (((TaskQueueWin.init clock).exec acts).phase ≠ Phase.failed →
        runs_on Path.pending ((TaskQueueWin.init clock).exec acts).log ++
            ((TaskQueueWin.init clock).exec acts).pending_ =
          acts.flatMap Action.immediate_tasks) ∧
      (∀ (q : TaskQueueWin) (tasks : List QueuedTask),
        ∃ q1, (tasks.foldl TaskQueueWin.PostTask q).RunPendingTasks = some q1 ∧
          q1.pending_ = [] ∧
          runs_on Path.pending q1.log =
            runs_on Path.pending q.log ++ (q.pending_ ++ tasks)) := by
  refine ⟨?_, ?_, ?_⟩
  · have h := TaskQueueWin.exec_pending_seq_le acts (TaskQueueWin.init clock)
    have h0 : (TaskQueueWin.init clock).pending_seq = [] := rfl
    rw [h0, List.nil_append] at h
    exact (List.prefix_append _ _).trans h
  · intro hf
    have h := TaskQueueWin.exec_pending_seq_eq acts (TaskQueueWin.init clock) hf
    have h0 : (TaskQueueWin.init clock).pending_seq = [] := rfl
    rw [h0, List.nil_append] at h
    exact h
  · intro q tasks
    obtain ⟨h1, h2⟩ := TaskQueueWin.foldl_PostTask tasks q
    refine ⟨_, TaskQueueWin.RunPendingTasks_spec _, rfl, ?_⟩
    simp only [h1, h2, runs_on_append, runs_on_pending_tasks]

/-- Witness of C1: two tasks posted and run; the log has them in posting
order and `pending_` is empty again. -/
theorem C1_witness :
    ((TaskQueueWin.init 0).exec fifo_sample).phase ≠ Phase.failed ∧
      runs_on Path.pending ((TaskQueueWin.init 0).exec fifo_sample).log ++
          ((TaskQueueWin.init 0).exec fifo_sample).pending_ =
        fifo_sample.flatMap Action.immediate_tasks ∧
      runs_on Path.pending ((TaskQueueWin.init 0).exec fifo_sample).log =
        [{ id := 1, result := true }, { id := 2, result := false }] :=
  ⟨by decide, (C1_immediate_tasks_run_in_posting_order 0 fifo_sample).2.1 (by decide), by rfl⟩

/-- Counterexample to C3: an execution in which every action is enabled and
the wait returns the lowest signalled index. A task is posted at tick 0 with a
delay of 100 ms and its entry (due at 100) enters `timer_tasks_`; while an
immediate task runs from tick 10 to tick 210, a second task is posted at tick
50 with a delay of 10 ms (due at 60) and its entry waits in the message
queue, and the timer expires. The wait then returns `WAIT_OBJECT_0`, so
`RunDueTasks` runs the entry due at 100 while the entry due at 60 is still a
queued message; that one is run afterwards. -/
theorem C3_later_due_task_overtakes :
    (TaskQueueWin.init 0).enabled_all (overtaken_before ++ overtaken_after) = true ∧
      ((TaskQueueWin.init 0).exec overtaken_before).timer_tasks_ =
        [{ due_time_ := 100, task_ := overtaken_late }] ∧
      ((TaskQueueWin.init 0).exec overtaken_before).messages =
        [Msg.queue_delayed_task { due_time_ := 60, task_ := overtaken_early }] ∧
      runs_on Path.timer ((TaskQueueWin.init 0).exec overtaken_before).log = [] ∧
      runs_on Path.timer ((TaskQueueWin.init 0).exec (overtaken_before ++ overtaken_after)).log =
        [overtaken_late, overtaken_early] := by
  refine ⟨by rfl, by rfl, by rfl, by rfl, by rfl⟩

/-- Claim C3, amended: heap ordering is respected among the entries that are
in `timer_tasks_`. In every state and for every step, the delayed entries the
step runs come from `timer_tasks_`, are run in ascending order of due time,
and whenever an entry `r` is run, every entry of `timer_tasks_` due strictly
earlier than `r` has been run before it in the same step. -/
theorem C3_heap_order_respected (q : TaskQueueWin) (a : Action) :
    ∃ ran : List DelayedTaskInfo,
      runs_on Path.timer (q.step a).log =
        runs_on Path.timer q.log ++ ran.map DelayedTaskInfo.task_ ∧
      (∀ r ∈ ran, r ∈ q.timer_tasks_) ∧
      ran.Pairwise (fun x y => x.due_time ≤ y.due_time) ∧
      (∀ (before : List DelayedTaskInfo) (r : DelayedTaskInfo) (later : List DelayedTaskInfo),
        ran = before ++ r :: later →
        ∀ e ∈ q.timer_tasks_, e.due_time < r.due_time → e ∈ before) := by
  obtain ⟨ran, h1, h2, h3⟩ := TaskQueueWin.step_timer_runs q a
  refine ⟨ran, h1, ?_, h2, ?_⟩
  · intro r hr
    rcases h3 with h3 | ⟨h3, _⟩
    · rw [h3] at hr; exact absurd hr (List.not_mem_nil _)
    · exact (List.mem_filter.1 (h3.subset hr)).1
  · intro before r later hran e he hlt
    have hr : r ∈ ran := by rw [hran]; simp
    rcases h3 with h3 | ⟨h3, _⟩
    · rw [h3] at hr; exact absurd hr (List.not_mem_nil _)
    · have hrdue : r.due_time ≤ q.clock := by
        simpa using (List.mem_filter.1 (h3.subset hr)).2
      have hedue : e ∈ q.timer_tasks_.due q.clock :=
        List.mem_filter.2 ⟨he, by simpa using le_of_lt (lt_of_lt_of_le hlt hrdue)⟩
      have heran : e ∈ ran := h3.symm.subset hedue
      rw [hran] at heran h2
      rcases List.mem_append.1 heran with hb | hb
      · exact hb
      · exfalso
        have hpw := (List.pairwise_append.1 h2).2.1
        rcases List.mem_cons.1 hb with hb | hb
        · rw [hb] at hlt; exact lt_irrefl _ hlt
        · have := (List.pairwise_cons.1 hpw).1 e hb
          exact absurd hlt (not_lt_of_le this)

/-- Witness of the amended C3: the step that runs the due entries of
`sample_due_queue` (those due at 10 and at 20, in that order). -/
theorem C3_witness :
    ∃ ran : List DelayedTaskInfo,
      runs_on Path.timer
          (({ sample_due_queue with phase := Phase.timer_check WaitResult.object_0 }).step
            (Action.worker 0 0)).log =
        runs_on Path.timer
          ({ sample_due_queue with phase := Phase.timer_check WaitResult.object_0 }).log ++
          ran.map DelayedTaskInfo.task_ ∧
      (∀ r ∈ ran,
        r ∈ ({ sample_due_queue with phase := Phase.timer_check WaitResult.object_0 }).timer_tasks_) ∧
      ran.Pairwise (fun x y => x.due_time ≤ y.due_time) ∧
      (∀ (before : List DelayedTaskInfo) (r : DelayedTaskInfo) (later : List DelayedTaskInfo),
        ran = before ++ r :: later →
        ∀ e ∈ ({ sample_due_queue with
                  phase := Phase.timer_check WaitResult.object_0 }).timer_tasks_,
          e.due_time < r.due_time → e ∈ before) :=
  C3_heap_order_respected
    { sample_due_queue with phase := Phase.timer_check WaitResult.object_0 } (Action.worker 0 0)

/-- Claim C5: on each of the three paths that run a task (the drain of
`pending_`, an entry of `timer_tasks_` run and popped, a `WM_RUN_TASK`
message) the events are the call of `Run()` followed by exactly one event:
the destruction of the task when `Run()` returned true, its release without
destruction when `Run()` returned false. On the timer path that is what
`DelayedTaskInfo::Run` does for an entry whose due time is not 0, leaving the
entry with a null pointer, so that popping the entry destroys nothing more;
for an entry whose due time is 0 the check of `DelayedTaskInfo::Run` fails
and the task is not run. And when `RunDueTasks` returns, the events it added
to the log are those two events for each entry it ran, the entries it ran
being the entries that were due. -/
theorem C5_destroy_iff_run_returned_true (task : QueuedTask) (due_time : Int) :
    run_pending_task task =
        [Event.run Path.pending task,
          if task.result then Event.destroy task else Event.release task] ∧
      (due_time ≠ 0 →
        DelayedTaskInfo.Run { due_time_ := due_time, task_ := task } =
            some ([Event.run Path.timer task,
                    if task.result then Event.destroy task else Event.release task], none) ∧
          DelayedTaskInfo.run_and_pop { due_time_ := due_time, task_ := task } =
            [Event.run Path.timer task,
              if task.result then Event.destroy task else Event.release task]) ∧
      (due_time = 0 →
        DelayedTaskInfo.Run { due_time_ := due_time, task_ := task } = none ∧
          DelayedTaskInfo.run_and_pop { due_time_ := due_time, task_ := task } = []) ∧
      run_task_message task =
        [Event.run Path.message task,
          if task.result then Event.destroy task else Event.release task] ∧
      (∀ q q1 : TaskQueueWin, q.RunDueTasks = some q1 →
        ∃ ran : List DelayedTaskInfo,
          List.Perm ran (q.timer_tasks_.filter (fun e => decide (e.due_time ≤ q.GetTick))) ∧
          (∀ e ∈ ran, e.due_time_ ≠ 0) ∧
          q1.log = q.log ++ ran.flatMap (fun e =>
            [Event.run Path.timer e.task_,
              if e.task_.result then Event.destroy e.task_ else Event.release e.task_])) := by
  refine ⟨?_, ?_, ?_, ?_, ?_⟩
  · cases hr : task.result <;>
      simp [run_pending_task, unique_ptr.release, unique_ptr.reset, unique_ptr.dtor, hr]
  · intro hd
    cases hr : task.result <;>
      simp [DelayedTaskInfo.run_and_pop, DelayedTaskInfo.Run, hd, unique_ptr.release,
        unique_ptr.reset, unique_ptr.dtor, hr]
  · intro hd
    simp [DelayedTaskInfo.run_and_pop, DelayedTaskInfo.Run, hd]
  · cases hr : task.result <;>
      simp [run_task_message, unique_ptr.release, unique_ptr.reset, unique_ptr.dtor, hr]
  · intro q q1 hq
    obtain ⟨ran, e1, e2, _, e4⟩ := TaskQueueWin.RunDueTasks_some q q1 hq
    refine ⟨ran, e2, e4, ?_⟩
    rw [e1]
    show q.log ++ ran.flatMap DelayedTaskInfo.run_and_pop = _
    congr 1
    apply List.flatMap_congr
    intro e he
    rw [DelayedTaskInfo.run_and_pop_eq e (e4 e he)]
    cases e.task_.result <;> rfl

/-- Claim C6: each posted task is run at most once. From the initial queue,
after any sequence of actions, the number of times the log records `Run()` of
a task is at most the number of times that task was handed to the engine
(by `PostTask`, `PostDelayedTask` or a `WM_RUN_TASK` message). -/
theorem C6_each_posted_task_runs_at_most_once (clock : Int) (acts : List Action)
    (t : QueuedTask) :
    (runs ((TaskQueueWin.init clock).exec acts).log).count t ≤
      (acts.flatMap Action.tasks).count t := by
  have h := TaskQueueWin.exec_tally t acts (TaskQueueWin.init clock)
  have h0 : (TaskQueueWin.init clock).tally t = 0 := by
    simp [TaskQueueWin.tally, TaskQueueWin.held, TaskQueueWin.init, runs]
  simp only [TaskQueueWin.tally] at h h0
  omega

/-- Claim C7: `PostDelayedTask(task, 0)` is `PostTask(task)`. In every state
the two calls give the same state, also as steps of the system: the task is
appended to `pending_`, the event `in_queue_` is set, and `timer_tasks_`, the
message queue, the timers and the log are left as they were. -/
theorem C7_zero_delay_is_PostTask (q : TaskQueueWin) (task : QueuedTask) (posted : Bool) :
    q.PostDelayedTask task 0 posted = q.PostTask task ∧
      q.step (Action.PostDelayedTask task 0 posted) = q.step (Action.PostTask task) ∧
      (q.PostDelayedTask task 0 posted).pending_ = q.pending_ ++ [task] ∧
      (q.PostDelayedTask task 0 posted).in_queue_ = true ∧
      (q.PostDelayedTask task 0 posted).timer_tasks_ = q.timer_tasks_ ∧
      (q.PostDelayedTask task 0 posted).messages = q.messages ∧
      (q.PostDelayedTask task 0 posted).timer_ = q.timer_ ∧
      (q.PostDelayedTask task 0 posted).timer_id_ = q.timer_id_ ∧
      (q.PostDelayedTask task 0 posted).log = q.log := by
  have h : q.PostDelayedTask task 0 posted = q.PostTask task := by
    simp [TaskQueueWin.PostDelayedTask]
  refine ⟨h, ?_, ?_⟩
  · simp [TaskQueueWin.step, h]
  · rw [h]
    simp [TaskQueueWin.PostTask]

/-- Claim C8: the due time of a delayed entry. For a delay `d` with
`0 < d <= 2^32 - 1`, posted at a tick `t >= 0` with `t + d` in the range of
`int64_t`, `PostDelayedTask` posts a message whose entry has
`due_time_ = t + d` (no reduction modulo 2^32); and when the worker, at a
later tick, takes that message from the queue, exactly that entry is appended
to `timer_tasks_`. -/
theorem C8_due_time_is_tick_plus_delay (q : TaskQueueWin) (task : QueuedTask) (d : Nat)
    (hd0 : 0 < d) (hd : d ≤ 2 ^ 32 - 1) (hlo : 0 ≤ q.GetTick) (hhi : q.GetTick + d < 2 ^ 63) :
    q.PostDelayedTask task d true =
        { q with messages := q.messages ++
            [Msg.queue_delayed_task { due_time_ := q.GetTick + d, task_ := task }] } ∧
      ∀ (w : TaskQueueWin) (start : Int) (rest : List Msg) (mm_id user_id : Nat),
        w.phase = Phase.msg_loop start →
        w.messages = Msg.queue_delayed_task { due_time_ := q.GetTick + d, task_ := task } :: rest →
        q.GetTick ≤ w.GetTick → w.GetTick < 2 ^ 63 →
        (w.worker mm_id user_id).timer_tasks_ =
            w.timer_tasks_ ++ [{ due_time_ := q.GetTick + d, task_ := task }] ∧
          (w.worker mm_id user_id).messages = rest ∧
          (w.worker mm_id user_id).phase = Phase.msg_budget start := by
  have hdue : int64_add q.GetTick d = q.GetTick + d := by
    unfold int64_add
    exact wrap_int64_of_range _ (by omega) hhi
  constructor
  · have hd1 : d ≠ 0 := by omega
    simp [TaskQueueWin.PostDelayedTask, hd1, DelayedTaskInfo.create, hdue]
  · intro w start rest mm_id user_id hphase hmsgs hmono hw
    obtain ⟨wtimer, wheap, wid, wpending, winq, wuser, wmsgs, wclock, wphase, wlog⟩ := w
    simp only [TaskQueueWin.GetTick] at hlo hhi hmono hw hphase hmsgs ⊢
    subst hphase
    subst hmsgs
    have hfit : next_delay_ms { due_time_ := q.clock + d, task_ := task } wclock < 2 ^ 32 := by
      rw [next_delay_ms_eq _ _ (by simp only [DelayedTaskInfo.due_time]; omega)
        (by simp only [DelayedTaskInfo.due_time]; omega)]
      simp only [DelayedTaskInfo.due_time]
      exact max_lt (by norm_num) (by omega)
    have hsome : ∃ w1, TaskQueueWin.queue_delayed_task
        ⟨wtimer, wheap, wid, wpending, winq, wuser, rest, wclock, Phase.msg_loop start, wlog⟩
        { due_time_ := q.clock + d, task_ := task } mm_id user_id = some w1 := by
      by_cases hneed : (wheap.top = none ∨ ∃ top, wheap.top = some top ∧
          (DelayedTaskInfo.due_time { due_time_ := q.clock + d, task_ := task }) < top.due_time)
      · rw [TaskQueueWin.queue_delayed_task_reschedule
          ⟨wtimer, wheap, wid, wpending, winq, wuser, rest, wclock, Phase.msg_loop start, wlog⟩
          _ mm_id user_id hneed, if_pos hfit]
        exact ⟨_, rfl⟩
      · cases htop : wheap.top with
        | none => exact absurd (Or.inl htop) hneed
        | some top =>
          have hle : top.due_time ≤
              DelayedTaskInfo.due_time { due_time_ := q.clock + d, task_ := task } := by
            by_contra hcon
            exact hneed (Or.inr ⟨top, htop, lt_of_not_le hcon⟩)
          rw [TaskQueueWin.queue_delayed_task_keep
            ⟨wtimer, wheap, wid, wpending, winq, wuser, rest, wclock, Phase.msg_loop start, wlog⟩
            _ mm_id user_id top htop hle]
          exact ⟨_, rfl⟩
    obtain ⟨w1, hw1⟩ := hsome
    obtain ⟨_, h2, h3, _, _⟩ := TaskQueueWin.queue_delayed_task_some _ _ _ _ _ hw1
    simp only [TaskQueueWin.worker, TaskQueueWin.peek_message, hw1, TaskQueueWin.continue_at]
    exact ⟨h3, h2, trivial⟩

/-- Witness of C8: the largest delay, posted at tick 1000; the due time
exceeds 2^32. -/
theorem C8_witness :
    (0 < 4294967295 ∧ 4294967295 ≤ 2 ^ 32 - 1 ∧ 0 ≤ (TaskQueueWin.init 1000).GetTick ∧
      (TaskQueueWin.init 1000).GetTick + (4294967295 : Nat) < 2 ^ 63) ∧
    (TaskQueueWin.init 1000).PostDelayedTask { id := 1, result := true } 4294967295 true =
      { TaskQueueWin.init 1000 with
        messages := [Msg.queue_delayed_task
          { due_time_ := 4294968295, task_ := { id := 1, result := true } }] } :=
  ⟨⟨by decide, by decide, by decide, by decide⟩,
    (C8_due_time_is_tick_plus_delay (TaskQueueWin.init 1000) { id := 1, result := true }
      4294967295 (by decide) (by decide) (by decide) (by decide)).1⟩

/-- Claim C9: when a queued delayed entry is handled, the timers are
cancelled and a new one is started if and only if the queue was empty or the
new entry is due strictly earlier than the old top. In that case the new
entry is the top of the queue, the event is reset, no other timer is left
outstanding, and the timer started (the multimedia timer, or the `SetTimer`
timer when `timeSetEvent` fails) has the delay `max(0, due_time - now)` of the
new entry. Otherwise the entry is inserted and the timers are untouched.
Stated for a state whose outstanding timers are the ones it holds the
identifiers of, and a due time whose distance from `now` fits the cast. -/
theorem C9_timers_rescheduled_iff_new_entry_earliest (q : TaskQueueWin) (info : DelayedTaskInfo)
    (mm_id user_id : Nat) (hc : q.timers_consistent = true)
    (hlo : -2 ^ 63 ≤ info.due_time - q.GetTick) (hhi : info.due_time - q.GetTick < 2 ^ 32) :
    ((q.timer_tasks_.top = none ∨
        ∃ top, q.timer_tasks_.top = some top ∧ info.due_time < top.due_time) →
      ∃ delay : Nat, (delay : Int) = max 0 (info.due_time - q.GetTick) ∧
        DueTimeHeap.top (q.timer_tasks_ ++ [info]) = some info ∧
        q.queue_delayed_task info mm_id user_id =
          some { q with
            timer_tasks_ := q.timer_tasks_ ++ [info],
            timer_ := { event_ := false, timer_id_ := mm_id,
                        os_timer := if mm_id ≠ 0 then some ⟨mm_id, delay, q.GetTick⟩ else none },
            timer_id_ := if mm_id ≠ 0 then 0 else user_id,
            user_timer := if mm_id = 0 ∧ user_id ≠ 0 then some ⟨user_id, delay, q.GetTick⟩
                          else none }) ∧
    (¬ (q.timer_tasks_.top = none ∨
        ∃ top, q.timer_tasks_.top = some top ∧ info.due_time < top.due_time) →
      q.queue_delayed_task info mm_id user_id =
        some { q with timer_tasks_ := q.timer_tasks_ ++ [info] }) := by
  have hd := next_delay_ms_eq info q.GetTick hlo (by omega)
  have hfit : next_delay_ms info q.clock < 2 ^ 32 := by
    have : next_delay_ms info q.clock = max 0 (info.due_time - q.clock) := hd
    rw [this]
    exact max_lt (by norm_num) hhi
  constructor
  · intro hneed
    refine ⟨(next_delay_ms info q.clock).toNat, ?_, DueTimeHeap.top_emplace_earlier _ _ hneed, ?_⟩
    · rw [Int.toNat_of_nonneg (next_delay_ms_nonneg _ _)]; exact hd
    · rw [TaskQueueWin.queue_delayed_task_reschedule q info mm_id user_id hneed, if_pos hfit,
        TaskQueueWin.CancelTimers_consistent q hc]
      by_cases hmm : mm_id = 0
      · subst hmm
        by_cases hu : user_id = 0
        · subst hu; simp [TaskQueueWin.GetTick]
        · simp [TaskQueueWin.GetTick, hu]
      · simp [TaskQueueWin.GetTick, hmm]
  · intro hno
    cases htop : q.timer_tasks_.top with
    | none => exact absurd (Or.inl htop) hno
    | some top =>
      have hle : top.due_time ≤ info.due_time := by
        by_contra hcon
        exact hno (Or.inr ⟨top, htop, lt_of_not_le hcon⟩)
      exact TaskQueueWin.queue_delayed_task_keep q info mm_id user_id top htop hle

/-- Witness of C9: an entry due at 60 arrives at tick 30 while the queue holds
an entry due at 100 and a timer for it; the timer is replaced by one of 30 ms. -/
theorem C9_witness :
    (sample_queue.timers_consistent = true ∧
      -2 ^ 63 ≤ sample_earlier.due_time - sample_queue.GetTick ∧
      sample_earlier.due_time - sample_queue.GetTick < 2 ^ 32 ∧
      (sample_queue.timer_tasks_.top = none ∨
        ∃ top, sample_queue.timer_tasks_.top = some top ∧
          sample_earlier.due_time < top.due_time)) ∧
    ∃ delay : Nat, (delay : Int) = max 0 (sample_earlier.due_time - sample_queue.GetTick) ∧
      DueTimeHeap.top (sample_queue.timer_tasks_ ++ [sample_earlier]) = some sample_earlier ∧
      sample_queue.queue_delayed_task sample_earlier 8 0 =
        some { sample_queue with
          timer_tasks_ := sample_queue.timer_tasks_ ++ [sample_earlier],
          timer_ := { event_ := false, timer_id_ := 8,
                      os_timer := if 8 ≠ 0 then some ⟨8, delay, sample_queue.GetTick⟩ else none },
          timer_id_ := if 8 ≠ 0 then 0 else 0,
          user_timer := if 8 = 0 ∧ 0 ≠ 0 then some ⟨0, delay, sample_queue.GetTick⟩
                        else none } :=
  ⟨⟨by decide, by decide, by decide, Or.inr ⟨_, rfl, by decide⟩⟩,
    (C9_timers_rescheduled_iff_new_entry_earliest sample_queue sample_earlier 8 0 (by decide)
      (by decide) (by decide)).1 (Or.inr ⟨_, rfl, by decide⟩)⟩

/-- Claim C10: the delay `ScheduleNextTimer` programs. With an empty queue it
starts no timer (the state is returned unchanged, or the check on `timer_id_`
fails). Otherwise, with `m` the top entry: `m` has the minimum due time; the
delay computed is never negative; when the subtraction does not overflow
`int64_t` it is `max(0, m - now)`, hence 0 for an overdue minimum; and with no
timer identifier held, the timer started (the multimedia timer, or the
`SetTimer` timer when `timeSetEvent` fails) is started with exactly that
delay, provided it passes the checked cast to 32 bits. -/
theorem C10_next_timer_delay (q : TaskQueueWin) (mm_id user_id : Nat) :
    (q.timer_tasks_ = [] →
      q.ScheduleNextTimer mm_id user_id = if q.timer_id_ ≠ 0 then none else some q) ∧
    (∀ m, q.timer_tasks_.top = some m →
      (∀ e ∈ q.timer_tasks_, m.due_time ≤ e.due_time) ∧
      0 ≤ next_delay_ms m q.GetTick ∧
      (-2 ^ 63 ≤ m.due_time - q.GetTick → m.due_time - q.GetTick < 2 ^ 63 →
        next_delay_ms m q.GetTick = max 0 (m.due_time - q.GetTick) ∧
        (m.due_time ≤ q.GetTick → next_delay_ms m q.GetTick = 0)) ∧
      (q.timer_id_ = 0 → q.timer_.timer_id_ = 0 →
        q.ScheduleNextTimer mm_id user_id =
          if next_delay_ms m q.GetTick < 2 ^ 32 then
            some (if mm_id ≠ 0 then
              { q with timer_ := { q.timer_ with
                  timer_id_ := mm_id,
                  os_timer := some ⟨mm_id, (next_delay_ms m q.GetTick).toNat, q.GetTick⟩ } }
            else
              { q with timer_ := { q.timer_ with timer_id_ := 0 },
                       timer_id_ := user_id,
                       user_timer := if user_id ≠ 0 then
                         some ⟨user_id, (next_delay_ms m q.GetTick).toNat, q.GetTick⟩
                         else q.user_timer })
          else none)) := by
  refine ⟨?_, ?_⟩
  · intro hnil
    simp [TaskQueueWin.ScheduleNextTimer, hnil, DueTimeHeap.top]
  · intro m htop
    refine ⟨DueTimeHeap.top_le _ _ htop, next_delay_ms_nonneg _ _, ?_, ?_⟩
    · intro hlo hhi
      have h := next_delay_ms_eq m q.GetTick hlo hhi
      refine ⟨h, ?_⟩
      intro hdue
      rw [h]
      exact max_eq_left (by omega)
    · intro h0 h1
      exact TaskQueueWin.ScheduleNextTimer_top q mm_id user_id m htop h0 h1

/-- Witness of C10: at tick 30 the top entry is due at 100; the multimedia
timer is started with a delay of 70 ms. -/
theorem C10_witness :
    (sample_unscheduled.timer_tasks_.top =
        some { due_time_ := 100, task_ := { id := 1, result := true } } ∧
      sample_unscheduled.timer_id_ = 0 ∧ sample_unscheduled.timer_.timer_id_ = 0) ∧
    sample_unscheduled.ScheduleNextTimer 7 0 =
      some { sample_unscheduled with
        timer_ := { event_ := false, timer_id_ := 7, os_timer := some ⟨7, 70, 30⟩ } } := by
  refine ⟨⟨rfl, rfl, rfl⟩, ?_⟩
  have h := ((C10_next_timer_delay sample_unscheduled 7 0).2
    { due_time_ := 100, task_ := { id := 1, result := true } } rfl).2.2.2 rfl rfl
  rw [h]
  decide

/-- Claim C14: no immediate task is lost to a missed wake-up. From the
initial queue, after any interleaving of posts (each pushes and sets the event
under the lock) with the steps of the worker (which resets the event and then
drains, popping under the lock) and with everything else, whenever the worker
is blocked in its wait and `pending_` is not empty, the event `in_queue_` is
signalled, so that the wait can return `WAIT_OBJECT_0 + 1`. -/
theorem C14_no_missed_wake_up (clock : Int) (acts : List Action) :
    ((TaskQueueWin.init clock).exec acts).phase = Phase.wait →
      ((TaskQueueWin.init clock).exec acts).pending_ ≠ [] →
      ((TaskQueueWin.init clock).exec acts).in_queue_ = true ∧
        ((TaskQueueWin.init clock).exec acts).signalled WaitResult.object_1 = true := by
  intro hw hp
  have h := TaskQueueWin.exec_no_missed_wake acts (TaskQueueWin.init clock) rfl
  rw [TaskQueueWin.no_missed_wake_iff] at h
  rcases h with h | h | h | h
  · exact absurd h hp
  · exact ⟨h, h⟩
  · rw [hw] at h; cases h
  · rw [hw] at h; cases h


/-- Witness of C14: a task posted while the worker is blocked. -/
theorem C14_witness :
    (((TaskQueueWin.init 0).exec [Action.PostTask { id := 1, result := true }]).phase =
        Phase.wait ∧
      ((TaskQueueWin.init 0).exec [Action.PostTask { id := 1, result := true }]).pending_ ≠ []) ∧
    (((TaskQueueWin.init 0).exec [Action.PostTask { id := 1, result := true }]).in_queue_ = true ∧
      ((TaskQueueWin.init 0).exec [Action.PostTask { id := 1, result := true }]).signalled
        WaitResult.object_1 = true) :=
  ⟨⟨by decide, by decide⟩,
    C14_no_missed_wake_up 0 [Action.PostTask { id := 1, result := true }] (by decide) (by decide)⟩

/-- C15: `ProcessQueuedMessages` takes a front part of the message queue and
returns false exactly when the last message it took is the quit message, the
message numbered `WM_QUIT` (with a null window or for a window: the loop
tests the number before the window); no quit message is among the messages
taken before the last one, so nothing is handled after it; with a handling
for every queued message the method returns unless a check in a handler
fails. In the run loop, the worker step that takes the quit message leaves
the loop at once without running anything, and no later step runs a task. -/
theorem C15_quit_message_ends_the_loop (q : TaskQueueWin) (hs : List Handling) :
    (∀ m : Msg, m.not_quit = false ↔ (m = Msg.quit ∨ m = Msg.window WM_QUIT)) ∧
    (∀ q1 r, q.ProcessQueuedMessages hs = some (q1, r) →
      ∃ taken : List Msg, q.messages = taken ++ q1.messages ∧
        (∀ m ∈ taken.dropLast, m.not_quit = true) ∧
        (r = false ↔ ∃ m, taken.getLast? = some m ∧ m.not_quit = false)) ∧
    (q.messages.length ≤ hs.length →
      (q.ProcessQueuedMessages hs).isSome = true ∨
        ∃ (m : Msg) (q0 : TaskQueueWin) (h : Handling) (before : List Msg),
          q.messages = before ++ m :: q0.messages ∧ m.not_quit = true ∧ h ∈ hs ∧
            q0.handle_message m h = none) ∧
    (∀ start m rest mm_id user_id, q.phase = Phase.msg_loop start →
      q.messages = m :: rest → m.not_quit = false →
      q.step (Action.worker mm_id user_id) = { q with messages := rest, phase := Phase.stopped } ∧
      ∀ acts, runs ((q.step (Action.worker mm_id user_id)).exec acts).log = runs q.log ∧
        (((q.step (Action.worker mm_id user_id)).exec acts).phase = Phase.stopped ∨
          ((q.step (Action.worker mm_id user_id)).exec acts).phase = Phase.failed)) := by
  have hquit : ∀ m : Msg, m.not_quit = false ↔ (m = Msg.quit ∨ m = Msg.window WM_QUIT) := by
    intro m
    cases m <;> simp [Msg.not_quit]
  refine ⟨hquit, ?_, ?_, ?_⟩
  · intro q1 r hrun
    obtain ⟨taken, h1, h2, h3⟩ :=
      TaskQueueWin.ProcessQueuedMessages_loop_spec _ _ _ _ _ _ hrun
    refine ⟨taken, h1, h2, ?_⟩
    rw [h3]
    cases hl : taken.getLast? with
    | none => simp [Msg.not_quit]
    | some m => simp
  · intro hl
    exact TaskQueueWin.ProcessQueuedMessages_loop_total _ _ _ _ hl
  · intro start m rest mm_id user_id hp hm hq
    have hnf : q.phase ≠ Phase.failed := by rw [hp]; exact fun hc => by cases hc
    have hstep : q.step (Action.worker mm_id user_id) =
        { q with messages := rest, phase := Phase.stopped } := by
      rw [TaskQueueWin.step_worker q _ _ hnf, TaskQueueWin.worker_msg_loop q start _ _ hp]
      rcases (hquit m).mp hq with hq1 | hq1
      · subst hq1
        simp only [TaskQueueWin.peek_message, hm]
      · subst hq1
        simp only [TaskQueueWin.peek_message, hm, if_true]
    refine ⟨hstep, fun acts => ?_⟩
    rw [hstep]
    obtain ⟨h1, h2⟩ := TaskQueueWin.exec_after_stop acts
      { q with messages := rest, phase := Phase.stopped } (Or.inl rfl)
    exact ⟨h2, h1⟩

/-- The claim C15 at a queue that holds the message numbered `WM_QUIT` for a
window as its third message: the method takes three messages, returns false
and leaves the fourth message queued; the worker step that takes such a
message stops the loop. -/
theorem C15_witness :
    quit_sample.ProcessQueuedMessages [⟨1, 0, 0⟩, ⟨1, 0, 0⟩] =
      some ({ quit_sample with
        messages := [Msg.run_task { id := 2, result := true }], clock := 2,
        log := [Event.run Path.message { id := 1, result := true },
                Event.destroy { id := 1, result := true }] }, false) ∧
    (∃ taken : List Msg,
      quit_sample.messages =
        taken ++ [Msg.run_task { id := 2, result := true }] ∧
        (∀ m ∈ taken.dropLast, m.not_quit = true) ∧
        (false = false ↔ ∃ m, taken.getLast? = some m ∧ m.not_quit = false)) ∧
    runs (({ quit_sample with messages := [Msg.window WM_QUIT] }).step
      (Action.worker 0 0)).log = [] :=
  ⟨by decide,
    (C15_quit_message_ends_the_loop quit_sample [⟨1, 0, 0⟩, ⟨1, 0, 0⟩]).2.1
      { quit_sample with
        messages := [Msg.run_task { id := 2, result := true }], clock := 2,
        log := [Event.run Path.message { id := 1, result := true },
                Event.destroy { id := 1, result := true }] } false (by decide),
    (((C15_quit_message_ends_the_loop
        { quit_sample with messages := [Msg.window WM_QUIT] } []).2.2.2
      0 (Msg.window WM_QUIT) [] 0 0 rfl rfl rfl).2 []).1⟩

/-- C16: `Delete` evaluates `RTC_DCHECK(!IsCurrent())` first: called on the
worker thread it fails before `PostThreadMessage` is reached, whatever that
call would have answered, and the message queue gets no `WM_QUIT`. -/
theorem C16_Delete_on_worker_thread_fails (q : TaskQueueWin) (errors : List Nat) :
    q.Delete true errors = none ∧
      q.step (Action.Delete true) = q.fail ∧
      (q.step (Action.Delete true)).messages = q.messages ∧
      q.Delete false [] = some { q with messages := q.messages ++ [Msg.quit] } := by
  have h1 : q.Delete true errors = none := by simp [TaskQueueWin.Delete]
  have h2 : q.step (Action.Delete true) = q.fail := by
    unfold TaskQueueWin.step
    split
    · next hf =>
      obtain ⟨a, b, c, d, e, f, g, h, p, l⟩ := q
      simp only at hf
      subst hf
      rfl
    · simp [TaskQueueWin.Delete]
  refine ⟨h1, h2, ?_, ?_⟩
  · rw [h2]; rfl
  · simp [TaskQueueWin.Delete, TaskQueueWin.post_quit]

/-- C17: when `Delete`, called from another thread, has posted `WM_QUIT` and
its join of the worker thread returns after the steps `acts`, the worker has
left its loop, and whatever happens later runs no task. -/
theorem C17_no_task_runs_after_Delete (q q0 q1 : TaskQueueWin) (errors : List Nat)
    (acts later : List Action) (hd : q.Delete false errors = some q0)
    (hs : (q0.exec acts).Stop = some q1) :
    q0 = { q with messages := q.messages ++ [Msg.quit] } ∧
      q1 = q0.exec acts ∧ q1.phase = Phase.stopped ∧
      runs (q1.exec later).log = runs q1.log ∧
      ((q1.exec later).phase = Phase.stopped ∨ (q1.exec later).phase = Phase.failed) := by
  have h0 : q0 = { q with messages := q.messages ++ [Msg.quit] } := by
    unfold TaskQueueWin.Delete at hd
    exact TaskQueueWin.post_quit_some q q0 errors (by simpa using hd)
  unfold TaskQueueWin.Stop at hs
  split at hs
  · next hp =>
    cases hs
    obtain ⟨h1, h2⟩ := TaskQueueWin.exec_after_stop later _ (Or.inl hp)
    exact ⟨h0, rfl, hp, h2, h1⟩
  · cases hs

/-- The claim C17 at an execution in which the worker drains its queue, then
takes `WM_QUIT`; the delayed task posted before never runs. -/
theorem C17_witness :
    ((TaskQueueWin.init 0).exec delete_sample).phase = Phase.stopped ∧
      runs (((TaskQueueWin.init 0).exec delete_sample).exec
        [Action.tick 100, Action.worker 0 0, Action.PostTask { id := 3, result := true }]).log =
        [{ id := 2, result := true }] := by
  have h := C17_no_task_runs_after_Delete
    ((TaskQueueWin.init 0).exec (delete_sample.take 2))
    ((TaskQueueWin.init 0).exec (delete_sample.take 3))
    ((TaskQueueWin.init 0).exec delete_sample) []
    (delete_sample.drop 3)
    [Action.tick 100, Action.worker 0 0, Action.PostTask { id := 3, result := true }]
    (by decide) (by decide)
  exact ⟨h.2.2.1, h.2.2.2.1.trans (by decide)⟩

/-- C19, as stated, fails: `PostThreadMessage` fails, the call returns a state
like any other (no failure reaches the caller, the process goes on), and the
task has been destroyed without having run. -/
theorem C19_failed_post_discards_the_task :
    ((TaskQueueWin.init 0).step (Action.PostDelayedTask { id := 1, result := true } 5 false)) =
      { TaskQueueWin.init 0 with log := [Event.destroy { id := 1, result := true }] } ∧
    ((TaskQueueWin.init 0).step
      (Action.PostDelayedTask { id := 1, result := true } 5 false)).phase ≠ Phase.failed ∧
    ((TaskQueueWin.init 0).step
      (Action.PostDelayedTask { id := 1, result := true } 5 false)).held = [] := by
  decide

/-- C19 amended: when `PostThreadMessage` fails in `PostDelayedTask` with a
delay other than 0, the call returns normally; its only effect is that the
task is destroyed: nothing is queued, and the worker goes on as before. -/
theorem C19_failed_post_destroys_the_task (q : TaskQueueWin) (task : QueuedTask)
    (milliseconds : Nat) (h : milliseconds ≠ 0) :
    q.PostDelayedTask task milliseconds false =
      { q with log := q.log ++ [Event.destroy task] } ∧
    runs (q.PostDelayedTask task milliseconds false).log = runs q.log := by
  refine ⟨?_, TaskQueueWin.PostDelayedTask_runs q task milliseconds false⟩
  simp [TaskQueueWin.PostDelayedTask, h, unique_ptr.dtor, DelayedTaskInfo.create]

/-- The amended claim C19 at a delay of 5 ms. -/
theorem C19_witness :
    (TaskQueueWin.init 0).PostDelayedTask { id := 1, result := true } 5 false =
      { TaskQueueWin.init 0 with log := [Event.destroy { id := 1, result := true }] } :=
  (C19_failed_post_destroys_the_task (TaskQueueWin.init 0) { id := 1, result := true } 5
    (by decide)).1

/-- C20: `PostTask` appends the task at the back of `pending_`, keeps the tasks
already queued in front of it in their order, sets the event `in_queue_`, and
leaves the delayed heap, both timers and everything else as they were. -/
theorem C20_PostTask_frame (q : TaskQueueWin) (task : QueuedTask) :
    (q.PostTask task).pending_ = q.pending_ ++ [task] ∧
      q.pending_ <+: (q.PostTask task).pending_ ∧
      (q.PostTask task).in_queue_ = true ∧
      (q.PostTask task).timer_tasks_ = q.timer_tasks_ ∧
      (q.PostTask task).timer_ = q.timer_ ∧
      (q.PostTask task).timer_id_ = q.timer_id_ ∧
      (q.PostTask task).user_timer = q.user_timer ∧
      (q.PostTask task).messages = q.messages ∧
      (q.PostTask task).clock = q.clock ∧
      (q.PostTask task).phase = q.phase ∧
      (q.PostTask task).log = q.log :=
  ⟨rfl, List.prefix_append _ _, rfl, rfl, rfl, rfl, rfl, rfl, rfl, rfl, rfl⟩

/-- C13 fails on the code: with 1000 immediate tasks of 1 ms each posted to the
idle queue and then one delayed task due in 50 ms, the single drain pass runs
all 1000 immediate tasks; at its end the clock is at 1000, the pass is still
in `RunPendingTasks`, and the delayed entry has not even been taken from the
message queue. `RunPendingTasks` itself stops only on an empty queue. -/
theorem C13_drain_pass_has_no_time_budget :
    (TaskQueueWin.init 0).enabled_all (flood (flood_tasks 1000)) = true ∧
    runs ((TaskQueueWin.init 0).exec (flood (flood_tasks 1000))).log = flood_tasks 1000 ∧
    ((TaskQueueWin.init 0).exec (flood (flood_tasks 1000))).clock = 1000 ∧
    ((TaskQueueWin.init 0).exec (flood (flood_tasks 1000))).phase = Phase.drain ∧
    ((TaskQueueWin.init 0).exec (flood (flood_tasks 1000))).messages =
      [Msg.queue_delayed_task { due_time_ := 50, task_ := flood_delayed }] ∧
    flood_delayed ∉ runs ((TaskQueueWin.init 0).exec (flood (flood_tasks 1000))).log ∧
    (∀ q : TaskQueueWin, q.RunPendingTasks =
      some { q with pending_ := [], log := q.log ++ q.pending_.flatMap run_pending_task }) := by
  have hne : flood_tasks 1000 ≠ [] := by simp [flood_tasks]
  have hlen : (flood_tasks 1000).length = 1000 := by simp [flood_tasks]
  obtain ⟨h1, h2⟩ := TaskQueueWin.exec_flood (flood_tasks 1000) hne
  have hruns : runs ((TaskQueueWin.init 0).exec (flood (flood_tasks 1000))).log =
      flood_tasks 1000 := by
    rw [h2]
    exact runs_pending_tasks _
  refine ⟨h1, hruns, ?_, ?_, ?_, ?_, TaskQueueWin.RunPendingTasks_spec⟩
  · rw [h2]
    simp only [hlen]
    rfl
  · rw [h2]
  · rw [h2]
  · rw [hruns]
    simp [flood_tasks, flood_delayed]

/-- C18 fails on the code: the value `SetTimer` returns is stored unchecked.
With an entry due at tick 100 in the heap at tick 30, when `timeSetEvent` and
`SetTimer` both fail, `ScheduleNextTimer` returns with no timer outstanding
(the state is unchanged), and from then on the worker and the operating
system alone never run the entry, however much time passes. When `SetTimer`
succeeds the fallback timer is started for the same delay of 70 ms. -/
theorem C18_wake_lost_when_both_timers_fail :
    sample_unscheduled.ScheduleNextTimer 0 0 = some sample_unscheduled ∧
    sample_unscheduled.stranded = true ∧
    (∀ acts : List Action,
      runs (sample_unscheduled.exec (acts.filter Action.internal)).log = [] ∧
        (sample_unscheduled.exec (acts.filter Action.internal)).timer_tasks_ =
          [{ due_time_ := 100, task_ := { id := 1, result := true } }]) ∧
    sample_unscheduled.ScheduleNextTimer 0 9 =
      some { sample_unscheduled with timer_id_ := 9, user_timer := some ⟨9, 70, 30⟩ } := by
  refine ⟨by decide, by decide, fun acts => ?_, by decide⟩
  obtain ⟨_, h2, h3⟩ := TaskQueueWin.exec_stranded acts sample_unscheduled (by decide)
  rw [h2, h3]
  exact ⟨rfl, rfl⟩

/-- C12 amended: one thread posts `A` with a delay of 100 ms, then `B` with a
delay of 10 ms, then `C` with delay 0 onto an idle queue at tick `c`; between
and after the posts the worker and the operating system take any steps. When
no check fails and the worker keeps up (`C` has run by tick `c + 10`, and no
delayed entry is left in the message queue by tick `c + 100`), the tasks that
have run are a front part of `C, B, A`: they run in this order. -/
theorem C12_three_posts_run_in_order_C_B_A (c : Int) (A B C : QueuedTask) (i1 i2 i3 : List Action)
    (hc0 : 0 ≤ c) (hc1 : c < 2 ^ 62)
    (h1 : i1.all Action.internal = true) (h2 : i2.all Action.internal = true)
    (h3 : i3.all Action.internal = true)
    (hfin : ((TaskQueueWin.init c).exec (three_posts A B C i1 i2 i3)).phase ≠ Phase.failed)
    (ht : (TaskQueueWin.init c).always (TaskQueueWin.timely c C)
      (three_posts A B C i1 i2 i3) = true) :
    runs ((TaskQueueWin.init c).exec (three_posts A B C i1 i2 i3)).log <+: [C, B, A] := by
  unfold three_posts at hfin ht ⊢
  rw [TaskQueueWin.exec_cons] at hfin ⊢
  simp only [TaskQueueWin.always, Bool.and_eq_true] at ht
  obtain ⟨_, ht⟩ := ht
  have hcreate : ∀ (t : Int) (X : QueuedTask) (ms : Nat), 0 ≤ t → t < 2 ^ 62 + 10 → ms ≤ 100 →
      DelayedTaskInfo.create t ms X = { due_time_ := t + ms, task_ := X } := by
    intro t X ms g1 g2 g3
    unfold DelayedTaskInfo.create int64_add
    rw [wrap_int64_of_range _ (by omega) (by omega)]
  have hpost : ∀ (q : TaskQueueWin) (X : QueuedTask) (ms : Nat), q.phase ≠ Phase.failed →
      ms % 2 ^ 32 ≠ 0 →
      q.step (Action.PostDelayedTask X ms true) =
        { q with messages := q.messages ++
            [Msg.queue_delayed_task (DelayedTaskInfo.create q.clock (ms % 2 ^ 32) X)] } := by
    intro q X ms g1 g2
    simp only [TaskQueueWin.step, if_neg g1, TaskQueueWin.PostDelayedTask, if_neg g2, if_true,
      TaskQueueWin.GetTick]
  have e100 : 100 % 2 ^ 32 = 100 := by norm_num
  have e10 : 10 % 2 ^ 32 = 10 := by norm_num
  -- the first post
  have hq1 : (TaskQueueWin.init c).step (Action.PostDelayedTask A 100 true) =
      { TaskQueueWin.init c with
        messages := [Msg.queue_delayed_task { due_time_ := c + 100, task_ := A }] } := by
    rw [hpost _ _ _ (fun hc => by cases hc) (by norm_num), e100]
    have := hcreate c A 100 hc0 (by omega) (le_refl _)
    simp only [TaskQueueWin.init, List.nil_append, this]
    rfl
  rw [hq1] at hfin ht ⊢
  generalize hq1d : ({ TaskQueueWin.init c with
    messages := [Msg.queue_delayed_task { due_time_ := c + 100, task_ := A }] } :
      TaskQueueWin) = q1 at hfin ht ⊢
  have inv1 : q1.ordered C { due_time_ := c + 100, task_ := A } { due_time_ := c + 10, task_ := B }
      [{ due_time_ := c + 100, task_ := A }] [] [] := by
    rw [← hq1d]
    refine ⟨rfl, rfl, List.Perm.refl _, List.nil_prefix, fun h => absurd rfl h, ?_⟩
    intro m hm
    simp only [TaskQueueWin.init, List.mem_singleton] at hm
    rw [hm]; rfl
  have hclock1 : q1.clock = c := by rw [← hq1d]; rfl
  -- up to the second post
  rw [TaskQueueWin.exec_append, TaskQueueWin.exec_cons] at hfin ⊢
  obtain ⟨ht1, ht⟩ := TaskQueueWin.always_append _ _ _ _ ht
  simp only [TaskQueueWin.always, Bool.and_eq_true] at ht
  obtain ⟨htq2, ht⟩ := ht
  obtain ⟨r2, inv2⟩ := TaskQueueWin.exec_ordered c C { due_time_ := c + 100, task_ := A }
    { due_time_ := c + 10, task_ := B } [{ due_time_ := c + 100, task_ := A }] [] rfl
    (le_refl _) (by show c + 10 < c + 100; omega) (by simp) (by simp) (Or.inl rfl) i1 q1 [] h1
    ht1 inv1
  generalize hq2d : q1.exec i1 = q2 at hfin ht htq2 inv2 ⊢
  have hq2nf : q2.phase ≠ Phase.failed :=
    TaskQueueWin.exec_not_failed q2 (Action.PostDelayedTask B 10 true :: (i2 ++ Action.PostTask C :: i3)) hfin
  obtain ⟨hr2, hruns2, hpr2, hpend2⟩ := TaskQueueWin.ordered_nil _ _ _ _ _ _ inv2
  subst hr2
  have hclock2a : c ≤ q2.clock := by
    rw [← hq2d, ← hclock1]
    exact TaskQueueWin.exec_clock i1 q1
  have hclock2b : q2.clock < c + 10 := by
    simp only [TaskQueueWin.timely, Bool.and_eq_true, Bool.or_eq_true, decide_eq_true_eq,
      hruns2, List.not_mem_nil, or_false] at htq2
    exact htq2.1
  -- the second post
  have hq3 : q2.step (Action.PostDelayedTask B 10 true) =
      { q2 with messages := q2.messages ++
          [Msg.queue_delayed_task { due_time_ := q2.clock + 10, task_ := B }] } := by
    rw [hpost _ _ _ hq2nf (by norm_num), e10]
    have := hcreate q2.clock B 10 (by omega) (by omega) (by omega)
    simp only [this]
    rfl
  rw [hq3] at hfin ht ⊢
  have inv3 : TaskQueueWin.ordered
      { q2 with messages := q2.messages ++
          [Msg.queue_delayed_task { due_time_ := q2.clock + 10, task_ := B }] }
      C { due_time_ := c + 100, task_ := A } { due_time_ := q2.clock + 10, task_ := B }
      [{ due_time_ := c + 100, task_ := A }, { due_time_ := q2.clock + 10, task_ := B }] [] [] := by
    obtain ⟨j1, j2, j3, _, _, j6⟩ := inv2
    refine ⟨j1, j2, ?_, List.nil_prefix, fun h => absurd rfl h, ?_⟩
    · simp only [List.nil_append, List.flatMap_append, List.flatMap_cons, List.flatMap_nil,
        Msg.entries, List.append_nil] at j3 ⊢
      rw [← List.append_assoc]
      exact j3.append_right _
    · intro m hm
      simp only [List.mem_append, List.mem_singleton] at hm
      rcases hm with hm | hm
      · exact j6 m hm
      · rw [hm]; rfl
  generalize hq3d : ({ q2 with messages := q2.messages ++
      [Msg.queue_delayed_task { due_time_ := q2.clock + 10, task_ := B }] } : TaskQueueWin) = q3
    at hfin ht inv3 ⊢
  have hSab : ∀ e ∈ [({ due_time_ := c + 100, task_ := A } : DelayedTaskInfo),
      { due_time_ := q2.clock + 10, task_ := B }],
      e = { due_time_ := c + 100, task_ := A } ∨ e = { due_time_ := q2.clock + 10, task_ := B } := by
    intro e he
    simpa using he
  have hndab : [({ due_time_ := c + 100, task_ := A } : DelayedTaskInfo),
      { due_time_ := q2.clock + 10, task_ := B }].Nodup := by
    simp only [List.nodup_cons, List.mem_singleton, DelayedTaskInfo.mk.injEq, not_and,
      List.not_mem_nil, not_false_eq_true, List.nodup_nil, and_true]
    intro h
    omega
  -- up to the third post
  rw [TaskQueueWin.exec_append, TaskQueueWin.exec_cons] at hfin ⊢
  obtain ⟨ht3, ht⟩ := TaskQueueWin.always_append _ _ _ _ ht
  simp only [TaskQueueWin.always, Bool.and_eq_true] at ht
  obtain ⟨_, ht⟩ := ht
  obtain ⟨r4, inv4⟩ := TaskQueueWin.exec_ordered c C { due_time_ := c + 100, task_ := A }
    { due_time_ := q2.clock + 10, task_ := B } _ [] rfl
    (by show c + 10 ≤ q2.clock + 10; omega) (by show q2.clock + 10 < c + 100; omega) hSab hndab
    (Or.inl rfl) i2 q3 [] h2 ht3 inv3
  generalize hq4d : q3.exec i2 = q4 at hfin ht inv4 ⊢
  have hq4nf : q4.phase ≠ Phase.failed :=
    TaskQueueWin.exec_not_failed q4 (Action.PostTask C :: i3) hfin
  obtain ⟨hr4, hruns4, hpr4, hpend4⟩ := TaskQueueWin.ordered_nil _ _ _ _ _ _ inv4
  subst hr4
  -- the third post
  have hq5 : q4.step (Action.PostTask C) = q4.PostTask C := by
    simp only [TaskQueueWin.step, if_neg hq4nf]
  rw [hq5] at hfin ht ⊢
  have inv5 : (q4.PostTask C).ordered C { due_time_ := c + 100, task_ := A }
      { due_time_ := q2.clock + 10, task_ := B }
      [{ due_time_ := c + 100, task_ := A }, { due_time_ := q2.clock + 10, task_ := B }] [C]
      [] := by
    obtain ⟨j1, j2, j3, _, _, j6⟩ := inv4
    refine ⟨j1, ?_, j3, List.nil_prefix, fun h => absurd rfl h, j6⟩
    show runs_on Path.pending q4.log ++ (q4.pending_ ++ [C]) = [C]
    rw [hpr4, hpend4]
    rfl
  obtain ⟨rf, invf⟩ := TaskQueueWin.exec_ordered c C { due_time_ := c + 100, task_ := A }
    { due_time_ := q2.clock + 10, task_ := B } _ [C] rfl
    (by show c + 10 ≤ q2.clock + 10; omega) (by show q2.clock + 10 < c + 100; omega) hSab hndab
    (Or.inr ⟨rfl, by simp⟩) i3 (q4.PostTask C) [] h3 ht inv5
  -- the order of the runs
  obtain ⟨f1, f2, _, f4, f5, _⟩ := invf
  rw [f1]
  by_cases hrf : rf = []
  · rw [hrf, List.map_nil, List.append_nil]
    exact List.IsPrefix.trans ⟨_, f2⟩ ⟨[B, A], rfl⟩
  · rw [f5 hrf]
    have := List.IsPrefix.map DelayedTaskInfo.task_ f4
    exact (List.prefix_append_right_inj [C]).mpr this

/-- C12, as stated, fails: two executions of the scenario in which every
action is enabled and the wait returns the lowest signalled index. In the
first the worker is held up for 10 ms inside `ProcessQueuedMessages` and the
order of the runs is `B, C, A`; in the second it is held up for 600 ms while
it handles the message of `A` and the order is `C, A, B`. -/
theorem C12_three_posts_run_in_another_order :
    (TaskQueueWin.init 0).enabled_all three_posts_late = true ∧
      three_posts_late.flatMap Action.tasks = [order_A, order_B, order_C] ∧
      runs ((TaskQueueWin.init 0).exec three_posts_late).log = [order_B, order_C, order_A] ∧
      (TaskQueueWin.init 0).enabled_all three_posts_stalled = true ∧
      three_posts_stalled.flatMap Action.tasks = [order_A, order_B, order_C] ∧
      runs ((TaskQueueWin.init 0).exec three_posts_stalled).log =
        [order_C, order_A, order_B] := by
  decide

/-- The amended claim C12 at an execution in which the worker keeps up: all
three tasks run, in the order `C, B, A`. -/
theorem C12_witness :
    runs ((TaskQueueWin.init 0).exec
        (three_posts order_A order_B order_C [] [] three_posts_timely)).log <+:
      [order_C, order_B, order_A] ∧
    runs ((TaskQueueWin.init 0).exec
        (three_posts order_A order_B order_C [] [] three_posts_timely)).log =
      [order_C, order_B, order_A] :=
  ⟨C12_three_posts_run_in_order_C_B_A 0 order_A order_B order_C [] [] three_posts_timely
    (by decide) (by decide) (by decide) (by decide) (by decide) (by decide) (by decide),
    by decide⟩

/-- C21: `TaskQueuePriorityToThreadPriority` maps HIGH to the realtime class,
NORMAL to the normal class and LOW to the low class, three different classes;
the queue `CreateTaskQueue` makes starts in the same state for every priority,
so every execution runs the same tasks in the same order whatever the
priority. -/
theorem C21_priority_sets_the_thread_class_only :
    TaskQueuePriorityToThreadPriority Priority.HIGH = ThreadPriority.kRealtimePriority ∧
    TaskQueuePriorityToThreadPriority Priority.NORMAL = ThreadPriority.kNormalPriority ∧
    TaskQueuePriorityToThreadPriority Priority.LOW = ThreadPriority.kLowPriority ∧
    Function.Injective TaskQueuePriorityToThreadPriority ∧
    (∀ (p : Priority) (clock : Int),
      (TaskQueueWinFactory.CreateTaskQueue p clock).thread_ =
        TaskQueuePriorityToThreadPriority p) ∧
    (∀ (p1 p2 : Priority) (clock : Int) (acts : List Action),
      (TaskQueueWinFactory.CreateTaskQueue p1 clock).queue.exec acts =
        (TaskQueueWinFactory.CreateTaskQueue p2 clock).queue.exec acts ∧
      runs ((TaskQueueWinFactory.CreateTaskQueue p1 clock).queue.exec acts).log =
        runs ((TaskQueueWinFactory.CreateTaskQueue p2 clock).queue.exec acts).log) := by
  refine ⟨rfl, rfl, rfl, ?_, fun _ _ => rfl, fun _ _ _ _ => ⟨rfl, rfl⟩⟩
  intro a b h
  cases a <;> cases b <;> first | rfl | cases h

/-- C22: for a heap built by inserting `entries` in any order, the due times
of the entries one call of `RunDueTasks` runs are in ascending order, and each
entry run is a minimum of what the heap holds at that moment, which is this
entry, the entries run after it and the entries `held` at the end; so it is
whether the call returns or stops at a failed check. The entries run and the
entries held make up the heap, the queue left when the call returns is
`held`, and the call returns exactly when an entry was inserted and no due
entry has the due time 0. -/
theorem C22_RunDueTasks_runs_in_due_time_order (entries : List DelayedTaskInfo) (now : Int) :
    ∃ (ran : List DelayedTaskInfo) (left : Option DueTimeHeap) (held : List DelayedTaskInfo),
      (entries.foldl DueTimeHeap.emplace []).RunDueTasks now = (ran, left) ∧
      List.Perm (ran ++ held) (entries.foldl DueTimeHeap.emplace []) ∧
      (∀ rest, left = some rest → rest = held) ∧
      ((∃ rest, left = some rest) ↔
        (entries ≠ [] ∧ ∀ e ∈ entries, e.due_time ≤ now → e.due_time_ ≠ 0)) ∧
      ran.Pairwise (fun a b => a.due_time ≤ b.due_time) ∧
      (ran.map DelayedTaskInfo.due_time).Sorted (fun a b => a ≤ b) ∧
      ∀ pre e post, ran = pre ++ e :: post → ∀ x ∈ e :: post ++ held, e.due_time ≤ x.due_time := by
  rw [DueTimeHeap.foldl_emplace, List.nil_append]
  obtain ⟨held, h1, h2, _, h4, h5⟩ := DueTimeHeap.RunDueTasks_ran entries now
  refine ⟨(DueTimeHeap.RunDueTasks entries now).1, (DueTimeHeap.RunDueTasks entries now).2, held,
    rfl, h1.symm, h5, DueTimeHeap.RunDueTasks_returns_iff entries now, h2,
    List.pairwise_map.mpr h2, ?_⟩
  intro pre e post hr x hx
  have he : e ∈ (DueTimeHeap.RunDueTasks entries now).1 := by rw [hr]; simp
  simp only [List.cons_append, List.mem_cons, List.mem_append] at hx
  rcases hx with hx | hx | hx
  · rw [hx]
  · rw [hr] at h2
    have := (List.pairwise_append.mp h2).2.1
    exact (List.pairwise_cons.mp this).1 x hx
  · exact h4 e he x hx

/-- The claim C22 at a heap of three entries of which two are due: the entry
due at 10 is run before the entry due at 20, and the entry due at 30 is left. -/
theorem C22_witness :
    (sample_entries.foldl DueTimeHeap.emplace []).RunDueTasks 20 =
        ([{ due_time_ := 10, task_ := { id := 2, result := false } },
          { due_time_ := 20, task_ := { id := 3, result := true } }],
         some [{ due_time_ := 30, task_ := { id := 1, result := true } }]) ∧
      ∃ (ran : List DelayedTaskInfo) (left : Option DueTimeHeap) (held : List DelayedTaskInfo),
        (sample_entries.foldl DueTimeHeap.emplace []).RunDueTasks 20 = (ran, left) ∧
        List.Perm (ran ++ held) (sample_entries.foldl DueTimeHeap.emplace []) ∧
        (∀ rest, left = some rest → rest = held) ∧
        ((∃ rest, left = some rest) ↔
          (sample_entries ≠ [] ∧ ∀ e ∈ sample_entries, e.due_time ≤ 20 → e.due_time_ ≠ 0)) ∧
        ran.Pairwise (fun a b => a.due_time ≤ b.due_time) ∧
        (ran.map DelayedTaskInfo.due_time).Sorted (fun a b => a ≤ b) ∧
        ∀ pre e post, ran = pre ++ e :: post →
          ∀ x ∈ e :: post ++ held, e.due_time ≤ x.due_time :=
  ⟨by decide, C22_RunDueTasks_runs_in_due_time_order sample_entries 20⟩

/-- C23: the comparator of the heap, `greater`, and `operator>` compare the due
times and nothing else; the relation is irreflexive, asymmetric and
transitive, and two entries are unordered either way exactly when their due
times are equal, which is an equivalence. -/
theorem C23_comparator_is_strict_weak_order_on_due_time :
    (∀ a b : DelayedTaskInfo, greater a b = true ↔ a.due_time > b.due_time) ∧
    (∀ a b : DelayedTaskInfo, a.gt b = true ↔ a.due_time > b.due_time) ∧
    (∀ (a b : DelayedTaskInfo) (t1 t2 : QueuedTask),
      greater { a with task_ := t1 } { b with task_ := t2 } = greater a b) ∧
    (∀ a : DelayedTaskInfo, greater a a = false) ∧
    (∀ a b : DelayedTaskInfo, greater a b = true → greater b a = false) ∧
    (∀ a b c : DelayedTaskInfo, greater a b = true → greater b c = true → greater a c = true) ∧
    (∀ a b : DelayedTaskInfo,
      (greater a b = false ∧ greater b a = false) ↔ a.due_time = b.due_time) ∧
    (∀ a b c : DelayedTaskInfo, (greater a b = false ∧ greater b a = false) →
      (greater b c = false ∧ greater c b = false) →
      (greater a c = false ∧ greater c a = false)) := by
  have key : ∀ a b : DelayedTaskInfo, greater a b = true ↔ a.due_time > b.due_time := by
    intro a b
    simp [greater, DelayedTaskInfo.gt, DelayedTaskInfo.due_time]
  have keyf : ∀ a b : DelayedTaskInfo, greater a b = false ↔ a.due_time ≤ b.due_time := by
    intro a b
    simp [greater, DelayedTaskInfo.gt, DelayedTaskInfo.due_time]
  refine ⟨key, key, fun _ _ _ _ => rfl, ?_, ?_, ?_, ?_, ?_⟩
  · intro a
    rw [keyf]
  · intro a b h
    rw [key] at h
    rw [keyf]
    omega
  · intro a b c h1 h2
    rw [key] at h1 h2 ⊢
    omega
  · intro a b
    rw [keyf, keyf]
    omega
  · intro a b c h1 h2
    rw [keyf, keyf] at h1 h2 ⊢
    omega

/-- The claim C23 at three entries due at 30, 20 and 10. -/
theorem C23_witness :
    greater { due_time_ := 30, task_ := { id := 1, result := true } }
      { due_time_ := 10, task_ := { id := 3, result := true } } = true :=
  C23_comparator_is_strict_weak_order_on_due_time.2.2.2.2.2.1
    { due_time_ := 30, task_ := { id := 1, result := true } }
    { due_time_ := 20, task_ := { id := 2, result := true } }
    { due_time_ := 10, task_ := { id := 3, result := true } } (by decide) (by decide)

/-- C25: a drain pass in which the tasks run call `PostTask`. With the fuel
the tasks queued at entry and those posted during the pass need, the pass
returns with `pending_` empty; it has run, once each and in this order, the
tasks queued at entry and then the tasks posted by the tasks it ran, so each
task posted during the pass was put behind the tasks queued before it and was
run in the same pass. In the transition system one iteration is the worker
step followed by the calls of `PostTask`. -/
theorem C25_reentrant_PostTask_in_drain_pass (q : TaskQueueWin)
    (posted : List (List QueuedTask)) :
    (∃ (ran : List QueuedTask) (q1 : TaskQueueWin),
      TaskQueueWin.RunPendingTasks_reentrant (q.pending_.length + posted.flatten.length + 1)
        posted q = some q1 ∧
      q1.pending_ = [] ∧
      ran = q.pending_ ++ (posted.take ran.length).flatten ∧
      runs_on Path.pending q1.log = runs_on Path.pending q.log ++ ran ∧
      runs q1.log = runs q.log ++ ran) ∧
    (∀ (t : QueuedTask) (rest posts : List QueuedTask) (mm_id user_id : Nat),
      q.phase = Phase.drain → q.pending_ = t :: rest →
      q.exec (Action.worker mm_id user_id :: posts.map Action.PostTask) =
        posts.foldl TaskQueueWin.PostTask
          { q with pending_ := rest, log := q.log ++ run_pending_task t } ∧
      (q.exec (Action.worker mm_id user_id :: posts.map Action.PostTask)).pending_ =
        rest ++ posts) := by
  constructor
  · obtain ⟨ran, q1, h1, h2, h3, h4, _, _⟩ :=
      TaskQueueWin.RunPendingTasks_reentrant_spec
        (q.pending_.length + posted.flatten.length + 1) posted q (Nat.lt_succ_self _)
    refine ⟨ran, q1, h1, h2, h3, ?_, ?_⟩
    · rw [h4, runs_on_append, runs_on_pending_tasks]
    · rw [h4, runs_append, runs_pending_tasks]
  · intro t rest posts mm_id user_id hph hp
    have hnf : q.phase ≠ Phase.failed := by rw [hph]; exact fun hc => by cases hc
    have hw : q.step (Action.worker mm_id user_id) =
        { q with pending_ := rest, log := q.log ++ run_pending_task t } := by
      rw [TaskQueueWin.step_worker q _ _ hnf]
      unfold TaskQueueWin.worker
      simp only [hph, TaskQueueWin.RunPendingTasks_iteration, hp]
    have hnf1 : ({ q with pending_ := rest, log := q.log ++ run_pending_task t } :
        TaskQueueWin).phase ≠ Phase.failed := hnf
    have he := (TaskQueueWin.exec_PostTask posts _ hnf1).1
    rw [TaskQueueWin.exec_cons, hw, he, TaskQueueWin.foldl_PostTask_eq]
    exact ⟨rfl, rfl⟩

/-- The claim C25 at a pass over two tasks of which the first posts a third
task and the third a fourth: all four run in this pass, in this order. -/
theorem C25_witness :
    (reentrant_sample.exec
        (Action.worker 0 0 :: [({ id := 3, result := true } : QueuedTask)].map
          Action.PostTask)).pending_ =
      [{ id := 2, result := false }, { id := 3, result := true }] ∧
    (TaskQueueWin.RunPendingTasks_reentrant 5
        [[{ id := 3, result := true }], [], [{ id := 4, result := true }]]
        reentrant_sample).map (fun q1 => (q1.pending_, runs q1.log)) =
      some ([], [{ id := 1, result := true }, { id := 2, result := false },
                 { id := 3, result := true }, { id := 4, result := true }]) :=
  ⟨((C25_reentrant_PostTask_in_drain_pass reentrant_sample []).2 { id := 1, result := true }
      [{ id := 2, result := false }] [{ id := 3, result := true }] 0 0 rfl rfl).2, by decide⟩

/-- C26 fails on the code: `RunDueTasks` is entered with an empty heap. In
the execution `cancel_race_wake`, in which every action can happen when its
turn comes, the multimedia timer sets its event inside `Cancel`, after
`ResetEvent`; once both entries have run the worker waits with the event
signalled and `timer_tasks_` empty, the wait returns `WAIT_OBJECT_0`, and the
next step of the worker calls `RunDueTasks` on the empty heap, whose check
`RTC_DCHECK(!timer_tasks_.empty())` fails. -/
theorem C26_RunDueTasks_entered_with_empty_heap :
    (TaskQueueWin.init 0).enabled_all (cancel_race_wake ++ [Action.worker 0 0]) = true ∧
      ((TaskQueueWin.init 0).exec cancel_race_wake).phase =
        Phase.timer_check WaitResult.object_0 ∧
      ((TaskQueueWin.init 0).exec cancel_race_wake).timer_.event_ = true ∧
      ((TaskQueueWin.init 0).exec cancel_race_wake).timer_.os_timer = none ∧
      ((TaskQueueWin.init 0).exec cancel_race_wake).user_timer = none ∧
      ((TaskQueueWin.init 0).exec cancel_race_wake).timer_tasks_ = [] ∧
      TaskQueueWin.RunDueTasks
        { (TaskQueueWin.init 0).exec cancel_race_wake with
          timer_ := ((TaskQueueWin.init 0).exec cancel_race_wake).timer_.Cancel } = none ∧
      ((TaskQueueWin.init 0).exec (cancel_race_wake ++ [Action.worker 0 0])).phase =
        Phase.failed := by
  decide

/-- C27 fails on the code: `ScheduleNextTimer` is entered with the fallback
timer outstanding. In the execution `cancel_race_fallback`, in which every
action can happen when its turn comes, the multimedia timer sets its event
inside `CancelTimers`, after `ResetEvent`, and `ScheduleNextTimer` starts the
fallback timer 5; the timer `if` of `RunThreadMain` then finds the event
signalled and runs the due entries, and its call of `ScheduleNextTimer` meets
`timer_id_ = 5`: the check `RTC_DCHECK_EQ(timer_id_, 0)` fails. -/
theorem C27_ScheduleNextTimer_entered_with_timer_outstanding :
    (TaskQueueWin.init 0).enabled_all (cancel_race_fallback ++ [Action.worker 0 0]) = true ∧
      ((TaskQueueWin.init 0).exec cancel_race_fallback).phase =
        Phase.main_schedule WaitResult.object_2 ∧
      ((TaskQueueWin.init 0).exec cancel_race_fallback).timer_id_ = 5 ∧
      ((TaskQueueWin.init 0).exec cancel_race_fallback).user_timer = some ⟨5, 0, 100⟩ ∧
      ((TaskQueueWin.init 0).exec cancel_race_fallback).timer_.timer_id_ = 0 ∧
      (∀ mm_id user_id : Nat,
        ((TaskQueueWin.init 0).exec cancel_race_fallback).ScheduleNextTimer mm_id user_id =
          none) ∧
      ((TaskQueueWin.init 0).exec (cancel_race_fallback ++ [Action.worker 0 0])).phase =
        Phase.failed := by
  refine ⟨by decide, by decide, by decide, by decide, by decide, ?_, by decide⟩
  intro mm_id user_id
  unfold TaskQueueWin.ScheduleNextTimer
  rw [if_pos (by decide)]

/-- C28: the delay `ScheduleNextTimer` computes fits `uint32_t`. The tick
counter of the model never goes backwards (a `tick` adds a natural number).
In every state an execution reaches from a queue constructed at a tick
`c ≥ 0`, while the tick counter is an `int64_t` value, each delayed entry the
engine holds (in `timer_tasks_` or still in the message queue) has
`due_time = tick + d` for a tick of the past and a `d ≤ 2^32 - 1`; the delay
`max(0, due_time - GetTick())` lies between 0 and `2^32 - 1` and the checked
cast returns it. So `ScheduleNextTimer` called in that state fails only on a
timer id, and the case `WM_QUEUE_DELAYED_TASK`, which cancels the timers
first, does not fail at all. -/
theorem C28_scheduled_delay_fits_uint32 (c : Int) (acts : List Action) (hc : 0 ≤ c)
    (hfin : ((TaskQueueWin.init c).exec acts).clock < 2 ^ 63) :
    (∀ e ∈ ((TaskQueueWin.init c).exec acts).delayed_entries,
      (∃ (tick : Int) (d : Nat), 0 ≤ tick ∧ tick ≤ ((TaskQueueWin.init c).exec acts).clock ∧
        d ≤ 2 ^ 32 - 1 ∧ e.due_time = int64_add tick d) ∧
      0 ≤ next_delay_ms e ((TaskQueueWin.init c).exec acts).GetTick ∧
      next_delay_ms e ((TaskQueueWin.init c).exec acts).GetTick ≤ 2 ^ 32 - 1 ∧
      dchecked_cast_uint32 (next_delay_ms e ((TaskQueueWin.init c).exec acts).GetTick) =
        some (next_delay_ms e ((TaskQueueWin.init c).exec acts).GetTick).toNat) ∧
    (∀ mm_id user_id : Nat, ((TaskQueueWin.init c).exec acts).timer_id_ = 0 →
      ((TaskQueueWin.init c).exec acts).timer_.timer_id_ = 0 →
      ∃ s1, ((TaskQueueWin.init c).exec acts).ScheduleNextTimer mm_id user_id = some s1) ∧
    (∀ (info : DelayedTaskInfo) (rest : List Msg) (mm_id user_id : Nat),
      ((TaskQueueWin.init c).exec acts).messages = Msg.queue_delayed_task info :: rest →
      ∃ s1, TaskQueueWin.queue_delayed_task
        { (TaskQueueWin.init c).exec acts with messages := rest } info mm_id user_id =
          some s1) := by
  have inv := TaskQueueWin.exec_posted_by acts (TaskQueueWin.init c) hc
    (by intro e he; simp [TaskQueueWin.delayed_entries, TaskQueueWin.init] at he)
  generalize (TaskQueueWin.init c).exec acts = q at inv hfin
  have hheap : ∀ e ∈ q.timer_tasks_, e.posted_by q.clock := fun e he =>
    inv e (List.mem_append.mpr (Or.inl he))
  refine ⟨?_, ?_, ?_⟩
  · intro e he
    obtain ⟨f1, f2⟩ := next_delay_ms_fits e q.clock (inv e he) hfin
    refine ⟨?_, f1, ?_, dchecked_cast_uint32_fits _ f1 f2⟩
    · obtain ⟨tick, d, h1, h2, h3, h4⟩ := inv e he
      refine ⟨tick, d, h1, h2, by omega, ?_⟩
      rw [h4]; rfl
    · simp only [TaskQueueWin.GetTick]
      omega
  · intro mm_id user_id h1 h2
    exact TaskQueueWin.ScheduleNextTimer_returns q mm_id user_id hheap hfin h1 h2
  · intro info rest mm_id user_id hm
    apply TaskQueueWin.queue_delayed_task_returns
    · exact hheap
    · apply inv
      simp [TaskQueueWin.delayed_entries, hm, Msg.entries]
    · exact hfin

/-- C28 at work: in the execution `delay_sample` from tick 0 the entry due at
100 is in the heap and the entry due at 50 in the message queue; at tick 30
their delays are 70 and 20. -/
theorem C28_witness :
    (0 : Int) ≤ 0 ∧ ((TaskQueueWin.init 0).exec delay_sample).clock < 2 ^ 63 ∧
      ((TaskQueueWin.init 0).exec delay_sample).delayed_entries.map
        (fun e => dchecked_cast_uint32
          (next_delay_ms e ((TaskQueueWin.init 0).exec delay_sample).GetTick)) =
        [some 70, some 20] ∧
      ∀ e ∈ ((TaskQueueWin.init 0).exec delay_sample).delayed_entries,
        dchecked_cast_uint32
            (next_delay_ms e ((TaskQueueWin.init 0).exec delay_sample).GetTick) =
          some (next_delay_ms e ((TaskQueueWin.init 0).exec delay_sample).GetTick).toNat :=
  ⟨by decide, by decide, by decide,
    fun e he => ((C28_scheduled_delay_fits_uint32 0 delay_sample (by decide) (by decide)).1
      e he).2.2.2⟩

/-- C29 fails on the code: after a timer signal was handled the event is
signalled although the heap is empty. In the execution `cancel_race_twice`,
in which every action can happen when its turn comes and every call of
`timeSetEvent` succeeds, the multimedia timer sets its event inside `Cancel`,
after `ResetEvent`, at both calls; when the worker has finished the timer
branch of `RunThreadMain` both entries have run and `timer_tasks_` is empty,
no timer is armed, and the event is signalled. -/
theorem C29_event_signalled_with_empty_heap :
    (TaskQueueWin.init 0).enabled_all cancel_race_twice = true ∧
      cancel_race_twice.all Action.arms_timer = true ∧
      ((TaskQueueWin.init 0).exec cancel_race_twice).phase =
        Phase.pending_check WaitResult.object_2 ∧
      runs ((TaskQueueWin.init 0).exec cancel_race_twice).log = [race_early, race_late] ∧
      ((TaskQueueWin.init 0).exec cancel_race_twice).timer_tasks_ = [] ∧
      ((TaskQueueWin.init 0).exec cancel_race_twice).timer_.os_timer = none ∧
      ((TaskQueueWin.init 0).exec cancel_race_twice).user_timer = none ∧
      ((TaskQueueWin.init 0).exec cancel_race_twice).timer_.event_ = true ∧
      ((TaskQueueWin.init 0).exec cancel_race_twice).wake_scheduled = true := by
  decide

end webrtc
